import Mathlib

/-!
# Chunked upload reassembly and TUID recognition

A shallow embedding of `backend/utils/imageMerge.js` (the upload session
tracker, the reassembler and the reaper), of the `/img` and `/ocr` handlers of
`backend/router/verify.js`, of `backend/utils/optimizedOCR.js` (`extractTUID`,
the local engine `extractTextFromImageFast` and its shared recognizer), of
`simpleRotationCheck` and `checkTextOrientation` from
`backend/utils/checkImgRotated.js`, of the cloud engine and the quota check of
`backend/utils/google_vision.js` and `backend/utils/count_OCR_api.js` (with
`getDate`), and of the client splitter `splitFileIntoChunks` of
`frontend/api/uploadImage.tsx`.

Modelling conventions.

* The image library, the recognizers and the remote services are
  collaborators: an environment gives the outcome of each of their calls in
  one run, and a handler returns, with its answer, the calls it made in order.
  A file derived from an image by `replace(extname, suffix)` has a name of its
  own.

* JavaScript numbers that the code treats as integers (`chunkIndex`,
  `totalChunks`, timestamps) are `Int`; `NaN` and values beyond the exact
  integer range of a double are outside the model, and so is the engine's
  limit on array lengths.  The arithmetic of `checkTextOrientation` on
  doubles is a parameter (`Doubles`).
* The file system is explicit state.  A scratch directory below `TEMP_DIR`
  is named by its last path component; a file `<dir>/<i>.tmp` is named by the
  pair of the directory and `i`.  A primitive fails only for the reason its
  Node contract gives on the modelled state (writing into a directory that
  does not exist); spontaneous faults of the medium are outside the model.
* An identifier that a handler of `verify.js` uses and the module binds to
  nothing (`imageMerge` in `/img`, `SID` in `/ocr`) is a parameter of the
  handler: `none` when unbound, as the module has it, in which case the
  handler's `catch` answers.
* `Date.now()` is a parameter `now` of every operation that reads the clock.
* `uploadTracker` is a finite map from session ids to tracker objects, kept
  as an association list; the order of its entries plays no part in any
  result.  Keys that collide with members of `Object.prototype` are outside
  the model.
-/

namespace OCRProject

/-! ## Data model -/

/-- The content of a `Buffer`: a sequence of byte values. -/
abbrev Bytes := List Nat

/-- The path `path.join(tempDir, idx + ".tmp")` of a stored chunk. -/
structure ChunkPath where
  dir : String
  idx : Nat
  deriving DecidableEq, Repr

/-- The path `path.join(UPLOAD_DIR, name + "_" + timestamp + ext)` of a
reassembled artifact, kept as the two values it is built from.  The code
takes `name` and `ext` from the last component of `FILENAME`, so two names that
differ only in their directory part give one path at one timestamp; here they
give two, and no statement compares the artifacts of two names. -/
structure FinalPath where
  FILENAME : String
  timestamp : Int
  deriving DecidableEq, Repr

/-- One entry of `uploadTracker`: the object created at lines 83-89 and
121-127 of `imageMerge.js`.  An empty slot of `chunks` (`null`, or a hole left
by an assignment beyond the end of the array) is `none`. -/
structure Tracker where
  chunks : List (Option ChunkPath)
  received : Nat
  total : Int
  tempDir : String
  startTime : Int
  deriving DecidableEq, Repr

/-- The session map `uploadTracker`. -/
abbrev UploadTracker := List (String × Tracker)

/-- The scratch directories below `TEMP_DIR` with the chunk files they hold,
and the files of `UPLOAD_DIR`. -/
structure FileSystem where
  temp : String → Option (Nat → Option Bytes)
  uploads : FinalPath → Option Bytes

/-- The state `imageMerge` works on: the session map and the file system. -/
structure MergeState where
  uploadTracker : UploadTracker
  fs : FileSystem

/-- The errors `imageMerge` throws. -/
inductive MergeError where
  /-- The error thrown by the parameter check at lines 75-77. -/
  | invalidParams
  /-- The error of `fs.writeFileSync` rethrown at line 149. -/
  | writeFailed
  /-- The error raised at line 180 for a missing chunk `i`. -/
  | chunkMissing (i : Nat)
  deriving DecidableEq, Repr

deriving instance DecidableEq for Except

/-! ## The session map -/

/-- The lookup `uploadTracker[sid]`. -/
def UploadTracker.get (m : UploadTracker) (sid : String) : Option Tracker :=
  match m with
  | [] => none
  | (k, t) :: rest => if k = sid then some t else UploadTracker.get rest sid

/-- The statement `delete uploadTracker[sid]`. -/
def UploadTracker.delete (m : UploadTracker) (sid : String) : UploadTracker :=
  match m with
  | [] => []
  | (k, t) :: rest =>
    if k = sid then UploadTracker.delete rest sid else (k, t) :: UploadTracker.delete rest sid

/-- The assignment `uploadTracker[sid] = t`, and the effect on the map of
mutating the tracker object stored under `sid`. -/
def UploadTracker.put (m : UploadTracker) (sid : String) (t : Tracker) : UploadTracker :=
  match m with
  | [] => [(sid, t)]
  | (k, v) :: rest =>
    if k = sid then (sid, t) :: UploadTracker.delete rest sid
    else (k, v) :: UploadTracker.put rest sid t

/-! ## File-system primitives -/

/-- The test `fs.existsSync(dir)` on a scratch directory. -/
def FileSystem.existsDir (fs : FileSystem) (d : String) : Bool :=
  (fs.temp d).isSome

/-- The call `fs.rmSync(dir, recursive, force)`. -/
def FileSystem.rmDir (fs : FileSystem) (d : String) : FileSystem :=
  { fs with temp := fun x => if x = d then none else fs.temp x }

/-- The call `fs.mkdirSync(dir, recursive)`: creates an empty directory, and
leaves an existing one as it is. -/
def FileSystem.mkdir (fs : FileSystem) (d : String) : FileSystem :=
  match fs.temp d with
  | some _ => fs
  | none => { fs with temp := fun x => if x = d then some (fun _ => none) else fs.temp x }

/-- The call `fs.readFileSync(p)`; `none` when the file does not exist (the
same test as `fs.existsSync(p)`). -/
def FileSystem.readFile (fs : FileSystem) (p : ChunkPath) : Option Bytes :=
  match fs.temp p.dir with
  | none => none
  | some g => g p.idx

/-- The call `fs.writeFileSync(p, data)`; `none` when it throws because the
directory does not exist. -/
def FileSystem.writeFile (fs : FileSystem) (p : ChunkPath) (data : Bytes) : Option FileSystem :=
  match fs.temp p.dir with
  | none => none
  | some g =>
    some { fs with
      temp := fun x =>
        if x = p.dir then some (fun j => if j = p.idx then some data else g j) else fs.temp x }

/-- The call `fs.writeFileSync(finalPath, data)` into `UPLOAD_DIR`. -/
def FileSystem.writeUpload (fs : FileSystem) (p : FinalPath) (data : Bytes) : FileSystem :=
  { fs with uploads := fun x => if x = p then some data else fs.uploads x }

/-! ## `imageMerge.js` -/

/-- The function `cleanupTempFiles` of lines 17-26: removes the tracker's
scratch directory when it exists. -/
def cleanupTempFiles (tracker : Tracker) (fs : FileSystem) : FileSystem :=
  if fs.existsDir tracker.tempDir then fs.rmDir tracker.tempDir else fs

/-- The default of the parameter `maxAge` (5 minutes, in milliseconds). -/
def DEFAULT_MAX_AGE : Int := 300000

/-- The body of the loop of `cleanupOldUploads` (lines 58-62) for one entry
of the map, at clock reading `now`. -/
def reapEntry (maxAge : Int) (now : Int) (st : MergeState) (entry : String × Tracker) :
    MergeState :=
  if entry.2.startTime ≠ 0 ∧ now - entry.2.startTime > maxAge then
    { uploadTracker := st.uploadTracker.delete entry.1
      fs := cleanupTempFiles entry.2 st.fs }
  else st

/-- The function `cleanupOldUploads` of lines 55-64, run at clock reading
`now`: one pass over the entries the map has when the call starts. -/
def cleanupOldUploads (maxAge : Int) (now : Int) (st : MergeState) : MergeState :=
  st.uploadTracker.foldl (reapEntry maxAge now) st

/-- The read `tracker.chunks[i]`: `none` for `null`, a hole, or an index
beyond the end of the array. -/
def slot (chunks : List (Option ChunkPath)) (i : Nat) : Option ChunkPath :=
  chunks.getD i none

/-- The assignment `tracker.chunks[i] = p`; beyond the end of the array it
grows the array and leaves holes. -/
def setSlot (chunks : List (Option ChunkPath)) (i : Nat) (p : ChunkPath) :
    List (Option ChunkPath) :=
  if i < chunks.length then chunks.set i (some p)
  else chunks ++ List.replicate (i - chunks.length) none ++ [some p]

/-- The tracker object created for a new session (lines 83-89, 121-127). -/
def newSession (SID : String) (totalChunks : Int) (now : Int) : Tracker :=
  { chunks := List.replicate totalChunks.toNat none
    received := 0
    total := totalChunks
    tempDir := SID
    startTime := now }

/-- Lines 79-133 of `imageMerge`: creates the session when there is none,
replaces it when the declared total differs, and returns the tracker object
the rest of the call works on. -/
def openSession (SID : String) (totalChunks : Int) (now : Int) (st : MergeState) :
    Tracker × MergeState :=
  match st.uploadTracker.get SID with
  | none =>
    let fs1 := if st.fs.existsDir SID then st.fs.rmDir SID else st.fs
    (newSession SID totalChunks now,
      { uploadTracker := st.uploadTracker.put SID (newSession SID totalChunks now)
        fs := fs1.mkdir SID })
  | some old =>
    if old.total ≠ totalChunks then
      let fs1 := if st.fs.existsDir old.tempDir then st.fs.rmDir old.tempDir else st.fs
      (newSession SID totalChunks now,
        { uploadTracker := st.uploadTracker.put SID (newSession SID totalChunks now)
          fs := fs1.mkdir SID })
    else (old, st)

/-- The loop of lines 178-185 over the indices `is`: the buffers read, or the
error for the first index whose slot is empty or whose file is missing. -/
def readChunks (fs : FileSystem) (chunks : List (Option ChunkPath)) :
    List Nat → Except MergeError (List Bytes)
  | [] => .ok []
  | i :: is =>
    match slot chunks i with
    | none => .error (.chunkMissing i)
    | some p =>
      match fs.readFile p with
      | none => .error (.chunkMissing i)
      | some b =>
        match readChunks fs chunks is with
        | .error e => .error e
        | .ok bs => .ok (b :: bs)

/-- The outcome of lines 135-153 of `imageMerge`. -/
inductive StoreResult where
  /-- The slot is already filled: the return of line 138. -/
  | duplicate
  /-- The write threw: the state left by the handler of lines 145-150. -/
  | failed (st : MergeState)
  /-- The chunk is stored: the tracker object and the state after line 153. -/
  | stored (tracker : Tracker) (st : MergeState)

/-- Lines 135-153 of `imageMerge`, on the tracker object `tracker` of session
`SID`: the duplicate check and the store of the chunk. -/
def storeChunk (SID : String) (data : Bytes) (i : Nat) (tracker : Tracker) (st : MergeState) :
    StoreResult :=
  match slot tracker.chunks i with
  | some _ => .duplicate
  | none =>
    match st.fs.writeFile ⟨tracker.tempDir, i⟩ data with
    | none => .failed { st with fs := cleanupTempFiles tracker st.fs }
    | some fs2 =>
      let tracker2 : Tracker :=
        { tracker with
          chunks := setSlot tracker.chunks i ⟨tracker.tempDir, i⟩
          received := tracker.received + 1 }
      .stored tracker2 { uploadTracker := st.uploadTracker.put SID tracker2, fs := fs2 }

/-- Lines 159-213 of `imageMerge`, on the tracker object of session `SID` after
the store: the completion check, the merge and the cleanup. -/
def mergeChunks (FILENAME SID : String) (now : Int) (tracker : Tracker) (st : MergeState) :
    Except MergeError (Option FinalPath) × MergeState :=
  if (tracker.received : Int) = tracker.total then
    match readChunks st.fs tracker.chunks (List.range tracker.total.toNat) with
    | .error e => (.error e, { st with fs := cleanupTempFiles tracker st.fs })
    | .ok buffers =>
      (.ok (some ⟨FILENAME, now⟩),
        { uploadTracker := st.uploadTracker.delete SID
          fs := cleanupTempFiles tracker (st.fs.writeUpload ⟨FILENAME, now⟩ buffers.flatten) })
  else (.ok none, st)

/-- Lines 135-213 of `imageMerge`, on the tracker object `tracker` of session
`SID`: the duplicate check, the store, the completion check and the merge. -/
def storeAndMerge (FILENAME SID : String) (data : Bytes) (i : Nat) (now : Int)
    (tracker : Tracker) (st : MergeState) : Except MergeError (Option FinalPath) × MergeState :=
  match storeChunk SID data i tracker st with
  | .duplicate => (.ok none, st)
  | .failed st1 => (.error .writeFailed, st1)
  | .stored tracker2 st2 => mergeChunks FILENAME SID now tracker2 st2

/-- The function `imageMerge` of lines 66-214.  `chunkData` is `none` for a
missing buffer; the result is the thrown error, or the returned value
(`none` for `undefined`), together with the state the call leaves. -/
def imageMerge (FILENAME SID : String) (chunkData : Option Bytes) (chunkIndex totalChunks : Int)
    (now : Int) (st : MergeState) : Except MergeError (Option FinalPath) × MergeState :=
  match chunkData with
  | none => (.error .invalidParams, st)
  | some data =>
    if FILENAME = "" ∨ SID = "" ∨ chunkIndex < 0 ∨ totalChunks ≤ 0 then
      (.error .invalidParams, st)
    else
      let opened := openSession SID totalChunks now st
      storeAndMerge FILENAME SID data chunkIndex.toNat now opened.1 opened.2

/-- The empty file system. -/
def FileSystem.empty : FileSystem :=
  { temp := fun _ => none, uploads := fun _ => none }

/-- The state of a freshly started process. -/
def MergeState.init : MergeState :=
  { uploadTracker := [], fs := FileSystem.empty }

/-! ## The `/img` handler of `verify.js` -/

/-- The multipart request after `multer`, with its fields decoded the way the
handler decodes them.  `CHUNK_IDX` and `CHUNK_TOTAL` are `none` when the field
is absent or empty and otherwise the value of `parseInt`; `PAYLOAD` is `none`
when the field is absent or empty and otherwise the `TUID` member of the
parsed object (`""` when it has none); `FILENAME` is `""` when absent;
`buffer` is `req.file?.buffer`. -/
structure ImgRequest where
  CHUNK_IDX : Option Int
  CHUNK_TOTAL : Option Int
  FILENAME : String
  PAYLOAD : Option String
  buffer : Option Bytes

/-- The reasons for which the handler answers with validity `false`. -/
inductive ImgFailure where
  /-- The check of lines 107-115. -/
  | missingParams
  /-- The check of line 120. -/
  | missingSID
  /-- The `ReferenceError` thrown at line 129 when the identifier `imageMerge`
  is bound to nothing, caught at line 162. -/
  | notDefined
  /-- An error thrown by `imageMerge`, caught at line 162. -/
  | mergeError (e : MergeError)
  /-- The check of lines 155-158. -/
  | fileNotCreated
  deriving DecidableEq, Repr

/-- The answers of the handler: `send('false', ..)`, `send('progress', ..)`
and `send('true', imagePath, ..)`. -/
inductive ImgResponse where
  | failure (reason : ImgFailure)
  | progress (chunk : Int) (total : Int) (sid : String)
  | done (imagePath : FinalPath)
  deriving DecidableEq, Repr

/-- The arguments `FILENAME`, `SID`, `chunkData`, `chunkIndex` and
`totalChunks` that lines 117-124 of the handler compute. -/
structure MergeArgs where
  FILENAME : String
  SID : String
  chunkData : Bytes
  chunkIndex : Int
  totalChunks : Int
  deriving DecidableEq, Repr

/-- Lines 103-124 of the `/img` handler: the checks of lines 107-115 and 120,
and the arguments of the call of line 129 when they pass. -/
def imgChecks (req : ImgRequest) : Except ImgFailure MergeArgs :=
  match req.CHUNK_IDX, req.CHUNK_TOTAL, req.PAYLOAD, req.buffer with
  | some chunkIndex, some totalChunks, some SID, some chunkData =>
    if req.FILENAME = "" then .error .missingParams
    else if SID = "" then .error .missingSID
    else .ok ⟨req.FILENAME, SID, chunkData, chunkIndex, totalChunks⟩
  | _, _, _, _ => .error .missingParams

/-- The type of the function `imageMerge`, the map `uploadTracker` being part
of the state. -/
abbrev MergeFunction :=
  String → String → Option Bytes → Int → Int → Int → MergeState →
    Except MergeError (Option FinalPath) × MergeState

/-- The handler `router.post('/img', ..)` of lines 75-167 of `verify.js`.
`scopeImageMerge` is the value the identifier `imageMerge` of line 129 is bound
to in the scope of the handler; `none` when it is bound to nothing, in which
case evaluating the call of line 129 throws and the handler of line 162
answers, the state being as it was. -/
def imgHandler (scopeImageMerge : Option MergeFunction) (req : ImgRequest) (now : Int)
    (st : MergeState) : ImgResponse × MergeState :=
  match imgChecks req with
  | .error reason => (.failure reason, st)
  | .ok args =>
    match scopeImageMerge with
    | none => (.failure .notDefined, st)
    | some merge =>
      match merge args.FILENAME args.SID (some args.chunkData) args.chunkIndex
          args.totalChunks now st with
      | (.error e, st1) => (.failure (.mergeError e), st1)
      | (.ok none, st1) => (.progress (args.chunkIndex + 1) args.totalChunks args.SID, st1)
      | (.ok (some imagePath), st1) =>
        if (st1.fs.uploads imagePath).isSome then (.done imagePath, st1)
        else (.failure .fileNotCreated, st1)

/-- The `/img` handler as `verify.js` has it: the module neither imports nor
defines `imageMerge`. -/
def postImg (req : ImgRequest) (now : Int) (st : MergeState) : ImgResponse × MergeState :=
  imgHandler none req now st

/-! ## `extractTUID` of `optimizedOCR.js`

A JavaScript string is the list of its characters. -/

/-- The character class `[A-Za-z0-9\n]` of line 188. -/
def keptChar (c : Char) : Bool :=
  ('A' ≤ c && c ≤ 'Z') || ('a' ≤ c && c ≤ 'z') || ('0' ≤ c && c ≤ '9') || c == '\n'

/-- The character class `[0-9]`. -/
def isDigit (c : Char) : Bool :=
  '0' ≤ c && c ≤ '9'

/-- The character class `[AB4856]`. -/
def isLead (c : Char) : Bool :=
  c == 'A' || c == 'B' || c == '4' || c == '8' || c == '5' || c == '6'

/-- The call `text.replace(/[^A-Za-z0-9\n]/g, '')` of line 188. -/
def cleanText (text : List Char) : List Char :=
  text.filter keptChar

/-- The call `cleanText.split('\n')` of line 189. -/
def splitLines : List Char → List (List Char)
  | [] => [[]]
  | c :: cs =>
    if c = '\n' then [] :: splitLines cs
    else
      match splitLines cs with
      | [] => [[c]]
      | l :: ls => (c :: l) :: ls

/-- The loop of lines 195-199: the lines of 18 to 31 characters. -/
def candidates (lines : List (List Char)) : List (List Char) :=
  lines.filter (fun line => decide (18 ≤ line.length) && decide (line.length ≤ 31))

/-- An attempt to match `[AB4856][0-9]{15,30}` at the start of `s`: the
quantifier is greedy and nothing follows it, so it takes the longest run of
digits, up to 30. -/
def matchHere (s : List Char) : Option (List Char) :=
  match s with
  | [] => none
  | c :: rest =>
    if isLead c then
      let digits := (rest.takeWhile isDigit).take 30
      if 15 ≤ digits.length then some (c :: digits) else none
    else none

/-- The value `matches[0]` of `candidate.match(/[AB4856][0-9]{15,30}/)`: the
match at the leftmost position that has one, `none` when the result is `null`. -/
def matchTUID (s : List Char) : Option (List Char) :=
  match s with
  | [] => none
  | c :: rest =>
    match matchHere (c :: rest) with
    | some m => some m
    | none => matchTUID rest

/-- The correction of lines 213-215 applied to `matches[0]`. -/
def correctLead (tuid : List Char) : List Char :=
  match tuid with
  | [] => []
  | firstChar :: rest =>
    let tuid1 := if firstChar = '4' then 'A' :: rest else firstChar :: rest
    if firstChar = '8' ∨ firstChar = '5' ∨ firstChar = '6' then 'B' :: tuid1.drop 1 else tuid1

/-- The loop of lines 202-219 over the candidates. -/
def firstMatch : List (List Char) → Option (List Char)
  | [] => none
  | candidate :: rest =>
    match matchTUID candidate with
    | some m => some (correctLead m)
    | none => firstMatch rest

/-- The function `extractTUID` of lines 184-222; `none` is `null`. -/
def extractTUID (text : List Char) : Option (List Char) :=
  if text = [] then none
  else firstMatch (candidates (splitLines (cleanText text)))

/-! ## Client runs -/

/-- One request of a client: the chunk index, the chunk bytes and the clock
reading at which the server handles it. -/
structure Call where
  idx : Nat
  data : Bytes
  now : Int
  deriving DecidableEq, Repr

/-- The calls `imageMerge(FILENAME, SID, data, idx, totalChunks, uploadTracker)`
made one after the other for a list of requests: the result of every call and
the state left by the last. -/
def uploadRun (FILENAME SID : String) (totalChunks : Int) :
    List Call → MergeState → List (Except MergeError (Option FinalPath)) × MergeState
  | [], st => ([], st)
  | c :: rest, st =>
    let r := imageMerge FILENAME SID (some c.data) c.idx totalChunks c.now st
    let rs := uploadRun FILENAME SID totalChunks rest r.2
    (r.1 :: rs.1, rs.2)

/-- The bytes first submitted for index `i` in a list of requests. -/
def firstData (calls : List Call) (i : Nat) : Bytes :=
  match calls.find? (fun c => decide (c.idx = i)) with
  | some c => c.data
  | none => []

/-- The indices submitted by a list of requests. -/
def idxSet (calls : List Call) : Finset Nat :=
  (calls.map Call.idx).toFinset

/-- Every request of `calls` that brings an index not yet in `done`, and not
brought by an earlier request of the list, carries the bytes `chunk` gives to
that index. -/
def FirstWins (chunk : Nat → Bytes) : Finset Nat → List Call → Prop
  | _, [] => True
  | done, c :: cs =>
    (c.idx ∉ done → c.data = chunk c.idx) ∧ FirstWins chunk (insert c.idx done) cs

/-- The number of filled slots of a slot array. -/
def countFilled (chunks : List (Option ChunkPath)) : Nat :=
  (chunks.filter Option.isSome).length

/-- The session `SID` is the tracker object `t`, declared for `N` chunks, and
holds exactly the indices of `done`, each stored in its own file of the
session's scratch directory with the bytes `chunk` gives it. -/
def Stored (SID : String) (N : Nat) (chunk : Nat → Bytes) (done : Finset Nat) (t : Tracker)
    (st : MergeState) : Prop :=
  st.uploadTracker.get SID = some t ∧ t.total = (N : Int) ∧ t.tempDir = SID ∧
  t.received = done.card ∧ (∀ i ∈ done, i < N) ∧ (∀ i, i ∉ done → slot t.chunks i = none) ∧
  ∃ g, st.fs.temp SID = some g ∧
    ∀ i ∈ done, slot t.chunks i = some ⟨SID, i⟩ ∧ g i = some (chunk i)

/-- The tracker object of the session and the state right after lines 141-153
of a call of `imageMerge` have stored the chunk of that call; `none` when the
call stores nothing (rejected parameters, a duplicate, a failed write). -/
def storedSession (FILENAME SID : String) (chunkData : Option Bytes)
    (chunkIndex totalChunks : Int) (now : Int) (st : MergeState) : Option (Tracker × MergeState) :=
  match chunkData with
  | none => none
  | some data =>
    if FILENAME = "" ∨ SID = "" ∨ chunkIndex < 0 ∨ totalChunks ≤ 0 then none
    else
      match storeChunk SID data chunkIndex.toNat (openSession SID totalChunks now st).1
          (openSession SID totalChunks now st).2 with
      | .stored tracker st2 => some (tracker, st2)
      | _ => none

/-- The states the server can be in: it starts with an empty session map, and
then any calls of `imageMerge` and of `cleanupOldUploads` follow one another,
while the files of the scratch and upload directories may also be changed from
outside these two functions (the helpers of `cleanupTempFiles.js`,
`cleanupAllOldTempFiles`, the `/ocr` handler). -/
inductive Reachable : MergeState → Prop where
  | init (fs : FileSystem) : Reachable { uploadTracker := [], fs := fs }
  | merge (FILENAME SID : String) (chunkData : Option Bytes) (chunkIndex totalChunks : Int)
      (now : Int) (st : MergeState) :
      Reachable st → Reachable (imageMerge FILENAME SID chunkData chunkIndex totalChunks now st).2
  | reap (maxAge now : Int) (st : MergeState) :
      Reachable st → Reachable (cleanupOldUploads maxAge now st)
  | files (fs : FileSystem) (st : MergeState) :
      Reachable st → Reachable { st with fs := fs }

/-- Every session of the map counts in `received` the filled slots of its
slot array. -/
def CountsFilled (st : MergeState) : Prop :=
  ∀ sid t, st.uploadTracker.get sid = some t → t.received = countFilled t.chunks

/-! ## The extraction rule in the words of the specification -/

/-- The specification's candidate: a line whose length is within [18, 31]. -/
def IsCandidate (line : List Char) : Prop :=
  18 ≤ line.length ∧ line.length ≤ 31

/-- The specification's pattern at the start of `s`: one character of
{A, B, 4, 5, 6, 8} followed by at least 15 digits. -/
def StartsWithPattern (s : List Char) : Prop :=
  ∃ c ds post, s = c :: ds ++ post ∧ isLead c = true ∧ (∀ d ∈ ds, isDigit d = true) ∧
    15 ≤ ds.length

/-- The specification's "contains the pattern": the pattern starts at some
position of the line. -/
def ContainsPattern (line : List Char) : Prop :=
  ∃ pre s, line = pre ++ s ∧ StartsWithPattern s

/-- The specification's first occurrence of the pattern in `line`, split as
`pre ++ c :: ds ++ post`: `c` is a leading character and `ds` are 15 to 30
digits, as many as there are (30, or up to the first character that is not a
digit), and the pattern starts at no earlier position. -/
def LeftmostGreedyMatch (line pre : List Char) (c : Char) (ds post : List Char) : Prop :=
  line = pre ++ c :: ds ++ post ∧ isLead c = true ∧ (∀ d ∈ ds, isDigit d = true) ∧
  15 ≤ ds.length ∧ ds.length ≤ 30 ∧
  (ds.length = 30 ∨ ∀ x rest, post = x :: rest → isDigit x = false) ∧
  ∀ k, k < pre.length → ¬ StartsWithPattern (line.drop k)

/-- The specification's correction of the leading character: '4' becomes 'A';
'8', '5' and '6' become 'B'; any other character stays. -/
def correctedLead (c : Char) : Char :=
  if c = '4' then 'A' else if c = '8' ∨ c = '5' ∨ c = '6' then 'B' else c

/-! ## `checkImgRotated.js` and the local engine of `optimizedOCR.js`

The image library, the recognizer and the remote services are collaborators:
what each of their calls does in one run is given by an environment. -/

/-- The members of `sharp(imagePath).metadata()` that the code reads; `none`
is `undefined`. -/
structure Metadata where
  orientation : Option Nat
  width : Option Nat
  height : Option Nat
  deriving DecidableEq, Repr

/-- The function `simpleRotationCheck` of lines 9-56 of `checkImgRotated.js`.
`metadata` is the outcome of `sharp(imagePath).metadata()`, `none` when it
throws, and `textOrientation` is the value of `checkTextOrientation(imagePath)`,
which catches its own errors.  The quotient `width / height` is compared with
1.5 and 0.7 exactly. -/
def simpleRotationCheck (metadata : Option Metadata) (textOrientation : Bool) : Bool :=
  match metadata with
  | none => false
  | some m =>
    if m.orientation ≠ none ∧ m.orientation ≠ some 0 ∧ m.orientation ≠ some 1 then true
    else
      match m.width, m.height with
      | some width, some height =>
        if width = 0 ∨ height = 0 then false
        else if 3 * height < 2 * width then false
        else if 10 * width < 7 * height then false
        else textOrientation
      | _, _ => false

/-- The files the recognition pipeline touches: the image named by the
request, its rotated copy `imagePath.replace(extname, '_rotated.png')`, and the
derivative `inputPath.replace(extname, '_fast.png')` of a file. -/
inductive ImgPath where
  | image (path : String)
  | rotated (path : String)
  | fast (src : ImgPath)
  deriving DecidableEq, Repr

/-- The files that exist, as `fs.existsSync` sees them. -/
abbrev Storage := ImgPath → Bool

/-- The call `fs.unlinkSync(p)`. -/
def Storage.unlink (storage : Storage) (p : ImgPath) : Storage :=
  fun q => if q = p then false else storage q

/-- The effect of a successful `toFile(p)`. -/
def Storage.create (storage : Storage) (p : ImgPath) : Storage :=
  fun q => if q = p then true else storage q

/-- What the collaborators of `extractTextFromImageFast` do in one run. -/
structure LocalEnv where
  /-- The outcome of `sharp(imagePath).metadata()` in `simpleRotationCheck`. -/
  metadata : Option Metadata
  /-- The value of `checkTextOrientation(imagePath)`. -/
  textOrientation : Bool
  /-- Whether `sharp(inputPath).rotate().toFile(outputPath)` succeeds. -/
  autoRotate : Bool
  /-- Whether the `sharp` calls of `fastPreprocess` succeed. -/
  preprocess : Bool
  /-- The text `result.data?.text || ''` of `getOCRWorker()` followed by
  `worker.recognize(path)`; `none` when one of them throws. -/
  recognize : ImgPath → Option (List Char)

/-- The function `autoRotateImage` of lines 161-173 of `checkImgRotated.js`. -/
def autoRotateImage (succeeds : Bool) (outputPath : ImgPath) (storage : Storage) :
    Bool × Storage :=
  if succeeds then (true, storage.create outputPath) else (false, storage)

/-- The function `fastPreprocess` of lines 34-70 of `optimizedOCR.js`: the path
of the derivative, or the input path when a step fails. -/
def fastPreprocess (succeeds : Bool) (inputPath : ImgPath) (storage : Storage) :
    ImgPath × Storage :=
  if succeeds then (.fast inputPath, storage.create (.fast inputPath)) else (inputPath, storage)

/-- The values of `error` in a failure result of `extractTextFromImageFast`. -/
inductive LocalError where
  /-- The result of lines 106-111: the image is rotated and was not corrected. -/
  | stillRotated
  /-- The result of lines 173-179: the message of a caught error. -/
  | thrown
  deriving DecidableEq, Repr

/-- The removal of the temporary files at lines 140-148 and 160-171. -/
def removeDerivatives (imagePath : String) (preprocessedPath : ImgPath)
    (rotatedImagePath : Option ImgPath) (storage : Storage) : Storage :=
  let storage1 :=
    if preprocessedPath ≠ .image imagePath ∧ storage preprocessedPath = true then
      storage.unlink preprocessedPath
    else storage
  match rotatedImagePath with
  | some r => if storage1 r = true then storage1.unlink r else storage1
  | none => storage1

/-- Lines 123-180 of `extractTextFromImageFast`: preprocessing, recognition and
the removal of the temporary files. -/
def recognizeStage (env : LocalEnv) (imagePath : String) (rotatedImagePath : Option ImgPath)
    (storage : Storage) : Except LocalError (List Char) × Storage :=
  let imageToProcess := rotatedImagePath.getD (.image imagePath)
  let prepared := fastPreprocess env.preprocess imageToProcess storage
  match env.recognize prepared.1 with
  | some text => (.ok text, removeDerivatives imagePath prepared.1 rotatedImagePath prepared.2)
  | none => (.error .thrown, removeDerivatives imagePath prepared.1 rotatedImagePath prepared.2)

/-- The function `extractTextFromImageFast` of lines 73-181 of
`optimizedOCR.js`: the recognized text of a success result or the error of a
failure result, and the files left.  Nothing inside the `try` of lines 93-112
throws (`autoRotateImage` catches its own errors), so the handler of lines
113-120 has no case here. -/
def extractTextFromImageFast (env : LocalEnv) (imagePath : String) (storage : Storage) :
    Except LocalError (List Char) × Storage :=
  let isRotated := simpleRotationCheck env.metadata env.textOrientation
  if isRotated then
    let rotation := autoRotateImage env.autoRotate (.rotated imagePath) storage
    if rotation.1 = true ∧ rotation.2 (.rotated imagePath) = true then
      recognizeStage env imagePath (some (.rotated imagePath)) rotation.2
    else (.error .stillRotated, rotation.2)
  else recognizeStage env imagePath none storage

/-! ## `google_vision.js` and `count_OCR_api.js` -/

/-- The character class `[A-Za-z]`. -/
def isLetter (c : Char) : Bool :=
  ('A' ≤ c && c ≤ 'Z') || ('a' ≤ c && c ≤ 'z')

/-- An attempt to match `[A-Za-z]\d{29}|\d{30}` at the start of `s`. -/
def visionMatchHere (s : List Char) : Option (List Char) :=
  match s with
  | [] => none
  | c :: rest =>
    if isLetter c && decide ((rest.take 29).length = 29) && (rest.take 29).all isDigit then
      some (c :: rest.take 29)
    else if decide (((c :: rest).take 30).length = 30) && ((c :: rest).take 30).all isDigit then
      some ((c :: rest).take 30)
    else none

/-- The value `fullText?.match(/[A-Za-z]\d{29}|\d{30}/g)?.[0]` of line 76: the
leftmost match, `none` for `undefined`. -/
def visionMatch (s : List Char) : Option (List Char) :=
  match s with
  | [] => none
  | c :: rest =>
    match visionMatchHere (c :: rest) with
    | some m => some m
    | none => visionMatch rest

/-- The correction of lines 88-98: the comparisons with the numbers 4 and 8
never hold for a string, and `replace` changes the first character. -/
def visionCorrect (matched : List Char) : List Char :=
  match matched with
  | [] => []
  | fstStr :: rest =>
    if fstStr = '4' then 'A' :: rest
    else if fstStr = '8' then 'B' :: rest
    else fstStr :: rest

/-- The outcome of `client.textDetection(imagePath)`. -/
inductive VisionReply where
  /-- The call throws. -/
  | error
  /-- No annotation is returned. -/
  | noText
  /-- The description of the first annotation (an absent description gives
  no match, like the empty text). -/
  | text (fullText : List Char)
  deriving DecidableEq, Repr

/-- What the collaborators of `detectTextWithGoogleVision` do in one run. -/
structure CloudEnv where
  /-- Whether the key file of line 31 exists. -/
  keyFileExists : Bool
  vision : VisionReply
  /-- The member `ok` of the result of `logInsert.save()`; `none` when it
  throws. -/
  logSave : Option Bool

/-- The payloads of the failure results of `detectTextWithGoogleVision`. -/
inductive CloudFailure where
  | imageNotFound
  | keyNotFound
  | noMatch
  | logFailed
  | noText
  | apiError
  deriving DecidableEq, Repr

/-- The calls `detectTextWithGoogleVision` makes to its collaborators. -/
inductive CloudEvent where
  /-- The call `client.textDetection(imagePath)` of line 61. -/
  | provider
  /-- The call `logInsert.save()` of line 113, with the logged identifier. -/
  | usageLog (tuid : List Char)
  deriving DecidableEq, Repr

/-- The function `detectTextWithGoogleVision` of lines 24-138 of
`google_vision.js`: the payload of a result with `ok: true` or the failure of a
result with `ok: false`, and the calls made. -/
def detectTextWithGoogleVision (env : CloudEnv) (imageExists : Bool) :
    Except CloudFailure (List Char) × List CloudEvent :=
  if !imageExists then (.error .imageNotFound, [])
  else if !env.keyFileExists then (.error .keyNotFound, [])
  else
    match env.vision with
    | .error => (.error .apiError, [.provider])
    | .noText => (.error .noText, [.provider])
    | .text fullText =>
      match visionMatch fullText with
      | none => (.error .noMatch, [.provider])
      | some matched =>
        let finalTuid := visionCorrect matched
        match env.logSave with
        | none => (.error .apiError, [.provider, .usageLog finalTuid])
        | some false => (.error .logFailed, [.provider, .usageLog finalTuid])
        | some true => (.ok finalTuid, [.provider, .usageLog finalTuid])

/-- The values of the member `count` of a result of `count_OCR_api`. -/
inductive CountValue where
  | undefined
  | null
  | nan
  | num (n : Int)
  deriving DecidableEq, Repr

/-- The comparison `count > maxCount` of JavaScript. -/
def CountValue.gt (count : CountValue) (maxCount : Int) : Bool :=
  match count with
  | .num n => decide (n > maxCount)
  | .null => decide (0 > maxCount)
  | _ => false

/-- The result object of `count_OCR_api`. -/
structure CountResult where
  ok : Bool
  count : CountValue
  deriving DecidableEq, Repr

/-- The outcome of the request `axios.post(API_PATH, data, headers)` of line 45
of `count_OCR_api.js`. -/
inductive DbReply where
  /-- The request throws: the collaborator is unavailable. -/
  | unavailable
  /-- The member `validity` of the reply is not `'true'`. -/
  | invalid
  /-- The reply has no member `data`. -/
  | noData
  /-- The member `data` has no array `DATA`: reading `DATA[0]` throws. -/
  | noDATA
  /-- The array `DATA` is empty, or its first row has no `TUID`. -/
  | noRow
  /-- The value of `Number(DATA[0].TUID)`; `none` is `NaN`. -/
  | value (n : Option Int)
  deriving DecidableEq, Repr

/-- The function `count_OCR_api` of lines 21-64 of `count_OCR_api.js`: the
result object, or `none` when it throws (line 62 throws every caught error
again). -/
def count_OCR_api (reply : DbReply) : Option CountResult :=
  match reply with
  | .unavailable => none
  | .invalid => some { ok := false, count := .null }
  | .noData => some { ok := true, count := .nan }
  | .noDATA => none
  | .noRow => some { ok := true, count := .nan }
  | .value none => some { ok := true, count := .nan }
  | .value (some n) => some { ok := true, count := .num n }

/-! ## The `/ocr` handler of `verify.js` -/

/-- What the collaborators of the `/ocr` handler do in one request. -/
structure OcrEnv where
  localEngine : LocalEnv
  /-- The member `ok` of the result of the `k`-th call of `compareTUID` in the
  request, made with the given identifier (`compareTUID` returns what it
  catches, it does not throw). -/
  compareTUID : Nat → List Char → Bool
  /-- The outcome of `count_OCR_api()`; `none` when it throws. -/
  countOCR : Option CountResult
  /-- The constant `OCR.maxCount` of `config/OCR.js`. -/
  maxCount : Int
  cloud : CloudEnv

/-- The reasons for which the `/ocr` handler answers with validity `false`. -/
inductive OcrFailure where
  /-- Lines 200-204: no image path. -/
  | missingPath
  /-- Lines 208-216: the local engine failed. -/
  | localFailed (error : LocalError)
  /-- Lines 230-238: no identifier in the recognized text. -/
  | noCandidate
  /-- Lines 259-267: the usage count could not be read. -/
  | quotaCheckFailed
  /-- Lines 269-277: the usage count is above the ceiling. -/
  | quotaExceeded
  /-- Lines 286-294: the cloud engine failed. -/
  | cloudFailed (reason : CloudFailure)
  /-- Lines 299-307: the identifier of the cloud engine is not verified. -/
  | notVerified
  /-- Lines 322-325: an error was thrown inside the handler. -/
  | generic
  deriving DecidableEq, Repr

/-- The answers of the `/ocr` handler. -/
inductive OcrResponse where
  | success (tuid : List Char)
  | failure (reason : OcrFailure)
  deriving DecidableEq, Repr

/-- The calls the `/ocr` handler makes. -/
inductive OcrEvent where
  | localOCR
  | compareTUID (tuid : List Char)
  | quotaCheck
  | cloudOCR
  | cloud (event : CloudEvent)
  deriving DecidableEq, Repr

/-- The helper `cleanupFile` of lines 63-71 of `verify.js` on the image of a
request. -/
def cleanupFile (imagePath : String) (storage : Storage) : Storage :=
  if storage (.image imagePath) = true then storage.unlink (.image imagePath) else storage

/-- The handler `router.post('/ocr', ..)` of lines 183-327 of `verify.js`: the
answer, the calls made in order, and the files left.  `scopeSID` is the value
the identifier `SID` of line 283 is bound to in the scope of the handler;
`none` when it is bound to nothing, in which case evaluating the arguments of
line 280-284 throws and the handler of line 322 answers. -/
def ocrHandler (scopeSID : Option String) (env : OcrEnv) (imagePath : String)
    (storage : Storage) : OcrResponse × List OcrEvent × Storage :=
  if imagePath = "" then (.failure .missingPath, [], storage)
  else
    let ocrResult := extractTextFromImageFast env.localEngine imagePath storage
    match ocrResult.1 with
    | .error e => (.failure (.localFailed e), [.localOCR], cleanupFile imagePath ocrResult.2)
    | .ok text =>
      match extractTUID text with
      | none => (.failure .noCandidate, [.localOCR], cleanupFile imagePath ocrResult.2)
      | some extractedTUID =>
        if env.compareTUID 0 extractedTUID = true then
          (.success extractedTUID, [.localOCR, .compareTUID extractedTUID],
            cleanupFile imagePath ocrResult.2)
        else
          match env.countOCR with
          | none =>
            (.failure .generic, [.localOCR, .compareTUID extractedTUID, .quotaCheck],
              ocrResult.2)
          | some countResult =>
            if countResult.ok = false ∨ countResult.count = .undefined then
              (.failure .quotaCheckFailed,
                [.localOCR, .compareTUID extractedTUID, .quotaCheck],
                cleanupFile imagePath ocrResult.2)
            else if countResult.count.gt env.maxCount = true then
              (.failure .quotaExceeded,
                [.localOCR, .compareTUID extractedTUID, .quotaCheck],
                cleanupFile imagePath ocrResult.2)
            else
              match scopeSID with
              | none =>
                (.failure .generic, [.localOCR, .compareTUID extractedTUID, .quotaCheck],
                  ocrResult.2)
              | some _ =>
                let googleVisionResult :=
                  detectTextWithGoogleVision env.cloud (ocrResult.2 (.image imagePath))
                let calls : List OcrEvent :=
                  [.localOCR, .compareTUID extractedTUID, .quotaCheck, .cloudOCR] ++
                    googleVisionResult.2.map OcrEvent.cloud
                match googleVisionResult.1 with
                | .error reason =>
                  (.failure (.cloudFailed reason), calls, cleanupFile imagePath ocrResult.2)
                | .ok payload =>
                  if env.compareTUID 1 payload = true then
                    (.success payload, calls ++ [.compareTUID payload],
                      cleanupFile imagePath ocrResult.2)
                  else
                    (.failure .notVerified, calls ++ [.compareTUID payload],
                      cleanupFile imagePath ocrResult.2)

/-- The `/ocr` handler as `verify.js` has it: the module declares no `SID`
(the one of line 118 is local to the `/img` handler). -/
def postOcr (env : OcrEnv) (imagePath : String) (storage : Storage) :
    OcrResponse × List OcrEvent × Storage :=
  ocrHandler none env imagePath storage

/-- The number of times the `/ocr` handler invokes the cloud engine. -/
def cloudCalls (events : List OcrEvent) : Nat :=
  events.count .cloudOCR

/-- An environment for the examples: the image needs no rotation, the local
engine reads a '4' followed by 18 digits, the first verification fails and the
second succeeds, the usage count is read as `countOCR` against a ceiling of
1000, and the cloud engine reads a letter followed by 29 digits. -/
def exampleEnv (countOCR : Option CountResult) : OcrEnv :=
  { localEngine :=
      { metadata := some { orientation := none, width := some 1000, height := some 2000 }
        textOrientation := false
        autoRotate := true
        preprocess := true
        recognize := fun _ => some "4123456789012345678".toList }
    compareTUID := fun k _ => decide (k = 1)
    countOCR := countOCR
    maxCount := 1000
    cloud :=
      { keyFileExists := true
        vision := .text "A12345678901234567890123456789".toList
        logSave := some true } }

/-- The storage of the examples: the reassembled image and nothing else. -/
def exampleStorage : Storage :=
  fun q => decide (q = .image "uploads/receipt_1002.png")

/-! ## The shared recognizer of `optimizedOCR.js` under concurrent requests

An `async` function runs without interruption from one `await` to the next;
the requests in flight take such steps in any order. -/

/-- Where a request stands between line 128 of `extractTextFromImageFast`, the
body of `getOCRWorker` (lines 11-31) and line 129. -/
inductive WorkerPhase where
  /-- Line 128 is not reached yet. -/
  | before
  /-- In `getOCRWorker`, waiting for the `createWorker` of line 14, which gives
  the instance `inst`. -/
  | creating (inst : Nat)
  /-- The instance is assigned to `globalWorker`; waiting for the
  `setParameters` of line 19. -/
  | configuring
  /-- The call `getOCRWorker()` has returned `worker`; waiting at line 128. -/
  | obtained (worker : Nat)
  /-- The call `worker.recognize(..)` of line 129 is made and not yet settled. -/
  | recognizing (worker : Nat)
  /-- The call of line 129 has settled. -/
  | finished
  deriving DecidableEq, Repr

/-- One step of a request, from one `await` to the next, on the module
variable `globalWorker` and the number `created` of calls of `createWorker`
made so far (which names the instance the next call gives).  A request that
finds `globalWorker` empty calls `createWorker`; one that finds it set returns
it; after `setParameters` the function returns what `globalWorker` then
holds. -/
def requestStep (phase : WorkerPhase) (globalWorker : Option Nat) (created : Nat) :
    WorkerPhase × Option Nat × Nat :=
  match phase with
  | .before =>
    match globalWorker with
    | none => (.creating created, globalWorker, created + 1)
    | some worker => (.obtained worker, globalWorker, created)
  | .creating inst => (.configuring, some inst, created)
  | .configuring =>
    match globalWorker with
    | some worker => (.obtained worker, globalWorker, created)
    | none => (.finished, globalWorker, created)
  | .obtained worker => (.recognizing worker, globalWorker, created)
  | .recognizing _ => (.finished, globalWorker, created)
  | .finished => (.finished, globalWorker, created)

/-- The module variable, the number of instances created, and where every
request stands. -/
structure WorkerState where
  globalWorker : Option Nat
  created : Nat
  phase : Nat → WorkerPhase

/-- The state of a process that has served no request. -/
def WorkerState.init : WorkerState :=
  { globalWorker := none, created := 0, phase := fun _ => .before }

/-- The step of request `i`. -/
def workerStep (i : Nat) (s : WorkerState) : WorkerState :=
  { globalWorker := (requestStep (s.phase i) s.globalWorker s.created).2.1
    created := (requestStep (s.phase i) s.globalWorker s.created).2.2
    phase := fun j =>
      if j = i then (requestStep (s.phase i) s.globalWorker s.created).1 else s.phase j }

/-- The state after the steps of a schedule, which names the request that
takes each step. -/
def workerRun : List Nat → WorkerState → WorkerState
  | [], s => s
  | i :: rest, s => workerRun rest (workerStep i s)

/-- The states a schedule goes through. -/
def workerTrace : List Nat → WorkerState → List WorkerState
  | [], s => [s]
  | i :: rest, s => s :: workerTrace rest (workerStep i s)

/-- Two requests have their call of `worker.recognize` in flight at the same
time. -/
def Overlapping (s : WorkerState) : Prop :=
  ∃ i j, i ≠ j ∧ (∃ w, s.phase i = .recognizing w) ∧ (∃ w, s.phase j = .recognizing w)

/-- The schedule in which the requests `k, k+1, .., k+n-1` are served one at a
time: each takes its five steps before the next starts. -/
def oneByOne : Nat → Nat → List Nat
  | _, 0 => []
  | k, n + 1 => List.replicate 5 k ++ oneByOne (k + 1) n

/-- A number of consecutive steps of one request. -/
def iterStep : Nat → WorkerPhase × Option Nat × Nat → WorkerPhase × Option Nat × Nat
  | 0, v => v
  | m + 1, v => iterStep m (requestStep v.1 v.2.1 v.2.2)

/-- The requests below `k` have finished and the others have not started;
the instance 0 exists as soon as one request has been served. -/
def ServedUpTo (k : Nat) (s : WorkerState) : Prop :=
  (∀ j, j < k → s.phase j = .finished) ∧ (∀ j, k ≤ j → s.phase j = .before) ∧
  ((k = 0 ∧ s.globalWorker = none ∧ s.created = 0) ∨
    (0 < k ∧ s.globalWorker = some 0 ∧ s.created = 1))

/-! ## The analysis of the text direction and the rotation rule -/

/-- The JavaScript numbers (IEEE doubles) that `checkTextOrientation` works on,
with the two operations of line 74 as the engine computes them: the product
`x * 1.2`, rounded as the engine rounds it, and the comparison `x > y`.  No
rounding rule is fixed: what is proved holds whatever these operations are. -/
structure Doubles where
  Number : Type
  /-- The value of the expression `x * 1.2`. -/
  times1_2 : Number → Number
  /-- The value of the expression `x > y`. -/
  gt : Number → Number → Bool

/-- The function `checkTextOrientation` of lines 59-84 of `checkImgRotated.js`.
`sharpness` is the pair of the values `horizontal` and `vertical` of lines
68-69 (each the standard deviation returned by `analyzeImageDirection`, or 0
when that analysis fails), `none` when the resize of lines 62-65 throws. -/
def checkTextOrientation (D : Doubles) (sharpness : Option (D.Number × D.Number)) : Bool :=
  match sharpness with
  | none => false
  | some (horizontal, vertical) => D.gt vertical (D.times1_2 horizontal)

/-- The rule of the specification for the need of a rotation, as a function of
the orientation metadata, the width, the height, the horizontal sharpness `h`
and the vertical sharpness `v`: true if the orientation is present and not 1;
otherwise false if the width or the height is missing; otherwise false if
width/height is above 1.5 or below 0.7; otherwise true exactly when
`v > 1.2 * h`, a comparison of doubles. -/
def rotationRule (D : Doubles) (orientation width height : Option Nat) (h v : D.Number) :
    Bool :=
  if orientation ≠ none ∧ orientation ≠ some 1 then true
  else
    match width, height with
    | some w, some ht =>
      if (w : ℚ) / (ht : ℚ) > 1.5 ∨ (w : ℚ) / (ht : ℚ) < 0.7 then false
      else D.gt v (D.times1_2 h)
    | _, _ => false

/-- The doubles restricted to the value 0, for the examples: `0 * 1.2` is 0
and `0 > 0` is false. -/
def zeroOnly : Doubles :=
  { Number := Unit, times1_2 := fun _ => (), gt := fun _ _ => false }

/-! ## The period of the usage count -/

/-- The call `String(n).padStart(2, '0')`. -/
def padStart2 (n : Nat) : String :=
  if (toString n).length < 2 then
    String.mk (List.replicate (2 - (toString n).length) '0') ++ toString n
  else toString n

/-- The function `getDate` of lines 7-18 of `count_OCR_api.js` for a current
date with `getFullYear() = year` and `getMonth() = monthIndex` (0 for
January): the strings `startOfMonth` and `nextMonth`. -/
def getDate (year monthIndex : Nat) : String × String :=
  (toString year ++ "-" ++ padStart2 (monthIndex + 1) ++ "-01",
    toString year ++ "-" ++ padStart2 (monthIndex + 2) ++ "-01")

/-! ## The client splitter of `uploadImage.tsx` -/

/-- The constant `CHUNK_SIZE` of line 38. -/
def CHUNK_SIZE : Nat := 1024 * 1024 * 2

/-- The loop of lines 43-48 of `splitFileIntoChunks` from the position
`start`: the chunks pushed from there on. -/
def splitLoop (file : Bytes) (start : Nat) : List Bytes :=
  if start < file.length then
    (file.drop start).take (min (start + CHUNK_SIZE) file.length - start) ::
      splitLoop file (min (start + CHUNK_SIZE) file.length)
  else []
termination_by file.length - start
decreasing_by
  have hs : 0 < CHUNK_SIZE := by decide
  omega

/-- The function `splitFileIntoChunks` of lines 36-51 of `uploadImage.tsx` on
the bytes of the file. -/
def splitFileIntoChunks (file : Bytes) : List Bytes :=
  splitLoop file 0

/-! ## Uploads with indices below the total -/

/-- The result of a call of `imageMerge` is not an error of a storage
operation. -/
def StorageSucceeds (result : Except MergeError (Option FinalPath)) : Prop :=
  result ≠ .error .writeFailed ∧ ∀ i, result ≠ .error (.chunkMissing i)

/-- The states reached from an empty session map by calls of `imageMerge`
whose index is below the declared total and whose storage operations succeed,
and by runs of `cleanupOldUploads`. -/
inductive InRange : MergeState → Prop where
  | init (fs : FileSystem) : InRange { uploadTracker := [], fs := fs }
  | call (FILENAME SID : String) (chunkData : Option Bytes) (chunkIndex totalChunks : Int)
      (now : Int) (st : MergeState) :
      InRange st → chunkIndex < totalChunks →
      StorageSucceeds (imageMerge FILENAME SID chunkData chunkIndex totalChunks now st).1 →
      InRange (imageMerge FILENAME SID chunkData chunkIndex totalChunks now st).2
  | reap (maxAge now : Int) (st : MergeState) :
      InRange st → InRange (cleanupOldUploads maxAge now st)

/-- The invariant of one session: the slot array has as many slots as the
total, `received` counts the filled slots, and it is below the total. -/
def SessionOk (t : Tracker) : Prop :=
  (t.chunks.length : Int) = t.total ∧ t.received = countFilled t.chunks ∧
    (t.received : Int) < t.total

/-- The invariant of the sessions: it holds for every session of the map. -/
def SessionInvariant (st : MergeState) : Prop :=
  ∀ sid t, st.uploadTracker.get sid = some t → SessionOk t

/-! ## Lemmas on the session map and the slot array -/

theorem tracker_get_delete (m : UploadTracker) (s s' : String) :
    (UploadTracker.delete m s).get s' = if s' = s then none else m.get s' := by
  induction m with
  | nil => simp [UploadTracker.delete, UploadTracker.get]
  | cons e rest ih =>
    obtain ⟨k, t⟩ := e
    by_cases hk : k = s
    · subst hk
      simp only [UploadTracker.delete, if_true, ih, UploadTracker.get]
      by_cases h : s' = k
      · simp [h]
      · have h' : ¬ k = s' := fun e => h e.symm
        simp [h, h']
    · simp only [UploadTracker.delete, hk, if_false, UploadTracker.get, ih]
      by_cases h : k = s'
      · subst h
        simp [hk]
      · simp [h]

theorem tracker_get_put (m : UploadTracker) (s : String) (t : Tracker) (s' : String) :
    (UploadTracker.put m s t).get s' = if s' = s then some t else m.get s' := by
  induction m with
  | nil =>
    by_cases h : s' = s
    · simp [UploadTracker.put, UploadTracker.get, h]
    · have h' : ¬ s = s' := fun e => h e.symm
      simp [UploadTracker.put, UploadTracker.get, h, h']
  | cons e rest ih =>
    obtain ⟨k, v⟩ := e
    by_cases hk : k = s
    · subst hk
      simp only [UploadTracker.put, if_true, UploadTracker.get, tracker_get_delete]
      by_cases h : s' = k
      · simp [h]
      · have h' : ¬ k = s' := fun e => h e.symm
        simp [h, h']
    · simp only [UploadTracker.put, hk, if_false, UploadTracker.get, ih]
      by_cases h : k = s'
      · subst h
        simp [hk]
      · simp [h]

theorem slot_replicate (n j : Nat) : slot (List.replicate n none) j = none := by
  simp only [slot, List.getD_eq_getElem?_getD]
  by_cases h : j < n
  · simp [List.getElem?_replicate, h]
  · simp [List.getElem?_replicate, h]

theorem slot_setSlot (xs : List (Option ChunkPath)) (i : Nat) (p : ChunkPath) (j : Nat) :
    slot (setSlot xs i p) j = if j = i then some p else slot xs j := by
  simp only [slot, setSlot, List.getD_eq_getElem?_getD]
  by_cases hi : i < xs.length
  · simp only [hi, if_true]
    by_cases hj : j = i
    · subst hj
      simp [hi]
    · have hj' : ¬ i = j := fun e => hj e.symm
      simp [hj, List.getElem?_set, hj']
  · simp only [hi, if_false]
    have hle : xs.length ≤ i := Nat.le_of_not_lt hi
    by_cases hj : j = i
    · subst hj
      simp [List.getElem?_append_right, hle]
    · simp only [hj, if_false, List.append_assoc]
      by_cases hjl : j < xs.length
      · simp [List.getElem?_append_left, hjl]
      · have hjl' : xs.length ≤ j := Nat.le_of_not_lt hjl
        rw [List.getElem?_append_right hjl', List.getElem?_eq_none (Nat.le_of_not_lt hjl)]
        by_cases hlt : j - xs.length < i - xs.length
        · rw [List.getElem?_append_left (by simpa using hlt)]
          simp [List.getElem?_replicate, hlt]
        · have h1 : i - xs.length < j - xs.length := by omega
          rw [List.getElem?_append_right (by simp; omega)]
          simp only [List.length_replicate]
          have h2 : j - xs.length - (i - xs.length) = (j - xs.length - (i - xs.length) - 1) + 1 := by
            omega
          rw [h2]
          simp

/-! ## The invariant of a session in progress -/

theorem mkdir_temp_self (fs : FileSystem) (d : String) :
    ∃ g, (fs.mkdir d).temp d = some g := by
  unfold FileSystem.mkdir
  cases h : fs.temp d with
  | none => exact ⟨fun _ => none, by simp⟩
  | some g => exact ⟨g, by simp [h]⟩

theorem newSession_stored (SID : String) (N : Nat) (chunk : Nat → Bytes) (now : Int)
    (m : UploadTracker) (fs : FileSystem) :
    Stored SID N chunk ∅ (newSession SID N now)
      { uploadTracker := m.put SID (newSession SID N now), fs := fs.mkdir SID } := by
  obtain ⟨g, hg⟩ := mkdir_temp_self fs SID
  refine ⟨by simp [tracker_get_put], rfl, rfl, by simp [newSession], by simp, ?_, g, hg, by simp⟩
  intro i _
  simp [newSession, slot_replicate]

theorem openSession_fresh (SID : String) (N : Nat) (chunk : Nat → Bytes) (now : Int)
    (st : MergeState)
    (h : st.uploadTracker.get SID = none ∨
      ∃ old, st.uploadTracker.get SID = some old ∧ old.total ≠ (N : Int)) :
    Stored SID N chunk ∅ (openSession SID N now st).1 (openSession SID N now st).2 := by
  rcases h with h | ⟨old, h, hne⟩
  · simp only [openSession, h]
    exact newSession_stored SID N chunk now _ _
  · simp only [openSession, h, hne, ne_eq, not_false_eq_true, if_true]
    exact newSession_stored SID N chunk now _ _

theorem openSession_same (SID : String) (N : Int) (now : Int) (st : MergeState) (t : Tracker)
    (h : st.uploadTracker.get SID = some t) (ht : t.total = N) :
    openSession SID N now st = (t, st) := by
  simp [openSession, h, ht]

theorem readChunks_ok (fs : FileSystem) (chunks : List (Option ChunkPath)) (f : Nat → Bytes)
    (is : List Nat)
    (h : ∀ i ∈ is, ∃ p, slot chunks i = some p ∧ fs.readFile p = some (f i)) :
    readChunks fs chunks is = .ok (is.map f) := by
  induction is with
  | nil => rfl
  | cons i rest ih =>
    obtain ⟨p, hp, hr⟩ := h i (List.mem_cons_self _ _)
    have ih' := ih (fun j hj => h j (List.mem_cons_of_mem _ hj))
    simp [readChunks, hp, hr, ih']

theorem storeAndMerge_dup (FILENAME SID : String) (data : Bytes) (i : Nat) (now : Int)
    (t : Tracker) (st : MergeState) (p : ChunkPath) (h : slot t.chunks i = some p) :
    storeAndMerge FILENAME SID data i now t st = (.ok none, st) := by
  simp [storeAndMerge, storeChunk, h]

theorem storeAndMerge_new (FILENAME SID : String) (N : Nat) (chunk : Nat → Bytes)
    (done : Finset Nat) (t : Tracker) (st : MergeState) (i : Nat) (now : Int)
    (hst : Stored SID N chunk done t st) (hi : i < N) (hnew : i ∉ done)
    (hmore : done.card + 1 < N) :
    (storeAndMerge FILENAME SID (chunk i) i now t st).1 = .ok none ∧
    ∃ t', Stored SID N chunk (insert i done) t'
      (storeAndMerge FILENAME SID (chunk i) i now t st).2 := by
  obtain ⟨hget, htot, hdir, hrec, hlt, hempty, g, hg, hfilled⟩ := hst
  have hslot : slot t.chunks i = none := hempty i hnew
  have hne : ¬ ((t.received : Int) + 1 = t.total) := by
    rw [htot, hrec]; omega
  simp only [storeAndMerge, storeChunk, mergeChunks, hslot, FileSystem.writeFile, hdir, hg,
    Nat.cast_add, Nat.cast_one,
    hne, if_false]
  refine ⟨trivial, { t with chunks := setSlot t.chunks i ⟨SID, i⟩, received := t.received + 1 },
    by simp [tracker_get_put, hdir], htot, hdir, ?_, ?_, ?_,
    fun j => if j = i then some (chunk i) else g j, by simp, ?_⟩
  · simp [hrec, Finset.card_insert_of_not_mem hnew]
  · intro j hj
    rcases Finset.mem_insert.mp hj with rfl | hj
    · exact hi
    · exact hlt j hj
  · intro j hj
    have hji : j ≠ i := fun e => hj (by simp [e])
    have hjd : j ∉ done := fun e => hj (by simp [e])
    simp [slot_setSlot, hji, hempty j hjd]
  · intro j hj
    rcases Finset.mem_insert.mp hj with rfl | hj
    · simp [slot_setSlot]
    · have hji : j ≠ i := fun e => hnew (e ▸ hj)
      simp [slot_setSlot, hji, hfilled j hj]

theorem storeAndMerge_last (FILENAME SID : String) (N : Nat) (chunk : Nat → Bytes)
    (done : Finset Nat) (t : Tracker) (st : MergeState) (i : Nat) (now : Int)
    (hst : Stored SID N chunk done t st) (hi : i < N) (hnew : i ∉ done)
    (hlast : done.card + 1 = N) :
    (storeAndMerge FILENAME SID (chunk i) i now t st).1 = .ok (some ⟨FILENAME, now⟩) ∧
    (storeAndMerge FILENAME SID (chunk i) i now t st).2.fs.uploads ⟨FILENAME, now⟩ =
      some ((List.range N).map chunk).flatten ∧
    (storeAndMerge FILENAME SID (chunk i) i now t st).2.uploadTracker.get SID = none ∧
    (storeAndMerge FILENAME SID (chunk i) i now t st).2.fs.temp SID = none := by
  obtain ⟨hget, htot, hdir, hrec, hlt, hempty, g, hg, hfilled⟩ := hst
  have hslot : slot t.chunks i = none := hempty i hnew
  have heq : (t.received : Int) + 1 = t.total := by
    rw [htot, hrec]; omega
  have hall : ∀ j, j < N → j ∈ insert i done := by
    have hsub : insert i done ⊆ Finset.range N := by
      intro j hj
      rcases Finset.mem_insert.mp hj with rfl | hj
      · exact Finset.mem_range.mpr hi
      · exact Finset.mem_range.mpr (hlt j hj)
    have hcard : (Finset.range N).card ≤ (insert i done).card := by
      rw [Finset.card_insert_of_not_mem hnew, Finset.card_range]; omega
    have := Finset.eq_of_subset_of_card_le hsub hcard
    intro j hj
    rw [this]
    exact Finset.mem_range.mpr hj
  have hread : readChunks
      { st.fs with temp := fun x =>
          if x = SID then some (fun j => if j = i then some (chunk i) else g j)
          else st.fs.temp x }
      (setSlot t.chunks i ⟨SID, i⟩) (List.range N) = .ok ((List.range N).map chunk) := by
    apply readChunks_ok
    intro j hj
    have hjN : j < N := List.mem_range.mp hj
    refine ⟨⟨SID, j⟩, ?_, ?_⟩
    · rcases Finset.mem_insert.mp (hall j hjN) with rfl | hjd
      · simp [slot_setSlot]
      · have hji : j ≠ i := fun e => hnew (e ▸ hjd)
        simp [slot_setSlot, hji, hfilled j hjd]
    · rcases Finset.mem_insert.mp (hall j hjN) with rfl | hjd
      · simp [FileSystem.readFile]
      · have hji : j ≠ i := fun e => hnew (e ▸ hjd)
        simp [FileSystem.readFile, hji, hfilled j hjd]
  simp only [storeAndMerge, storeChunk, mergeChunks, hslot, FileSystem.writeFile, hdir, hg,
    Nat.cast_add, Nat.cast_one,
    heq, if_true, htot, Int.toNat_ofNat, hread]
  refine ⟨trivial, ?_, ?_, ?_⟩
  · simp [cleanupTempFiles, FileSystem.existsDir, FileSystem.writeUpload, FileSystem.rmDir, hdir]
  · simp [tracker_get_delete]
  · simp [cleanupTempFiles, FileSystem.existsDir, FileSystem.writeUpload, FileSystem.rmDir, hdir]

/-! ## Runs of a client -/

theorem imageMerge_valid (FILENAME SID : String) (data : Bytes) (i N : Nat) (now : Int)
    (st : MergeState) (hF : FILENAME ≠ "") (hS : SID ≠ "") (hN : 0 < N) :
    imageMerge FILENAME SID (some data) (i : Int) (N : Int) now st =
      storeAndMerge FILENAME SID data i now (openSession SID N now st).1
        (openSession SID N now st).2 := by
  have h1 : ¬ ((i : Int) < 0) := by omega
  have h2 : ¬ ((N : Int) ≤ 0) := by omega
  simp [imageMerge, hF, hS, h1, h2]

theorem imageMerge_stored (FILENAME SID : String) (data : Bytes) (i N : Nat) (now : Int)
    (chunk : Nat → Bytes) (done : Finset Nat) (t : Tracker) (st : MergeState)
    (hF : FILENAME ≠ "") (hS : SID ≠ "") (hN : 0 < N) (hst : Stored SID N chunk done t st) :
    imageMerge FILENAME SID (some data) (i : Int) (N : Int) now st =
      storeAndMerge FILENAME SID data i now t st := by
  rw [imageMerge_valid FILENAME SID data i N now st hF hS hN,
    openSession_same SID N now st t hst.1 hst.2.1]

theorem idxSet_cons (c : Call) (cs : List Call) : idxSet (c :: cs) = insert c.idx (idxSet cs) := by
  simp [idxSet]

theorem idxSet_append (a b : List Call) : idxSet (a ++ b) = idxSet a ∪ idxSet b := by
  simp [idxSet]

theorem mem_idxSet (calls : List Call) (i : Nat) : i ∈ idxSet calls ↔ ∃ c ∈ calls, c.idx = i := by
  simp [idxSet]

theorem FirstWins_append (chunk : Nat → Bytes) (a b : List Call) :
    ∀ done, FirstWins chunk done (a ++ b) ↔
      FirstWins chunk done a ∧ FirstWins chunk (done ∪ idxSet a) b := by
  induction a with
  | nil => intro done; simp [FirstWins, idxSet]
  | cons c cs ih =>
    intro done
    have h := ih (insert c.idx done)
    rw [Finset.insert_union] at h
    show ((c.idx ∉ done → c.data = chunk c.idx) ∧ FirstWins chunk (insert c.idx done) (cs ++ b)) ↔
      ((c.idx ∉ done → c.data = chunk c.idx) ∧ FirstWins chunk (insert c.idx done) cs) ∧
        FirstWins chunk (done ∪ idxSet (c :: cs)) b
    rw [h, idxSet_cons, Finset.union_insert, and_assoc]

theorem uploadRun_append (FILENAME SID : String) (N : Int) (a b : List Call) :
    ∀ st, uploadRun FILENAME SID N (a ++ b) st =
      ((uploadRun FILENAME SID N a st).1 ++
          (uploadRun FILENAME SID N b (uploadRun FILENAME SID N a st).2).1,
        (uploadRun FILENAME SID N b (uploadRun FILENAME SID N a st).2).2) := by
  induction a with
  | nil => intro st; simp [uploadRun]
  | cons c cs ih => intro st; simp [uploadRun, ih]

theorem uploadRun_pending (FILENAME SID : String) (hF : FILENAME ≠ "") (hS : SID ≠ "")
    (N : Nat) (chunk : Nat → Bytes) :
    ∀ (calls : List Call) (done : Finset Nat) (t : Tracker) (st : MergeState),
      Stored SID N chunk done t st → (∀ c ∈ calls, c.idx < N) → FirstWins chunk done calls →
      (done ∪ idxSet calls).card < N →
      (uploadRun FILENAME SID N calls st).1 = List.replicate calls.length (.ok none) ∧
      ∃ t', Stored SID N chunk (done ∪ idxSet calls) t' (uploadRun FILENAME SID N calls st).2 := by
  intro calls
  induction calls with
  | nil =>
    intro done t st hst _ _ _
    exact ⟨rfl, t, by simpa [idxSet, uploadRun] using hst⟩
  | cons c cs ih =>
    intro done t st hst hidx hfw hcard
    have hN : 0 < N := by omega
    have hc : c.idx < N := hidx c (List.mem_cons_self _ _)
    have hcs : ∀ c' ∈ cs, c'.idx < N := fun c' h => hidx c' (List.mem_cons_of_mem _ h)
    have hun : done ∪ idxSet (c :: cs) = insert c.idx done ∪ idxSet cs := by
      rw [idxSet_cons, Finset.union_insert, Finset.insert_union]
    rw [hun] at hcard ⊢
    simp only [uploadRun, List.length_cons, List.replicate_succ, List.cons.injEq]
    rw [imageMerge_stored FILENAME SID c.data c.idx N c.now chunk done t st hF hS hN hst]
    by_cases hmem : c.idx ∈ done
    · have hdup := storeAndMerge_dup FILENAME SID c.data c.idx c.now t st _
        (hst.2.2.2.2.2.2.choose_spec.2 c.idx hmem).1
      rw [hdup]
      have hins : insert c.idx done = done := Finset.insert_eq_of_mem hmem
      rw [hins] at hcard ⊢
      have hfw' : FirstWins chunk done cs := by
        have := hfw.2
        rwa [hins] at this
      obtain ⟨h1, h2⟩ := ih done t st hst hcs hfw' hcard
      exact ⟨⟨rfl, h1⟩, h2⟩
    · have hdata : c.data = chunk c.idx := hfw.1 hmem
      have hmore : done.card + 1 < N := by
        have h1 : (insert c.idx done).card ≤ (insert c.idx done ∪ idxSet cs).card :=
          Finset.card_le_card Finset.subset_union_left
        rw [Finset.card_insert_of_not_mem hmem] at h1
        omega
      rw [hdata]
      obtain ⟨hres, t', ht'⟩ :=
        storeAndMerge_new FILENAME SID N chunk done t st c.idx c.now hst hc hmem hmore
      obtain ⟨h1, h2⟩ := ih (insert c.idx done) t' _ ht' hcs hfw.2 hcard
      exact ⟨⟨hres, h1⟩, h2⟩

theorem uploadRun_open (FILENAME SID : String) (hF : FILENAME ≠ "") (hS : SID ≠ "")
    (N : Nat) (hN : 0 < N) (chunk : Nat → Bytes) (c : Call) (rest : List Call) (st : MergeState)
    (hstart : st.uploadTracker.get SID = none ∨
      ∃ old, st.uploadTracker.get SID = some old ∧ old.total ≠ (N : Int)) :
    uploadRun FILENAME SID N (c :: rest) st =
      uploadRun FILENAME SID N (c :: rest) (openSession SID N c.now st).2 := by
  have hst := openSession_fresh SID N chunk c.now st hstart
  simp only [uploadRun]
  rw [imageMerge_stored FILENAME SID c.data c.idx N c.now chunk ∅ _ _ hF hS hN hst,
    imageMerge_valid FILENAME SID c.data c.idx N c.now st hF hS hN]

theorem upload_complete (FILENAME SID : String) (hF : FILENAME ≠ "") (hS : SID ≠ "")
    (N : Nat) (chunk : Nat → Bytes) (calls : List Call) (last : Call) (st : MergeState)
    (hstart : st.uploadTracker.get SID = none ∨
      ∃ old, st.uploadTracker.get SID = some old ∧ old.total ≠ (N : Int))
    (hidx : ∀ c ∈ calls, c.idx < N) (hlast : last.idx < N)
    (hnew : ∀ c ∈ calls, c.idx ≠ last.idx)
    (hcover : ∀ i, i < N → i ≠ last.idx → ∃ c ∈ calls, c.idx = i)
    (hfirst : FirstWins chunk ∅ (calls ++ [last])) :
    (uploadRun FILENAME SID N (calls ++ [last]) st).1 =
      List.replicate calls.length (.ok none) ++ [.ok (some ⟨FILENAME, last.now⟩)] ∧
    (uploadRun FILENAME SID N (calls ++ [last]) st).2.fs.uploads ⟨FILENAME, last.now⟩ =
      some ((List.range N).map chunk).flatten ∧
    (uploadRun FILENAME SID N (calls ++ [last]) st).2.uploadTracker.get SID = none ∧
    (uploadRun FILENAME SID N (calls ++ [last]) st).2.fs.temp SID = none := by
  have hN : 0 < N := by omega
  -- the indices stored before the last request
  have hset : idxSet calls = (Finset.range N).erase last.idx := by
    ext i
    rw [mem_idxSet, Finset.mem_erase, Finset.mem_range]
    constructor
    · rintro ⟨c, hc, rfl⟩
      exact ⟨hnew c hc, hidx c hc⟩
    · rintro ⟨h1, h2⟩
      exact hcover i h2 h1
  have hcard : (idxSet calls).card + 1 = N := by
    rw [hset, Finset.card_erase_of_mem (Finset.mem_range.mpr hlast), Finset.card_range]
    omega
  have hnot : last.idx ∉ idxSet calls := by
    rw [hset]; simp
  obtain ⟨hfw1, hfw2⟩ := (FirstWins_append chunk calls [last] ∅).mp hfirst
  have hdata : last.data = chunk last.idx := hfw2.1 (by simpa using hnot)
  -- the first request opens the session
  have key : ∀ st0 t0, Stored SID N chunk ∅ t0 st0 →
      (uploadRun FILENAME SID N (calls ++ [last]) st0).1 =
        List.replicate calls.length (.ok none) ++ [.ok (some ⟨FILENAME, last.now⟩)] ∧
      (uploadRun FILENAME SID N (calls ++ [last]) st0).2.fs.uploads ⟨FILENAME, last.now⟩ =
        some ((List.range N).map chunk).flatten ∧
      (uploadRun FILENAME SID N (calls ++ [last]) st0).2.uploadTracker.get SID = none ∧
      (uploadRun FILENAME SID N (calls ++ [last]) st0).2.fs.temp SID = none := by
    intro st0 t0 hst0
    obtain ⟨hres, t1, hst1⟩ := uploadRun_pending FILENAME SID hF hS N chunk calls ∅ t0 st0 hst0
      hidx hfw1 (by rw [Finset.empty_union]; omega)
    rw [Finset.empty_union] at hst1
    have hlastStep := storeAndMerge_last FILENAME SID N chunk (idxSet calls) t1 _ last.idx
      last.now hst1 hlast hnot hcard
    rw [uploadRun_append]
    simp only [uploadRun, hres]
    rw [imageMerge_stored FILENAME SID last.data last.idx N last.now chunk _ t1 _ hF hS hN hst1,
      hdata]
    exact ⟨by rw [hlastStep.1], hlastStep.2.1, hlastStep.2.2.1, hlastStep.2.2.2⟩
  cases calls with
  | nil =>
    have := uploadRun_open FILENAME SID hF hS N hN chunk last [] st hstart
    simp only [List.nil_append] at key ⊢
    rw [this]
    exact key _ _ (openSession_fresh SID N chunk last.now st hstart)
  | cons c cs =>
    have := uploadRun_open FILENAME SID hF hS N hN chunk c (cs ++ [last]) st hstart
    simp only [List.cons_append] at key ⊢
    rw [this]
    exact key _ _ (openSession_fresh SID N chunk c.now st hstart)

theorem FirstWins_of_all (chunk : Nat → Bytes) (calls : List Call)
    (h : ∀ c ∈ calls, c.data = chunk c.idx) : ∀ done, FirstWins chunk done calls := by
  induction calls with
  | nil => intro done; trivial
  | cons c cs ih =>
    intro done
    exact ⟨fun _ => h c (List.mem_cons_self _ _),
      ih (fun c' hc' => h c' (List.mem_cons_of_mem _ hc')) _⟩

theorem map_getD_range (l : List Bytes) :
    (List.range l.length).map (fun i => l.getD i []) = l := by
  apply List.ext_getElem
  · simp
  · intro n h1 h2
    simp [List.getD_eq_getElem?_getD, List.getElem?_eq_getElem h2]

/-! ## Order invariance of reassembly -/

theorem upload_in_any_order (FILENAME SID : String) (hF : FILENAME ≠ "")
    (hS : SID ≠ "") (N : Nat) (hN : 0 < N) (chunk : List Bytes) (hlen : chunk.length = N)
    (calls : List Call) (hperm : (calls.map Call.idx).Perm (List.range N))
    (hdata : ∀ c ∈ calls, c.data = chunk.getD c.idx [])
    (st : MergeState)
    (hstart : st.uploadTracker.get SID = none ∨
      ∃ old, st.uploadTracker.get SID = some old ∧ old.total ≠ (N : Int)) :
    ∃ p, (uploadRun FILENAME SID N calls st).1 =
        List.replicate (N - 1) (.ok none) ++ [.ok (some p)] ∧
      (uploadRun FILENAME SID N calls st).2.fs.uploads p = some chunk.flatten := by
  have hlength : calls.length = N := by
    have := hperm.length_eq
    simpa using this
  have hne : calls ≠ [] := by
    intro h
    rw [h] at hlength
    simp at hlength
    omega
  obtain ⟨init, last, rfl⟩ : ∃ init last, calls = init ++ [last] :=
    ⟨calls.dropLast, calls.getLast hne, (List.dropLast_append_getLast hne).symm⟩
  have hnodup : ((init ++ [last]).map Call.idx).Nodup :=
    hperm.nodup_iff.mpr (List.nodup_range N)
  have hmem : ∀ i, i ∈ (init ++ [last]).map Call.idx ↔ i < N := by
    intro i
    rw [hperm.mem_iff, List.mem_range]
  have hnew : ∀ c ∈ init, c.idx ≠ last.idx := by
    intro c hc heq
    rw [List.map_append, List.nodup_append] at hnodup
    exact hnodup.2.2 (List.mem_map_of_mem _ hc) (by simp [heq])
  have hidx : ∀ c ∈ init, c.idx < N := fun c hc =>
    (hmem c.idx).mp (List.mem_map_of_mem _ (List.mem_append_left _ hc))
  have hlast : last.idx < N := (hmem last.idx).mp (by simp)
  have hcover : ∀ i, i < N → i ≠ last.idx → ∃ c ∈ init, c.idx = i := by
    intro i hi hil
    obtain ⟨c, hc, rfl⟩ := List.mem_map.mp ((hmem i).mpr hi)
    rcases List.mem_append.mp hc with hc | hc
    · exact ⟨c, hc, rfl⟩
    · simp only [List.mem_singleton] at hc
      exact absurd (by rw [hc]) hil
  have hres := upload_complete FILENAME SID hF hS N (fun i => chunk.getD i []) init last st
    hstart hidx hlast hnew hcover
    (FirstWins_of_all _ _ hdata ∅)
  have hinit : init.length = N - 1 := by
    simp at hlength
    omega
  refine ⟨⟨FILENAME, last.now⟩, by rw [hres.1, hinit], ?_⟩
  rw [hres.2.1, ← hlen, map_getD_range]

/-- C1: for every `N > 0`, every list `chunk` of `N` chunks and every order of
arrival of the indices `0..N-1` (a list of requests whose indices are a
permutation of `0..N-1`, each carrying the chunk of its index, all declaring the
total `N`), starting from a state with no session for `SID`, the first `N-1`
calls of `imageMerge` return no path and the last call returns the path of an
artifact whose bytes are `chunk[0] ++ chunk[1] ++ ... ++ chunk[N-1]`. -/
theorem imageMerge_reassembles_in_index_order (FILENAME SID : String) (hF : FILENAME ≠ "")
    (hS : SID ≠ "") (N : Nat) (hN : 0 < N) (chunk : List Bytes) (hlen : chunk.length = N)
    (calls : List Call) (hperm : (calls.map Call.idx).Perm (List.range N))
    (hdata : ∀ c ∈ calls, c.data = chunk.getD c.idx [])
    (st : MergeState) (hfresh : st.uploadTracker.get SID = none) :
    ∃ p, (uploadRun FILENAME SID N calls st).1 =
        List.replicate (N - 1) (.ok none) ++ [.ok (some p)] ∧
      (uploadRun FILENAME SID N calls st).2.fs.uploads p = some chunk.flatten :=
  upload_in_any_order FILENAME SID hF hS N hN chunk hlen calls hperm hdata st (Or.inl hfresh)

/-- C1 at a concrete run: two chunks arriving in the order 1, 0. -/
theorem imageMerge_reassembles_in_index_order_witness :
    ∃ p, (uploadRun "receipt.png" "sid-1" (2 : Nat)
          [⟨1, [30, 40], 1001⟩, ⟨0, [10, 20], 1002⟩] MergeState.init).1 =
        List.replicate (2 - 1) (.ok none) ++ [.ok (some p)] ∧
      (uploadRun "receipt.png" "sid-1" (2 : Nat)
          [⟨1, [30, 40], 1001⟩, ⟨0, [10, 20], 1002⟩] MergeState.init).2.fs.uploads p =
        some [[10, 20], [30, 40]].flatten :=
  imageMerge_reassembles_in_index_order "receipt.png" "sid-1" (by decide) (by decide) 2
    (by decide) [[10, 20], [30, 40]] rfl [⟨1, [30, 40], 1001⟩, ⟨0, [10, 20], 1002⟩]
    (by decide) (by decide) MergeState.init rfl

/-! ## Completion -/

theorem countFilled_replicate (n : Nat) : countFilled (List.replicate n none) = 0 := by
  simp [countFilled]

theorem countFilled_set (p : ChunkPath) :
    ∀ (xs : List (Option ChunkPath)) (i : Nat), i < xs.length → slot xs i = none →
      countFilled (xs.set i (some p)) = countFilled xs + 1 := by
  intro xs
  induction xs with
  | nil => intro i hi; simp at hi
  | cons x rest ih =>
    intro i hi hs
    cases i with
    | zero =>
      simp only [slot, List.getD_cons_zero] at hs
      simp [countFilled, hs, List.filter_cons]
    | succ j =>
      have hj : j < rest.length := by simpa using hi
      have hs' : slot rest j = none := by simpa [slot] using hs
      have := ih j hj hs'
      simp only [countFilled, List.set_cons_succ, List.filter_cons] at this ⊢
      cases x <;> simp [this]

theorem countFilled_setSlot (xs : List (Option ChunkPath)) (i : Nat) (p : ChunkPath)
    (h : slot xs i = none) : countFilled (setSlot xs i p) = countFilled xs + 1 := by
  unfold setSlot
  by_cases hi : i < xs.length
  · simp only [hi, if_true]
    exact countFilled_set p xs i hi h
  · simp [hi, countFilled, List.filter_append]

theorem slot_none_beyond_count :
    ∀ (xs : List (Option ChunkPath)) (n : Nat), countFilled xs = n →
      (∀ i, i < n → slot xs i ≠ none) → ∀ i, n ≤ i → slot xs i = none := by
  intro xs
  induction xs with
  | nil => intro n _ _ i _; simp [slot]
  | cons x rest ih =>
    intro n hc hfill i hi
    cases n with
    | zero =>
      cases x with
      | some q => simp [countFilled, List.filter_cons] at hc
      | none =>
        have hc' : countFilled rest = 0 := by simpa [countFilled, List.filter_cons] using hc
        cases i with
        | zero => simp [slot]
        | succ j =>
          have := ih 0 hc' (fun k hk => absurd hk (Nat.not_lt_zero k)) j (Nat.zero_le j)
          simpa [slot] using this
    | succ m =>
      have h0 := hfill 0 (Nat.succ_pos m)
      cases x with
      | none => simp [slot] at h0
      | some q =>
        have hc' : countFilled rest = m := by simpa [countFilled, List.filter_cons] using hc
        cases i with
        | zero => omega
        | succ j =>
          have hf' : ∀ k, k < m → slot rest k ≠ none := by
            intro k hk
            have := hfill (k + 1) (by omega)
            simpa [slot] using this
          have := ih m hc' hf' j (by omega)
          simpa [slot] using this

theorem countsFilled_put (m : UploadTracker) (fs fs' : FileSystem) (sid : String) (t : Tracker)
    (h : CountsFilled { uploadTracker := m, fs := fs }) (ht : t.received = countFilled t.chunks) :
    CountsFilled { uploadTracker := m.put sid t, fs := fs' } := by
  intro s u hu
  simp only [tracker_get_put] at hu
  by_cases hs : s = sid
  · simp only [hs, if_true, Option.some.injEq] at hu
    rw [← hu]; exact ht
  · simp only [hs, if_false] at hu
    exact h s u hu

theorem countsFilled_delete (m : UploadTracker) (fs fs' : FileSystem) (sid : String)
    (h : CountsFilled { uploadTracker := m, fs := fs }) :
    CountsFilled { uploadTracker := m.delete sid, fs := fs' } := by
  intro s u hu
  simp only [tracker_get_delete] at hu
  by_cases hs : s = sid
  · simp [hs] at hu
  · simp only [hs, if_false] at hu
    exact h s u hu

theorem countsFilled_files (st : MergeState) (fs' : FileSystem) (h : CountsFilled st) :
    CountsFilled { st with fs := fs' } :=
  fun s u hu => h s u hu

theorem newSession_counts (SID : String) (N now : Int) :
    (newSession SID N now).received = countFilled (newSession SID N now).chunks := by
  simp [newSession, countFilled_replicate]

theorem openSession_counts (SID : String) (N now : Int) (st : MergeState)
    (h : CountsFilled st) :
    CountsFilled (openSession SID N now st).2 ∧
    (openSession SID N now st).1.received = countFilled (openSession SID N now st).1.chunks := by
  unfold openSession
  cases hget : st.uploadTracker.get SID with
  | none =>
    exact ⟨countsFilled_put _ st.fs _ _ _ h (newSession_counts SID N now),
      newSession_counts SID N now⟩
  | some old =>
    by_cases hne : old.total = N
    · simp only [hne, ne_eq, not_true_eq_false, if_false]
      exact ⟨h, h SID old hget⟩
    · simp only [hne, ne_eq, not_false_eq_true, if_true]
      exact ⟨countsFilled_put _ st.fs _ _ _ h (newSession_counts SID N now),
        newSession_counts SID N now⟩

theorem mergeChunks_counts (FILENAME SID : String) (now : Int) (t : Tracker) (st : MergeState)
    (h : CountsFilled st) : CountsFilled (mergeChunks FILENAME SID now t st).2 := by
  unfold mergeChunks
  split
  · split
    · exact countsFilled_files st _ h
    · exact countsFilled_delete _ st.fs _ _ h
  · exact h

theorem storeAndMerge_counts (FILENAME SID : String) (data : Bytes) (i : Nat) (now : Int)
    (t : Tracker) (st : MergeState) (h : CountsFilled st)
    (ht : t.received = countFilled t.chunks) :
    CountsFilled (storeAndMerge FILENAME SID data i now t st).2 := by
  unfold storeAndMerge storeChunk
  cases hs : slot t.chunks i with
  | some q => exact h
  | none =>
    cases hw : st.fs.writeFile ⟨t.tempDir, i⟩ data with
    | none => exact countsFilled_files st _ h
    | some fs2 =>
      apply mergeChunks_counts
      apply countsFilled_put _ st.fs _ _ _ h
      simp [countFilled_setSlot _ _ _ hs, ht]

theorem imageMerge_counts (FILENAME SID : String) (chunkData : Option Bytes)
    (chunkIndex totalChunks : Int) (now : Int) (st : MergeState) (h : CountsFilled st) :
    CountsFilled (imageMerge FILENAME SID chunkData chunkIndex totalChunks now st).2 := by
  unfold imageMerge
  cases chunkData with
  | none => exact h
  | some data =>
    by_cases hv : FILENAME = "" ∨ SID = "" ∨ chunkIndex < 0 ∨ totalChunks ≤ 0
    · simp only [hv, if_true]; exact h
    · simp only [hv, if_false]
      have := openSession_counts SID totalChunks now st h
      exact storeAndMerge_counts _ _ _ _ _ _ _ this.1 this.2

theorem reapEntry_counts (maxAge now : Int) (st : MergeState) (e : String × Tracker)
    (h : CountsFilled st) : CountsFilled (reapEntry maxAge now st e) := by
  unfold reapEntry
  split
  · exact countsFilled_delete _ st.fs _ _ h
  · exact h

theorem foldl_reapEntry_counts (maxAge now : Int) (entries : List (String × Tracker)) :
    ∀ st, CountsFilled st → CountsFilled (entries.foldl (reapEntry maxAge now) st) := by
  induction entries with
  | nil => intro st h; exact h
  | cons e rest ih => intro st h; exact ih _ (reapEntry_counts maxAge now st e h)

theorem reachable_counts (st : MergeState) (h : Reachable st) : CountsFilled st := by
  induction h with
  | init fs => intro s u hu; simp [UploadTracker.get] at hu
  | merge F S d i n now st _ ih => exact imageMerge_counts F S d i n now st ih
  | reap maxAge now st _ ih => exact foldl_reapEntry_counts maxAge now _ st ih
  | files fs st _ ih => exact countsFilled_files st fs ih

theorem readChunks_ok_iff (fs : FileSystem) (chunks : List (Option ChunkPath)) (is : List Nat) :
    (∃ bs, readChunks fs chunks is = .ok bs) ↔
      ∀ i ∈ is, ∃ q, slot chunks i = some q ∧ fs.readFile q ≠ none := by
  induction is with
  | nil => simp [readChunks]
  | cons i rest ih =>
    simp only [readChunks, List.mem_cons, forall_eq_or_imp]
    cases hs : slot chunks i with
    | none => simp
    | some q =>
      cases hr : fs.readFile q with
      | none => simp [hr]
      | some b =>
        cases hrest : readChunks fs chunks rest with
        | error e =>
          have : ¬ ∃ bs, readChunks fs chunks rest = .ok bs := by simp [hrest]
          rw [ih] at this
          simp [hr, this]
        | ok bs =>
          have : ∃ bs, readChunks fs chunks rest = .ok bs := ⟨bs, hrest⟩
          rw [ih] at this
          simp only [hr, Except.ok.injEq, exists_eq', Option.some.injEq, ne_eq, exists_eq_left',
            not_false_eq_true, true_and, true_iff, reduceCtorEq]
          exact this

theorem readChunks_error (fs : FileSystem) (chunks : List (Option ChunkPath)) (is : List Nat)
    (e : MergeError) (h : readChunks fs chunks is = .error e) :
    ∃ i ∈ is, e = .chunkMissing i := by
  induction is with
  | nil => simp [readChunks] at h
  | cons i rest ih =>
    simp only [readChunks] at h
    cases hs : slot chunks i with
    | none =>
      simp only [hs, Except.error.injEq] at h
      exact ⟨i, List.mem_cons_self _ _, h.symm⟩
    | some q =>
      simp only [hs] at h
      cases hr : fs.readFile q with
      | none =>
        simp only [hr, Except.error.injEq] at h
        exact ⟨i, List.mem_cons_self _ _, h.symm⟩
      | some b =>
        simp only [hr] at h
        cases hrest : readChunks fs chunks rest with
        | error e' =>
          simp only [hrest, Except.error.injEq] at h
          obtain ⟨j, hj, he⟩ := ih (h ▸ hrest)
          exact ⟨j, List.mem_cons_of_mem _ hj, he⟩
        | ok bs => simp [hrest] at h

theorem mem_range_toNat (total : Int) (i : Nat) :
    i ∈ List.range total.toNat ↔ (i : Int) < total := by
  rw [List.mem_range]
  omega

theorem imageMerge_of_stored (FILENAME SID : String) (chunkData : Option Bytes)
    (chunkIndex totalChunks : Int) (now : Int) (st : MergeState) (t : Tracker) (st2 : MergeState)
    (h : storedSession FILENAME SID chunkData chunkIndex totalChunks now st = some (t, st2)) :
    imageMerge FILENAME SID chunkData chunkIndex totalChunks now st =
      mergeChunks FILENAME SID now t st2 := by
  unfold storedSession at h
  unfold imageMerge storeAndMerge
  cases chunkData with
  | none => simp at h
  | some data =>
    by_cases hv : FILENAME = "" ∨ SID = "" ∨ chunkIndex < 0 ∨ totalChunks ≤ 0
    · simp [hv] at h
    · simp only [hv, if_false] at h ⊢
      cases hsc : storeChunk SID data chunkIndex.toNat (openSession SID totalChunks now st).1
          (openSession SID totalChunks now st).2 with
      | duplicate => simp [hsc] at h
      | failed st1 => simp [hsc] at h
      | stored t' st' =>
        simp only [hsc, Option.some.injEq, Prod.mk.injEq] at h
        rw [h.1, h.2]

theorem imageMerge_complete_stored (FILENAME SID : String) (chunkData : Option Bytes)
    (chunkIndex totalChunks : Int) (now : Int) (st : MergeState) (p : FinalPath)
    (h : (imageMerge FILENAME SID chunkData chunkIndex totalChunks now st).1 = .ok (some p)) :
    ∃ t st2, storedSession FILENAME SID chunkData chunkIndex totalChunks now st = some (t, st2) := by
  unfold storedSession
  unfold imageMerge storeAndMerge at h
  cases chunkData with
  | none => simp at h
  | some data =>
    by_cases hv : FILENAME = "" ∨ SID = "" ∨ chunkIndex < 0 ∨ totalChunks ≤ 0
    · simp [hv] at h
    · simp only [hv, if_false] at h ⊢
      cases hsc : storeChunk SID data chunkIndex.toNat (openSession SID totalChunks now st).1
          (openSession SID totalChunks now st).2 with
      | duplicate => simp [hsc] at h
      | failed st1 => simp [hsc] at h
      | stored t' st' => exact ⟨t', st', rfl⟩

theorem mergeChunks_complete_iff (FILENAME SID : String) (now : Int) (t : Tracker)
    (st : MergeState) (p : FinalPath) :
    (mergeChunks FILENAME SID now t st).1 = .ok (some p) ↔
      p = ⟨FILENAME, now⟩ ∧ (t.received : Int) = t.total ∧
        ∀ i : Nat, (i : Int) < t.total → ∃ q, slot t.chunks i = some q ∧ st.fs.readFile q ≠ none := by
  have hiff := readChunks_ok_iff st.fs t.chunks (List.range t.total.toNat)
  simp only [mem_range_toNat] at hiff
  unfold mergeChunks
  by_cases hc : (t.received : Int) = t.total
  · simp only [hc, if_true, true_and]
    cases hr : readChunks st.fs t.chunks (List.range t.total.toNat) with
    | error e =>
      have : ¬ ∃ bs, readChunks st.fs t.chunks (List.range t.total.toNat) = .ok bs := by
        simp [hr]
      rw [hiff] at this
      simp [this]
    | ok bs =>
      have : ∃ bs, readChunks st.fs t.chunks (List.range t.total.toNat) = .ok bs := ⟨bs, hr⟩
      rw [hiff] at this
      simp only [Except.ok.injEq, Option.some.injEq]
      constructor
      · intro h; exact ⟨h.symm, this⟩
      · intro h; exact h.1.symm
  · simp [hc]

theorem storeChunk_stored (SID : String) (data : Bytes) (i : Nat) (t0 : Tracker)
    (st1 : MergeState) (t : Tracker) (st2 : MergeState)
    (h : storeChunk SID data i t0 st1 = .stored t st2) :
    slot t0.chunks i = none ∧ t.chunks = setSlot t0.chunks i ⟨t0.tempDir, i⟩ ∧
      t.received = t0.received + 1 ∧ t.tempDir = t0.tempDir ∧ t.total = t0.total ∧
      st2.fs.uploads = st1.fs.uploads := by
  unfold storeChunk at h
  cases hs : slot t0.chunks i with
  | some q => simp [hs] at h
  | none =>
    simp only [hs] at h
    cases hw : st1.fs.writeFile ⟨t0.tempDir, i⟩ data with
    | none => simp [hw] at h
    | some fs2 =>
      simp only [hw, StoreResult.stored.injEq] at h
      obtain ⟨h1, h2⟩ := h
      subst h1 h2
      refine ⟨rfl, rfl, rfl, rfl, rfl, ?_⟩
      unfold FileSystem.writeFile at hw
      cases hd : st1.fs.temp t0.tempDir with
      | none => simp [hd] at hw
      | some g =>
        simp only [hd, Option.some.injEq] at hw
        rw [← hw]

theorem storedSession_storeChunk (FILENAME SID : String) (chunkData : Option Bytes)
    (chunkIndex totalChunks : Int) (now : Int) (st : MergeState) (t : Tracker) (st2 : MergeState)
    (h : storedSession FILENAME SID chunkData chunkIndex totalChunks now st = some (t, st2)) :
    ∃ data, storeChunk SID data chunkIndex.toNat (openSession SID totalChunks now st).1
      (openSession SID totalChunks now st).2 = .stored t st2 := by
  unfold storedSession at h
  cases chunkData with
  | none => simp at h
  | some data =>
    by_cases hv : FILENAME = "" ∨ SID = "" ∨ chunkIndex < 0 ∨ totalChunks ≤ 0
    · simp [hv] at h
    · simp only [hv, if_false] at h
      cases hsc : storeChunk SID data chunkIndex.toNat (openSession SID totalChunks now st).1
          (openSession SID totalChunks now st).2 with
      | duplicate => simp [hsc] at h
      | failed st1 => simp [hsc] at h
      | stored t' st' =>
        simp only [hsc, Option.some.injEq, Prod.mk.injEq] at h
        exact ⟨data, by rw [hsc, h.1, h.2]⟩

theorem storedSession_counts (FILENAME SID : String) (chunkData : Option Bytes)
    (chunkIndex totalChunks : Int) (now : Int) (st : MergeState) (t : Tracker) (st2 : MergeState)
    (hinv : CountsFilled st)
    (h : storedSession FILENAME SID chunkData chunkIndex totalChunks now st = some (t, st2)) :
    t.received = countFilled t.chunks := by
  obtain ⟨data, hsc⟩ := storedSession_storeChunk _ _ _ _ _ _ _ _ _ h
  obtain ⟨hs, hch, hrec, _, _, _⟩ := storeChunk_stored _ _ _ _ _ _ _ hsc
  rw [hch, hrec, countFilled_setSlot _ _ _ hs, (openSession_counts SID totalChunks now st hinv).2]

/-- C2 (amended): in every state the server can reach and for every call of
`imageMerge`, the call returns an artifact path exactly when its chunk is
stored, the stored-count then equals the declared total, and every slot
`0..total-1` is filled with its chunk file present; and whenever the call
returns a path, the filled slots are exactly the slots `0..total-1`. -/
theorem imageMerge_complete_iff (st : MergeState) (hreach : Reachable st)
    (FILENAME SID : String) (chunkData : Option Bytes) (chunkIndex totalChunks : Int) (now : Int)
    (p : FinalPath) :
    ((imageMerge FILENAME SID chunkData chunkIndex totalChunks now st).1 = .ok (some p) ↔
      p = ⟨FILENAME, now⟩ ∧
      ∃ t st2, storedSession FILENAME SID chunkData chunkIndex totalChunks now st = some (t, st2) ∧
        (t.received : Int) = t.total ∧
        ∀ i : Nat, (i : Int) < t.total →
          ∃ q, slot t.chunks i = some q ∧ st2.fs.readFile q ≠ none) ∧
    ((imageMerge FILENAME SID chunkData chunkIndex totalChunks now st).1 = .ok (some p) →
      ∃ t st2, storedSession FILENAME SID chunkData chunkIndex totalChunks now st = some (t, st2) ∧
        ∀ i : Nat, slot t.chunks i ≠ none ↔ (i : Int) < t.total) := by
  have hiff : (imageMerge FILENAME SID chunkData chunkIndex totalChunks now st).1 = .ok (some p) ↔
      p = ⟨FILENAME, now⟩ ∧
      ∃ t st2, storedSession FILENAME SID chunkData chunkIndex totalChunks now st = some (t, st2) ∧
        (t.received : Int) = t.total ∧
        ∀ i : Nat, (i : Int) < t.total →
          ∃ q, slot t.chunks i = some q ∧ st2.fs.readFile q ≠ none := by
    constructor
    · intro h
      obtain ⟨t, st2, hst⟩ := imageMerge_complete_stored _ _ _ _ _ _ _ _ h
      rw [imageMerge_of_stored _ _ _ _ _ _ _ _ _ hst, mergeChunks_complete_iff] at h
      exact ⟨h.1, t, st2, hst, h.2⟩
    · rintro ⟨hp, t, st2, hst, h⟩
      rw [imageMerge_of_stored _ _ _ _ _ _ _ _ _ hst, mergeChunks_complete_iff]
      exact ⟨hp, h⟩
  refine ⟨hiff, ?_⟩
  intro h
  obtain ⟨_, t, st2, hst, hcount, hall⟩ := hiff.mp h
  refine ⟨t, st2, hst, ?_⟩
  have hinv := storedSession_counts _ _ _ _ _ _ _ _ _ (reachable_counts st hreach) hst
  intro i
  constructor
  · intro hne
    by_contra hlt
    have hle : t.received ≤ i := by omega
    have hfill : ∀ k, k < t.received → slot t.chunks k ≠ none := by
      intro k hk
      obtain ⟨q, hq, _⟩ := hall k (by omega)
      simp [hq]
    exact hne (slot_none_beyond_count t.chunks t.received hinv.symm hfill i hle)
  · intro hlt
    obtain ⟨q, hq, _⟩ := hall i hlt
    simp [hq]

/-- C2 (amended) at a concrete call: the second of two chunks completes the
session opened by the first. -/
theorem imageMerge_complete_iff_witness :
    ((imageMerge "receipt.png" "sid-1" (some [20]) 1 2 1002
        (imageMerge "receipt.png" "sid-1" (some [10]) 0 2 1001 MergeState.init).2).1 =
        .ok (some ⟨"receipt.png", 1002⟩) ↔
      (⟨"receipt.png", 1002⟩ : FinalPath) = ⟨"receipt.png", 1002⟩ ∧
      ∃ t st2, storedSession "receipt.png" "sid-1" (some [20]) 1 2 1002
          (imageMerge "receipt.png" "sid-1" (some [10]) 0 2 1001 MergeState.init).2 =
            some (t, st2) ∧
        (t.received : Int) = t.total ∧
        ∀ i : Nat, (i : Int) < t.total →
          ∃ q, slot t.chunks i = some q ∧ st2.fs.readFile q ≠ none) ∧
    ((imageMerge "receipt.png" "sid-1" (some [20]) 1 2 1002
        (imageMerge "receipt.png" "sid-1" (some [10]) 0 2 1001 MergeState.init).2).1 =
        .ok (some ⟨"receipt.png", 1002⟩) →
      ∃ t st2, storedSession "receipt.png" "sid-1" (some [20]) 1 2 1002
          (imageMerge "receipt.png" "sid-1" (some [10]) 0 2 1001 MergeState.init).2 =
            some (t, st2) ∧
        ∀ i : Nat, slot t.chunks i ≠ none ↔ (i : Int) < t.total) :=
  imageMerge_complete_iff _
    (Reachable.merge "receipt.png" "sid-1" (some [10]) 0 2 1001 _
      (Reachable.init FileSystem.empty))
    "receipt.png" "sid-1" (some [20]) 1 2 1002 ⟨"receipt.png", 1002⟩

/-- C2 as stated fails: after chunk 0 of a session of 2, a request with index 2
is stored and brings the stored-count to the total 2, and the call raises the
error for the missing chunk 1 instead of returning an artifact. -/
theorem stored_count_reaches_total_without_completion :
    (storedSession "receipt.png" "sid-1" (some [20]) 2 2 1002
        (imageMerge "receipt.png" "sid-1" (some [10]) 0 2 1001 MergeState.init).2).map
      (fun r => (r.1.received, r.1.total)) = some (2, 2) ∧
    (imageMerge "receipt.png" "sid-1" (some [20]) 2 2 1002
        (imageMerge "receipt.png" "sid-1" (some [10]) 0 2 1001 MergeState.init).2).1 =
      .error (.chunkMissing 1) := by
  decide

/-! ## Duplicate chunks -/

theorem firstData_append_cons (pre cs : List Call) (c : Call) (h : c.idx ∉ idxSet pre) :
    firstData (pre ++ c :: cs) c.idx = c.data := by
  have hpre : pre.find? (fun x => decide (x.idx = c.idx)) = none := by
    rw [List.find?_eq_none]
    intro x hx
    simp only [decide_eq_true_eq]
    intro hxc
    exact h ((mem_idxSet pre c.idx).mpr ⟨x, hx, hxc⟩)
  simp [firstData, List.find?_append, hpre]

theorem firstWins_firstData :
    ∀ (cs pre : List Call), FirstWins (firstData (pre ++ cs)) (idxSet pre) cs := by
  intro cs
  induction cs with
  | nil => intro pre; trivial
  | cons c cs ih =>
    intro pre
    refine ⟨fun h => (firstData_append_cons pre cs c h).symm, ?_⟩
    have := ih (pre ++ [c])
    rw [List.append_assoc, List.singleton_append, idxSet_append] at this
    have hs : idxSet pre ∪ idxSet [c] = insert c.idx (idxSet pre) := by
      ext i
      simp [idxSet, or_comm]
    rwa [hs] at this

/-- C3: a request for an index whose slot is already filled, with the same
total and any bytes, makes `imageMerge` return no path without raising and
leave the whole state as it is (so the stored-count and the stored bytes of
the slot are unchanged); and in every upload of a session of `N` chunks in
which chunks are resubmitted any number of times before the last missing index
arrives, every call but the last returns no path and the artifact of the last
call holds, for each index, the bytes first submitted for it. -/
theorem resubmitted_chunk_is_ignored (FILENAME SID : String) (hF : FILENAME ≠ "")
    (hS : SID ≠ "") :
    (∀ (data : Bytes) (chunkIndex totalChunks now : Int) (st : MergeState) (t : Tracker)
        (q : ChunkPath),
      0 ≤ chunkIndex → 0 < totalChunks → st.uploadTracker.get SID = some t →
      t.total = totalChunks → slot t.chunks chunkIndex.toNat = some q →
      imageMerge FILENAME SID (some data) chunkIndex totalChunks now st = (.ok none, st)) ∧
    (∀ (N : Nat) (calls : List Call) (last : Call) (st : MergeState),
      st.uploadTracker.get SID = none →
      (∀ c ∈ calls, c.idx < N) → last.idx < N → (∀ c ∈ calls, c.idx ≠ last.idx) →
      (∀ i, i < N → i ≠ last.idx → ∃ c ∈ calls, c.idx = i) →
      (uploadRun FILENAME SID N (calls ++ [last]) st).1 =
        List.replicate calls.length (.ok none) ++ [.ok (some ⟨FILENAME, last.now⟩)] ∧
      (uploadRun FILENAME SID N (calls ++ [last]) st).2.fs.uploads ⟨FILENAME, last.now⟩ =
        some ((List.range N).map (firstData (calls ++ [last]))).flatten) := by
  constructor
  · intro data chunkIndex totalChunks now st t q hi hN hget htot hslot
    have h1 : ¬ (chunkIndex < 0) := by omega
    have h2 : ¬ (totalChunks ≤ 0) := by omega
    simp only [imageMerge, hF, hS, h1, h2, or_self, if_false,
      openSession_same SID totalChunks now st t hget htot]
    exact storeAndMerge_dup FILENAME SID data chunkIndex.toNat now t st q hslot
  · intro N calls last st hfresh hidx hlast hnew hcover
    have h := upload_complete FILENAME SID hF hS N (firstData (calls ++ [last])) calls last st
      (Or.inl hfresh) hidx hlast hnew hcover
      (by simpa [idxSet] using firstWins_firstData (calls ++ [last]) [])
    exact ⟨h.1, h.2.1⟩

/-- C3 at a concrete upload of two chunks in which chunk 0 is resubmitted with
other bytes: the artifact holds the bytes first submitted. -/
theorem resubmitted_chunk_is_ignored_witness :
    imageMerge "receipt.png" "sid-1" (some [99]) 0 2 1002
        (imageMerge "receipt.png" "sid-1" (some [10]) 0 2 1001 MergeState.init).2 =
      (.ok none, (imageMerge "receipt.png" "sid-1" (some [10]) 0 2 1001 MergeState.init).2) ∧
    (uploadRun "receipt.png" "sid-1" (2 : Nat)
        ([⟨0, [10], 1001⟩, ⟨0, [99], 1002⟩] ++ [⟨1, [20], 1003⟩]) MergeState.init).2.fs.uploads
      ⟨"receipt.png", 1003⟩ =
        some ((List.range 2).map
          (firstData ([⟨0, [10], 1001⟩, ⟨0, [99], 1002⟩] ++ [⟨1, [20], 1003⟩]))).flatten :=
  ⟨(resubmitted_chunk_is_ignored "receipt.png" "sid-1" (by decide) (by decide)).1 [99] 0 2 1002
      (imageMerge "receipt.png" "sid-1" (some [10]) 0 2 1001 MergeState.init).2
      ⟨[some ⟨"sid-1", 0⟩, none], 1, 2, "sid-1", 1001⟩ ⟨"sid-1", 0⟩
      (by decide) (by decide) (by decide) (by decide) (by decide),
    ((resubmitted_chunk_is_ignored "receipt.png" "sid-1" (by decide) (by decide)).2 2
      [⟨0, [10], 1001⟩, ⟨0, [99], 1002⟩] ⟨1, [20], 1003⟩ MergeState.init rfl
      (by decide) (by decide) (by decide) (by decide)).2⟩

/-! ## Change of the declared total -/

theorem openSession_discards (SID : String) (N now : Int) (st : MergeState) (old : Tracker)
    (hold : st.uploadTracker.get SID = some old) (hne : old.total ≠ N) (i : Nat) :
    (openSession SID N now st).2.fs.readFile ⟨old.tempDir, i⟩ = none := by
  simp only [openSession, hold, hne, ne_eq, not_false_eq_true, if_true]
  unfold FileSystem.readFile FileSystem.mkdir FileSystem.existsDir FileSystem.rmDir
  by_cases hd : old.tempDir = SID
  · subst hd
    cases ht : st.fs.temp old.tempDir <;> simp [ht]
  · cases ht : st.fs.temp old.tempDir with
    | none =>
      cases hs : st.fs.temp SID <;> simp [ht, hs, hd]
    | some g =>
      have hd' : ¬ SID = old.tempDir := fun e => hd e.symm
      cases hs : st.fs.temp SID <;> simp [ht, hs, hd, hd']

/-- C4: when a session of `SID` exists with a total different from `N'`, a call
of `imageMerge` declaring `N'` replaces it, before it stores its own chunk, by
a session of `N'` empty slots and stored-count 0, and no chunk file is left
under the scratch directory of the old session; and the upload of a complete
set of `N'` chunks that starts with this call (indices in any order) ends with
an artifact whose bytes are exactly the concatenation of these `N'` chunks in
index order. -/
theorem total_change_restarts_session (FILENAME SID : String) (hF : FILENAME ≠ "")
    (hS : SID ≠ "") (N' : Nat) (hN : 0 < N') (chunk : List Bytes) (hlen : chunk.length = N')
    (calls : List Call) (hperm : (calls.map Call.idx).Perm (List.range N'))
    (hdata : ∀ c ∈ calls, c.data = chunk.getD c.idx [])
    (st : MergeState) (old : Tracker) (hold : st.uploadTracker.get SID = some old)
    (hne : old.total ≠ (N' : Int)) :
    (∀ now : Int,
      (openSession SID N' now st).1.chunks = List.replicate N' none ∧
      (openSession SID N' now st).1.received = 0 ∧
      (openSession SID N' now st).1.total = N' ∧
      (openSession SID N' now st).2.uploadTracker.get SID = some (openSession SID N' now st).1 ∧
      ∀ i, (openSession SID N' now st).2.fs.readFile ⟨old.tempDir, i⟩ = none) ∧
    ∃ p, (uploadRun FILENAME SID N' calls st).1 =
        List.replicate (N' - 1) (.ok none) ++ [.ok (some p)] ∧
      (uploadRun FILENAME SID N' calls st).2.fs.uploads p = some chunk.flatten := by
  refine ⟨fun now => ⟨?_, ?_, ?_, ?_, fun i => openSession_discards SID N' now st old hold hne i⟩,
    upload_in_any_order FILENAME SID hF hS N' hN chunk hlen calls hperm hdata st
      (Or.inr ⟨old, hold, hne⟩)⟩
  · simp [openSession, hold, hne, newSession]
  · simp [openSession, hold, hne, newSession]
  · simp [openSession, hold, hne, newSession]
  · simp [openSession, hold, hne, tracker_get_put]

/-- C4 at a concrete run: a session of 3 chunks holding chunk 0 is replaced by
a session of 2 chunks. -/
theorem total_change_restarts_session_witness :
    (∀ now : Int,
      (openSession "sid-1" (2 : Nat) now
        (imageMerge "receipt.png" "sid-1" (some [77]) 0 3 1000 MergeState.init).2).1.chunks =
        List.replicate 2 none ∧
      (openSession "sid-1" (2 : Nat) now
        (imageMerge "receipt.png" "sid-1" (some [77]) 0 3 1000 MergeState.init).2).1.received = 0 ∧
      (openSession "sid-1" (2 : Nat) now
        (imageMerge "receipt.png" "sid-1" (some [77]) 0 3 1000 MergeState.init).2).1.total =
        (2 : Nat) ∧
      (openSession "sid-1" (2 : Nat) now
        (imageMerge "receipt.png" "sid-1" (some [77]) 0 3 1000
          MergeState.init).2).2.uploadTracker.get "sid-1" =
        some (openSession "sid-1" (2 : Nat) now
          (imageMerge "receipt.png" "sid-1" (some [77]) 0 3 1000 MergeState.init).2).1 ∧
      ∀ i, (openSession "sid-1" (2 : Nat) now
        (imageMerge "receipt.png" "sid-1" (some [77]) 0 3 1000 MergeState.init).2).2.fs.readFile
          ⟨"sid-1", i⟩ = none) ∧
    ∃ p, (uploadRun "receipt.png" "sid-1" (2 : Nat)
          [⟨1, [30, 40], 1001⟩, ⟨0, [10, 20], 1002⟩]
          (imageMerge "receipt.png" "sid-1" (some [77]) 0 3 1000 MergeState.init).2).1 =
        List.replicate (2 - 1) (.ok none) ++ [.ok (some p)] ∧
      (uploadRun "receipt.png" "sid-1" (2 : Nat)
          [⟨1, [30, 40], 1001⟩, ⟨0, [10, 20], 1002⟩]
          (imageMerge "receipt.png" "sid-1" (some [77]) 0 3 1000 MergeState.init).2).2.fs.uploads p =
        some [[10, 20], [30, 40]].flatten :=
  total_change_restarts_session "receipt.png" "sid-1" (by decide) (by decide) 2 (by decide)
    [[10, 20], [30, 40]] rfl [⟨1, [30, 40], 1001⟩, ⟨0, [10, 20], 1002⟩] (by decide) (by decide)
    (imageMerge "receipt.png" "sid-1" (some [77]) 0 3 1000 MergeState.init).2
    ⟨[some ⟨"sid-1", 0⟩, none, none], 1, 3, "sid-1", 1000⟩ (by decide) (by decide)

/-! ## Rejected requests -/

/-- C5 (amended): `imageMerge` throws its parameter error and leaves the state
as it is whenever the session id is empty, the index is negative, the total is
not positive, or the chunk data is absent; for such a request (session id
absent or empty, negative index, total not positive, no buffer) the `/img`
handler answers with a failure and leaves the state as it is, both as
`verify.js` has it and with `imageMerge` bound to the function of
`imageMerge.js`; and a request with a buffer of any length, the empty one
included, whose other fields are present passes the checks of the handler. -/
theorem invalid_chunk_is_rejected (now : Int) (st : MergeState) :
    (∀ (FILENAME SID : String) (chunkData : Option Bytes) (chunkIndex totalChunks : Int),
      SID = "" ∨ chunkIndex < 0 ∨ totalChunks ≤ 0 ∨ chunkData = none →
      imageMerge FILENAME SID chunkData chunkIndex totalChunks now st =
        (.error .invalidParams, st)) ∧
    (∀ req : ImgRequest,
      (req.PAYLOAD = none ∨ req.PAYLOAD = some "") ∨ (∃ i, req.CHUNK_IDX = some i ∧ i < 0) ∨
        (∃ n, req.CHUNK_TOTAL = some n ∧ n ≤ 0) ∨ req.buffer = none →
      (∃ reason, postImg req now st = (.failure reason, st)) ∧
      ∃ reason, imgHandler (some imageMerge) req now st = (.failure reason, st)) ∧
    (∀ (chunkIndex totalChunks : Int) (FILENAME SID : String) (chunkData : Bytes),
      FILENAME ≠ "" → SID ≠ "" →
      imgChecks ⟨some chunkIndex, some totalChunks, FILENAME, some SID, some chunkData⟩ =
        .ok ⟨FILENAME, SID, chunkData, chunkIndex, totalChunks⟩) := by
  have hmerge : ∀ (FILENAME SID : String) (chunkData : Option Bytes)
      (chunkIndex totalChunks : Int),
      SID = "" ∨ chunkIndex < 0 ∨ totalChunks ≤ 0 ∨ chunkData = none →
      imageMerge FILENAME SID chunkData chunkIndex totalChunks now st =
        (.error .invalidParams, st) := by
    intro FILENAME SID chunkData chunkIndex totalChunks h
    unfold imageMerge
    cases chunkData with
    | none => rfl
    | some data =>
      have hv : FILENAME = "" ∨ SID = "" ∨ chunkIndex < 0 ∨ totalChunks ≤ 0 := by
        rcases h with h | h | h | h
        · exact Or.inr (Or.inl h)
        · exact Or.inr (Or.inr (Or.inl h))
        · exact Or.inr (Or.inr (Or.inr h))
        · simp at h
      simp only [hv, if_true]
  refine ⟨hmerge, ?_, ?_⟩
  · intro req h
    unfold postImg imgHandler
    cases hc : imgChecks req with
    | error reason => exact ⟨⟨reason, rfl⟩, ⟨reason, rfl⟩⟩
    | ok args =>
      refine ⟨⟨.notDefined, rfl⟩, ?_⟩
      have hbad : args.SID = "" ∨ args.chunkIndex < 0 ∨ args.totalChunks ≤ 0 ∨
          some args.chunkData = none := by
        unfold imgChecks at hc
        cases hi : req.CHUNK_IDX with
        | none => simp [hi] at hc
        | some chunkIndex =>
          cases hn : req.CHUNK_TOTAL with
          | none => simp [hi, hn] at hc
          | some totalChunks =>
            cases hp : req.PAYLOAD with
            | none => simp [hi, hn, hp] at hc
            | some SID =>
              cases hb : req.buffer with
              | none => simp [hi, hn, hp, hb] at hc
              | some chunkData =>
                simp only [hi, hn, hp, hb] at hc
                by_cases hF : req.FILENAME = ""
                · simp [hF] at hc
                · by_cases hS : SID = ""
                  · simp [hF, hS] at hc
                  · simp only [hF, hS, if_false, Except.ok.injEq] at hc
                    subst hc
                    rcases h with h | ⟨i, h1, h2⟩ | ⟨n, h1, h2⟩ | h
                    · rw [hp] at h
                      simp [hS] at h
                    · rw [hi] at h1
                      simp only [Option.some.injEq] at h1
                      exact Or.inr (Or.inl (h1 ▸ h2))
                    · rw [hn] at h1
                      simp only [Option.some.injEq] at h1
                      exact Or.inr (Or.inr (Or.inl (h1 ▸ h2)))
                    · rw [hb] at h
                      simp at h
      refine ⟨.mergeError .invalidParams, ?_⟩
      simp only [hmerge args.FILENAME args.SID (some args.chunkData) args.chunkIndex
        args.totalChunks hbad]
  · intro chunkIndex totalChunks FILENAME SID chunkData hF hS
    simp [imgChecks, hF, hS]

/-- C5 (amended) at concrete requests: a negative index and a missing buffer. -/
theorem invalid_chunk_is_rejected_witness :
    imageMerge "receipt.png" "sid-1" (some [10]) (-1) 2 1001 MergeState.init =
      (.error .invalidParams, MergeState.init) ∧
    ∃ reason, postImg ⟨some 0, some 2, "receipt.png", some "sid-1", none⟩ 1001 MergeState.init =
      (.failure reason, MergeState.init) :=
  ⟨(invalid_chunk_is_rejected 1001 MergeState.init).1 "receipt.png" "sid-1" (some [10]) (-1) 2
      (Or.inr (Or.inl (by decide))),
    ((invalid_chunk_is_rejected 1001 MergeState.init).2.1
      ⟨some 0, some 2, "receipt.png", some "sid-1", none⟩ (Or.inr (Or.inr (Or.inr rfl)))).1⟩

/-- C5 as stated fails: a chunk that is an empty buffer passes the checks of
the `/img` handler, and `imageMerge` does not reject it: the call returns no
error and the session map changes. -/
theorem empty_chunk_is_accepted :
    imgChecks ⟨some 0, some 2, "receipt.png", some "sid-1", some []⟩ =
      .ok ⟨"receipt.png", "sid-1", [], 0, 2⟩ ∧
    (imageMerge "receipt.png" "sid-1" (some []) 0 2 1001 MergeState.init).1 = .ok none ∧
    (imageMerge "receipt.png" "sid-1" (some []) 0 2 1001 MergeState.init).2.uploadTracker ≠
      MergeState.init.uploadTracker := by
  decide

/-! ## Integrity failure at reassembly -/

theorem openSession_uploads (SID : String) (N now : Int) (st : MergeState) :
    (openSession SID N now st).2.fs.uploads = st.fs.uploads := by
  unfold openSession
  cases hget : st.uploadTracker.get SID with
  | none =>
    simp only [FileSystem.mkdir]
    split <;> split <;> rfl
  | some old =>
    simp only
    split
    · simp only [FileSystem.mkdir]
      split <;> split <;> rfl
    · rfl

theorem cleanupTempFiles_spec (t : Tracker) (fs : FileSystem) :
    (cleanupTempFiles t fs).uploads = fs.uploads ∧
    (cleanupTempFiles t fs).existsDir t.tempDir = false := by
  unfold cleanupTempFiles
  by_cases h : fs.existsDir t.tempDir = true
  · simp only [h, if_true]
    exact ⟨rfl, by simp [FileSystem.rmDir, FileSystem.existsDir]⟩
  · simp only [h]
    exact ⟨rfl, by simpa using h⟩

/-- C6: whenever the chunk of a call of `imageMerge` is stored and brings the
stored-count to the total while some slot in `0..total-1` is empty or its chunk
file is missing, the call raises the error of a missing chunk, the upload
directory is left as it was (no artifact is written), and the scratch
directory of the session no longer exists. -/
theorem imageMerge_integrity_failure (FILENAME SID : String) (chunkData : Option Bytes)
    (chunkIndex totalChunks : Int) (now : Int) (st : MergeState) (t : Tracker) (st2 : MergeState)
    (hstored : storedSession FILENAME SID chunkData chunkIndex totalChunks now st = some (t, st2))
    (hcount : (t.received : Int) = t.total)
    (hmissing : ∃ i : Nat, (i : Int) < t.total ∧
      (slot t.chunks i = none ∨ ∃ q, slot t.chunks i = some q ∧ st2.fs.readFile q = none)) :
    (∃ j : Nat, (j : Int) < t.total ∧
      (imageMerge FILENAME SID chunkData chunkIndex totalChunks now st).1 =
        .error (.chunkMissing j)) ∧
    (imageMerge FILENAME SID chunkData chunkIndex totalChunks now st).2.fs.uploads =
      st.fs.uploads ∧
    (imageMerge FILENAME SID chunkData chunkIndex totalChunks now st).2.fs.existsDir t.tempDir =
      false := by
  obtain ⟨data, hsc⟩ := storedSession_storeChunk _ _ _ _ _ _ _ _ _ hstored
  have hup : st2.fs.uploads = st.fs.uploads := by
    rw [(storeChunk_stored _ _ _ _ _ _ _ hsc).2.2.2.2.2, openSession_uploads]
  rw [imageMerge_of_stored _ _ _ _ _ _ _ _ _ hstored]
  unfold mergeChunks
  simp only [hcount, if_true]
  cases hr : readChunks st2.fs t.chunks (List.range t.total.toNat) with
  | ok bs =>
    exfalso
    have hall := (readChunks_ok_iff st2.fs t.chunks (List.range t.total.toNat)).mp ⟨bs, hr⟩
    obtain ⟨i, hi, hbad⟩ := hmissing
    obtain ⟨q, hq, hq'⟩ := hall i ((mem_range_toNat t.total i).mpr hi)
    rcases hbad with hbad | ⟨q2, h1, h2⟩
    · rw [hbad] at hq; simp at hq
    · rw [hq] at h1
      simp only [Option.some.injEq] at h1
      rw [h1] at hq'
      exact hq' h2
  | error e =>
    obtain ⟨j, hj, he⟩ := readChunks_error _ _ _ _ hr
    have hc := cleanupTempFiles_spec t st2.fs
    exact ⟨⟨j, (mem_range_toNat t.total j).mp hj, by rw [he]⟩, by rw [hc.1, hup], hc.2⟩

/-- C6 at a concrete call: after chunk 0 of a session of 2, a request with
index 2 brings the stored-count to 2 while slot 1 is empty. -/
theorem imageMerge_integrity_failure_witness :
    (∃ j : Nat, (j : Int) < 2 ∧
      (imageMerge "receipt.png" "sid-1" (some [20]) 2 2 1002
        (imageMerge "receipt.png" "sid-1" (some [10]) 0 2 1001 MergeState.init).2).1 =
        .error (.chunkMissing j)) ∧
    (imageMerge "receipt.png" "sid-1" (some [20]) 2 2 1002
        (imageMerge "receipt.png" "sid-1" (some [10]) 0 2 1001 MergeState.init).2).2.fs.uploads =
      (imageMerge "receipt.png" "sid-1" (some [10]) 0 2 1001 MergeState.init).2.fs.uploads ∧
    (imageMerge "receipt.png" "sid-1" (some [20]) 2 2 1002
        (imageMerge "receipt.png" "sid-1" (some [10]) 0 2 1001
          MergeState.init).2).2.fs.existsDir "sid-1" = false :=
  imageMerge_integrity_failure "receipt.png" "sid-1" (some [20]) 2 2 1002
    (imageMerge "receipt.png" "sid-1" (some [10]) 0 2 1001 MergeState.init).2 _ _ rfl
    (by decide) ⟨1, by decide, Or.inl (by decide)⟩

/-! ## Retry after an integrity failure -/

/-- C7, the code at the failing input: a session of 2 chunks receives chunk 0
and then a request with index 2, which raises the error for the missing
chunk 1; the session stays in the map while its scratch directory is gone.
The re-upload of chunks 0 and 1 for the same session id and total then returns
no path for chunk 0 (taken for a duplicate) and raises the write error for
chunk 1: it does not complete. -/
theorem retry_after_integrity_failure_fails :
    (uploadRun "receipt.png" "sid-1" 2 [⟨0, [10], 1001⟩, ⟨2, [20], 1002⟩] MergeState.init).1 =
      [.ok none, .error (.chunkMissing 1)] ∧
    ((uploadRun "receipt.png" "sid-1" 2 [⟨0, [10], 1001⟩, ⟨2, [20], 1002⟩]
        MergeState.init).2.uploadTracker.get "sid-1").isSome = true ∧
    (uploadRun "receipt.png" "sid-1" 2 [⟨0, [10], 1001⟩, ⟨2, [20], 1002⟩]
        MergeState.init).2.fs.existsDir "sid-1" = false ∧
    (uploadRun "receipt.png" "sid-1" 2 [⟨0, [11], 2001⟩, ⟨1, [21], 2002⟩]
        (uploadRun "receipt.png" "sid-1" 2 [⟨0, [10], 1001⟩, ⟨2, [20], 1002⟩]
          MergeState.init).2).1 =
      [.ok none, .error .writeFailed] := by
  decide

/-! ## The reaper -/

theorem tracker_mem_of_get (m : UploadTracker) (sid : String) (t : Tracker)
    (h : m.get sid = some t) : (sid, t) ∈ m := by
  induction m with
  | nil => simp [UploadTracker.get] at h
  | cons e rest ih =>
    obtain ⟨k, v⟩ := e
    simp only [UploadTracker.get] at h
    by_cases hk : k = sid
    · simp only [hk, if_true, Option.some.injEq] at h
      simp [hk, h]
    · simp only [hk, if_false] at h
      exact List.mem_cons_of_mem _ (ih h)

theorem cleanupTempFiles_keeps_removed (t : Tracker) (fs : FileSystem) (d : String)
    (h : fs.existsDir d = false) : (cleanupTempFiles t fs).existsDir d = false := by
  unfold cleanupTempFiles
  split
  · simp only [FileSystem.existsDir, FileSystem.rmDir] at h ⊢
    split
    · rfl
    · exact h
  · exact h

theorem reapEntry_keeps_removed (maxAge now : Int) (st : MergeState) (e : String × Tracker)
    (sid d : String)
    (h : st.uploadTracker.get sid = none ∧ st.fs.existsDir d = false) :
    (reapEntry maxAge now st e).uploadTracker.get sid = none ∧
      (reapEntry maxAge now st e).fs.existsDir d = false := by
  unfold reapEntry
  split
  · refine ⟨?_, cleanupTempFiles_keeps_removed _ _ _ h.2⟩
    simp only [tracker_get_delete, h.1]
    split <;> rfl
  · exact h

theorem foldl_reapEntry_keeps_removed (maxAge now : Int) (sid d : String)
    (entries : List (String × Tracker)) :
    ∀ st : MergeState, st.uploadTracker.get sid = none ∧ st.fs.existsDir d = false →
      (entries.foldl (reapEntry maxAge now) st).uploadTracker.get sid = none ∧
        (entries.foldl (reapEntry maxAge now) st).fs.existsDir d = false := by
  induction entries with
  | nil => intro st h; exact h
  | cons e rest ih =>
    intro st h
    exact ih _ (reapEntry_keeps_removed maxAge now st e sid d h)

theorem foldl_reapEntry_removes (maxAge now : Int) (sid : String) (t : Tracker)
    (hstart : t.startTime ≠ 0) (hold : now - t.startTime > maxAge)
    (entries : List (String × Tracker)) :
    ∀ st : MergeState, (sid, t) ∈ entries →
      (entries.foldl (reapEntry maxAge now) st).uploadTracker.get sid = none ∧
        (entries.foldl (reapEntry maxAge now) st).fs.existsDir t.tempDir = false := by
  induction entries with
  | nil => intro st h; simp at h
  | cons e rest ih =>
    intro st h
    rcases List.mem_cons.mp h with h | h
    · subst h
      rw [List.foldl_cons]
      apply foldl_reapEntry_keeps_removed
      have hc : t.startTime ≠ 0 ∧ now - t.startTime > maxAge := ⟨hstart, hold⟩
      unfold reapEntry
      rw [if_pos hc]
      exact ⟨by simp [tracker_get_delete], (cleanupTempFiles_spec t st.fs).2⟩
    · exact ih _ h

/-- C8 (amended): for every state, clock reading `now` and threshold `maxAge`,
after `cleanupOldUploads` has run at `now`, every session whose recorded start
time is not 0 and lies more than `maxAge` before `now` is removed from the map
and its scratch directory does not exist, whatever chunks it holds. -/
theorem cleanupOldUploads_removes_old (maxAge now : Int) (st : MergeState) (sid : String)
    (t : Tracker) (hget : st.uploadTracker.get sid = some t) (hstart : t.startTime ≠ 0)
    (hold : now - t.startTime > maxAge) :
    (cleanupOldUploads maxAge now st).uploadTracker.get sid = none ∧
    (cleanupOldUploads maxAge now st).fs.existsDir t.tempDir = false :=
  foldl_reapEntry_removes maxAge now sid t hstart hold st.uploadTracker st
    (tracker_mem_of_get _ _ _ hget)

/-- C8 (amended) at a concrete state: a session of 2 chunks that holds one
chunk, started at 1000 and reaped at 400000 with the default threshold. -/
theorem cleanupOldUploads_removes_old_witness :
    (cleanupOldUploads DEFAULT_MAX_AGE 400000
        (imageMerge "receipt.png" "sid-1" (some [10]) 0 2 1000
          MergeState.init).2).uploadTracker.get "sid-1" = none ∧
    (cleanupOldUploads DEFAULT_MAX_AGE 400000
        (imageMerge "receipt.png" "sid-1" (some [10]) 0 2 1000
          MergeState.init).2).fs.existsDir "sid-1" = false :=
  cleanupOldUploads_removes_old DEFAULT_MAX_AGE 400000
    (imageMerge "receipt.png" "sid-1" (some [10]) 0 2 1000 MergeState.init).2 "sid-1"
    ⟨[some ⟨"sid-1", 0⟩, none], 1, 2, "sid-1", 1000⟩ (by decide) (by decide) (by decide)

/-- C8 as stated fails: a session opened when the clock reads 0 has the start
time 0; at `now = 400000` it was created more than `maxAge = 300000` before
`now`, and `cleanupOldUploads` leaves it in the map with its scratch
directory. -/
theorem session_started_at_zero_is_not_reaped :
    ((imageMerge "receipt.png" "sid-1" (some [10]) 0 2 0 MergeState.init).2.uploadTracker.get
        "sid-1").map (fun t => decide ((400000 : Int) - t.startTime > DEFAULT_MAX_AGE)) =
      some true ∧
    ((cleanupOldUploads DEFAULT_MAX_AGE 400000
        (imageMerge "receipt.png" "sid-1" (some [10]) 0 2 0
          MergeState.init).2).uploadTracker.get "sid-1").isSome = true ∧
    (cleanupOldUploads DEFAULT_MAX_AGE 400000
        (imageMerge "receipt.png" "sid-1" (some [10]) 0 2 0
          MergeState.init).2).fs.existsDir "sid-1" = true := by
  decide

/-! ## The identifier extractor -/

theorem matchHere_some_iff (s : List Char) : (∃ m, matchHere s = some m) ↔ StartsWithPattern s := by
  cases s with
  | nil =>
    simp only [matchHere, StartsWithPattern]
    constructor
    · rintro ⟨m, hm⟩; simp at hm
    · rintro ⟨c, ds, post, h, _⟩; simp at h
  | cons c rest =>
    simp only [matchHere, StartsWithPattern]
    constructor
    · rintro ⟨m, hm⟩
      by_cases hl : isLead c = true
      · simp only [hl, if_true] at hm
        by_cases h15 : 15 ≤ ((rest.takeWhile isDigit).take 30).length
        · refine ⟨c, rest.takeWhile isDigit, rest.dropWhile isDigit, by simp, hl, ?_, ?_⟩
          · intro d hd
            exact List.mem_takeWhile_imp hd
          · rw [List.length_take] at h15
            omega
        · rw [if_neg h15] at hm
          exact absurd hm (by simp)
      · simp [hl] at hm
    · rintro ⟨c', ds, post, h, hl, hd, h15⟩
      simp only [List.cons_append, List.cons.injEq] at h
      obtain ⟨rfl, rfl⟩ := h
      have htw : 15 ≤ ((ds ++ post).takeWhile isDigit).length := by
        rw [List.takeWhile_append_of_pos hd, List.length_append]
        omega
      have h15' : 15 ≤ (((ds ++ post).takeWhile isDigit).take 30).length := by
        rw [List.length_take]
        omega
      simp only [hl, if_true, h15']
      exact ⟨_, rfl⟩

theorem matchHere_none_iff (s : List Char) : matchHere s = none ↔ ¬ StartsWithPattern s := by
  rw [← matchHere_some_iff]
  cases matchHere s <;> simp

theorem matchTUID_none_iff (line : List Char) : matchTUID line = none ↔ ¬ ContainsPattern line := by
  induction line with
  | nil =>
    simp only [matchTUID, ContainsPattern, true_iff]
    rintro ⟨pre, s, h, hs⟩
    have hs' : s = [] := by
      have := congrArg List.length h
      simp at this
      exact List.length_eq_zero.mp (by omega)
    subst hs'
    obtain ⟨c, ds, post, h', _⟩ := hs
    simp at h'
  | cons c rest ih =>
    simp only [matchTUID]
    cases hm : matchHere (c :: rest) with
    | some m =>
      simp only [false_iff, not_not, reduceCtorEq]
      exact ⟨[], c :: rest, rfl, (matchHere_some_iff _).mp ⟨m, hm⟩⟩
    | none =>
      simp only
      rw [ih]
      have hno := (matchHere_none_iff _).mp hm
      constructor
      · rintro h ⟨pre, s, hsplit, hs⟩
        cases pre with
        | nil =>
          simp only [List.nil_append] at hsplit
          exact hno (hsplit ▸ hs)
        | cons x pre' =>
          simp only [List.cons_append, List.cons.injEq] at hsplit
          exact h ⟨pre', s, hsplit.2, hs⟩
      · rintro h ⟨pre, s, hsplit, hs⟩
        exact h ⟨c :: pre, s, by simp [hsplit], hs⟩

theorem matchTUID_cons_none (c : Char) (rest : List Char) (h : matchHere (c :: rest) = none) :
    matchTUID (c :: rest) = matchTUID rest := by
  simp only [matchTUID, h]

theorem matchTUID_skip (pre s : List Char)
    (h : ∀ k, k < pre.length → ¬ StartsWithPattern ((pre ++ s).drop k)) :
    matchTUID (pre ++ s) = matchTUID s := by
  induction pre with
  | nil => rfl
  | cons x pre' ih =>
    have h0 : matchHere (x :: (pre' ++ s)) = none :=
      (matchHere_none_iff _).mpr (by simpa using h 0 (by simp))
    have hrest : ∀ k, k < pre'.length → ¬ StartsWithPattern ((pre' ++ s).drop k) := by
      intro k hk
      have := h (k + 1) (by simpa using hk)
      simpa using this
    show matchTUID (x :: (pre' ++ s)) = matchTUID s
    rw [matchTUID_cons_none x (pre' ++ s) h0]
    exact ih hrest

theorem matchHere_greedy (c : Char) (ds post : List Char) (hl : isLead c = true)
    (hd : ∀ d ∈ ds, isDigit d = true) (h15 : 15 ≤ ds.length) (h30 : ds.length ≤ 30)
    (hmax : ds.length = 30 ∨ ∀ x rest, post = x :: rest → isDigit x = false) :
    matchHere (c :: ds ++ post) = some (c :: ds) := by
  have htake : ((ds ++ post).takeWhile isDigit).take 30 = ds := by
    rw [List.takeWhile_append_of_pos hd]
    rcases hmax with hmax | hmax
    · rw [List.take_append_of_le_length (by omega), List.take_of_length_le (by omega)]
    · have hpost : post.takeWhile isDigit = [] := by
        cases post with
        | nil => rfl
        | cons x rest => simp [List.takeWhile_cons, hmax x rest rfl]
      rw [hpost, List.append_nil, List.take_of_length_le h30]
  simp only [List.cons_append, matchHere, hl, if_true, htake, h15]

theorem matchTUID_of_matchHere (s m : List Char) (h : matchHere s = some m) :
    matchTUID s = some m := by
  cases s with
  | nil => simp [matchHere] at h
  | cons c rest => simp [matchTUID, h]

theorem correctLead_cons (c : Char) (ds : List Char) :
    correctLead (c :: ds) = correctedLead c :: ds := by
  unfold correctLead correctedLead
  by_cases h4 : c = '4'
  · subst h4
    simp
  · by_cases hB : c = '8' ∨ c = '5' ∨ c = '6'
    · simp [h4, hB]
    · simp [h4, hB]

theorem mem_candidates (lines : List (List Char)) (l : List Char) :
    l ∈ candidates lines ↔ l ∈ lines ∧ IsCandidate l := by
  simp [candidates, IsCandidate]

theorem firstMatch_none_iff (cs : List (List Char)) :
    firstMatch cs = none ↔ ∀ l ∈ cs, matchTUID l = none := by
  induction cs with
  | nil => simp [firstMatch]
  | cons c rest ih =>
    simp only [firstMatch, List.mem_cons, forall_eq_or_imp]
    cases hm : matchTUID c with
    | none => simp [ih]
    | some m => simp

theorem firstMatch_skip (before : List (List Char)) (rest : List (List Char))
    (h : ∀ l ∈ before, matchTUID l = none) :
    firstMatch (before ++ rest) = firstMatch rest := by
  induction before with
  | nil => rfl
  | cons c cs ih =>
    have hc := h c (List.mem_cons_self _ _)
    simp only [List.cons_append, firstMatch, hc]
    exact ih (fun l hl => h l (List.mem_cons_of_mem _ hl))

theorem candidates_append (a b : List (List Char)) :
    candidates (a ++ b) = candidates a ++ candidates b := by
  simp [candidates]

theorem candidates_cons_of_candidate (line : List Char) (rest : List (List Char))
    (h : IsCandidate line) : candidates (line :: rest) = line :: candidates rest := by
  obtain ⟨h1, h2⟩ := h
  simp [candidates, List.filter_cons, h1, h2]

theorem extractTUID_first_match (text : List Char) (before : List (List Char))
    (line : List Char) (after : List (List Char)) (pre : List Char) (c : Char)
    (ds post : List Char)
    (hlines : splitLines (cleanText text) = before ++ line :: after)
    (hbefore : ∀ l ∈ before, ¬ (IsCandidate l ∧ ContainsPattern l))
    (hcand : IsCandidate line) (hmatch : LeftmostGreedyMatch line pre c ds post) :
    extractTUID text = some (correctedLead c :: ds) := by
  obtain ⟨hsplit, hl, hd, h15, h30, hmax, hleft⟩ := hmatch
  have htext : text ≠ [] := by
    intro h
    rw [h] at hlines
    simp only [cleanText, List.filter_nil, splitLines] at hlines
    cases before with
    | nil =>
      simp only [List.nil_append, List.cons.injEq] at hlines
      rw [← hlines.1] at hcand
      simp [IsCandidate] at hcand
    | cons b bs =>
      simp only [List.cons_append, List.cons.injEq] at hlines
      have := congrArg List.length hlines.2
      simp at this
      omega
  have hskip : ∀ l ∈ candidates before, matchTUID l = none := by
    intro l hlmem
    obtain ⟨h1, h2⟩ := (mem_candidates before l).mp hlmem
    exact (matchTUID_none_iff l).mpr (fun hc => hbefore l h1 ⟨h2, hc⟩)
  have hline : matchTUID line = some (c :: ds) := by
    have hsplit' : line = pre ++ (c :: ds ++ post) := by simpa using hsplit
    rw [hsplit']
    rw [matchTUID_skip pre (c :: ds ++ post) (by rw [← hsplit']; exact hleft)]
    exact matchTUID_of_matchHere _ _ (matchHere_greedy c ds post hl hd h15 h30 hmax)
  simp only [extractTUID, htext, if_false, hlines, candidates_append,
    candidates_cons_of_candidate line after hcand]
  rw [firstMatch_skip _ _ hskip]
  simp only [firstMatch, hline, correctLead_cons]

theorem isDigit_kept (d : Char) (h : isDigit d = true) : keptChar d = true := by
  unfold isDigit at h
  simp [keptChar, h]

theorem isDigit_ne_newline (d : Char) (h : isDigit d = true) : d ≠ '\n' := by
  intro e
  subst e
  revert h
  decide

theorem splitLines_single (l : List Char) (h : ∀ c ∈ l, c ≠ '\n') : splitLines l = [l] := by
  induction l with
  | nil => rfl
  | cons c cs ih =>
    have hc : c ≠ '\n' := h c (List.mem_cons_self _ _)
    have := ih (fun x hx => h x (List.mem_cons_of_mem _ hx))
    simp [splitLines, hc, this]

theorem extractTUID_single_line (c : Char) (ds : List Char) (hl : isLead c = true)
    (hk : keptChar c = true) (hn : c ≠ '\n') (hd : ∀ d ∈ ds, isDigit d = true)
    (h17 : 17 ≤ ds.length) (h30 : ds.length ≤ 30) :
    extractTUID (c :: ds) = some (correctedLead c :: ds) := by
  have hclean : cleanText (c :: ds) = c :: ds := by
    unfold cleanText
    rw [List.filter_eq_self]
    intro a ha
    rcases List.mem_cons.mp ha with rfl | ha
    · exact hk
    · exact isDigit_kept a (hd a ha)
  have hsplit : splitLines (c :: ds) = [c :: ds] := by
    apply splitLines_single
    intro a ha
    rcases List.mem_cons.mp ha with rfl | ha
    · exact hn
    · exact isDigit_ne_newline a (hd a ha)
  apply extractTUID_first_match (c :: ds) [] (c :: ds) [] [] c ds []
  · rw [hclean, hsplit]; rfl
  · intro l hlmem; simp at hlmem
  · constructor <;> simp <;> omega
  · refine ⟨by simp, hl, hd, by omega, h30, Or.inr ?_, ?_⟩
    · intro x rest h; simp at h
    · intro k hk; simp at hk

theorem dropWhile_head_not (p : Char → Bool) :
    ∀ (l : List Char) (y : Char) (r : List Char), l.dropWhile p = y :: r → p y = false := by
  intro l
  induction l with
  | nil => intro y r h; simp at h
  | cons a as ih =>
    intro y r h
    by_cases ha : p a = true
    · rw [List.dropWhile_cons_of_pos ha] at h
      exact ih y r h
    · rw [List.dropWhile_cons_of_neg ha] at h
      simp only [List.cons.injEq] at h
      rw [← h.1]
      simpa using ha

theorem matchHere_some_decomp (x : Char) (rest m : List Char)
    (h : matchHere (x :: rest) = some m) :
    ∃ ds post, m = x :: ds ∧ LeftmostGreedyMatch (x :: rest) [] x ds post := by
  simp only [matchHere] at h
  by_cases hl : isLead x = true
  · simp only [hl, if_true] at h
    by_cases h15 : 15 ≤ ((rest.takeWhile isDigit).take 30).length
    · rw [if_pos h15] at h
      simp only [Option.some.injEq] at h
      refine ⟨(rest.takeWhile isDigit).take 30,
        (rest.takeWhile isDigit).drop 30 ++ rest.dropWhile isDigit, h.symm, ?_, hl, ?_, h15, ?_,
        ?_, ?_⟩
      · simp only [List.nil_append, List.cons_append, List.cons.injEq, true_and]
        rw [← List.append_assoc, List.take_append_drop, List.takeWhile_append_dropWhile]
      · intro d hd
        exact List.mem_takeWhile_imp (List.mem_of_mem_take hd)
      · rw [List.length_take]; omega
      · by_cases h30 : 30 ≤ (rest.takeWhile isDigit).length
        · left
          rw [List.length_take]; omega
        · right
          intro y r hy
          rw [List.drop_of_length_le (by omega), List.nil_append] at hy
          exact dropWhile_head_not isDigit rest y r hy
      · intro k hk; simp at hk
    · rw [if_neg h15] at h
      exact absurd h (by simp)
  · simp [hl] at h

theorem matchTUID_some_decomp :
    ∀ (line m : List Char), matchTUID line = some m →
      ∃ pre c ds post, m = c :: ds ∧ LeftmostGreedyMatch line pre c ds post := by
  intro line
  induction line with
  | nil => intro m h; simp [matchTUID] at h
  | cons x rest ih =>
    intro m h
    cases hm : matchHere (x :: rest) with
    | some m' =>
      rw [matchTUID_of_matchHere _ _ hm] at h
      simp only [Option.some.injEq] at h
      obtain ⟨ds, post, h1, h2⟩ := matchHere_some_decomp x rest m' hm
      exact ⟨[], x, ds, post, h ▸ h1, h2⟩
    | none =>
      rw [matchTUID_cons_none x rest hm] at h
      obtain ⟨pre, c, ds, post, h1, hsplit, hl, hd, h15, h30, hmax, hleft⟩ := ih m h
      refine ⟨x :: pre, c, ds, post, h1, by simp [hsplit], hl, hd, h15, h30, hmax, ?_⟩
      intro k hk
      cases k with
      | zero => simpa using (matchHere_none_iff _).mp hm
      | succ j =>
        have := hleft j (by simpa using hk)
        simpa using this

theorem exists_first_line (P : List Char → Prop) :
    ∀ ls : List (List Char), (∃ l ∈ ls, P l) →
      ∃ before l after, ls = before ++ l :: after ∧ P l ∧ ∀ x ∈ before, ¬ P x := by
  intro ls
  induction ls with
  | nil => rintro ⟨l, hl, _⟩; simp at hl
  | cons a rest ih =>
    rintro ⟨l, hl, hp⟩
    by_cases ha : P a
    · exact ⟨[], a, rest, rfl, ha, by simp⟩
    · rcases List.mem_cons.mp hl with rfl | hl
      · exact absurd hp ha
      · obtain ⟨before, l', after, h1, h2, h3⟩ := ih ⟨l, hl, hp⟩
        refine ⟨a :: before, l', after, by simp [h1], h2, ?_⟩
        intro x hx
        rcases List.mem_cons.mp hx with rfl | hx
        · exact ha
        · exact h3 x hx

theorem extractTUID_some_of_candidate (text : List Char)
    (h : ∃ l ∈ splitLines (cleanText text), IsCandidate l ∧ ContainsPattern l) :
    ∃ before line after pre c ds post,
      splitLines (cleanText text) = before ++ line :: after ∧
      (∀ l ∈ before, ¬ (IsCandidate l ∧ ContainsPattern l)) ∧
      IsCandidate line ∧ LeftmostGreedyMatch line pre c ds post ∧
      extractTUID text = some (correctedLead c :: ds) := by
  obtain ⟨before, line, after, hsplit, ⟨hc, hp⟩, hbefore⟩ :=
    exists_first_line (fun l => IsCandidate l ∧ ContainsPattern l) _ h
  have hsome : matchTUID line ≠ none := fun e => (matchTUID_none_iff line).mp e hp
  obtain ⟨m, hm⟩ := Option.ne_none_iff_exists'.mp hsome
  obtain ⟨pre, c, ds, post, _, hmatch⟩ := matchTUID_some_decomp line m hm
  exact ⟨before, line, after, pre, c, ds, post, hsplit, hbefore, hc, hmatch,
    extractTUID_first_match text before line after pre c ds post hsplit hbefore hc hmatch⟩

/-- C9: for every text whose cleaned lines contain a candidate (length within
[18, 31]) with an occurrence of the pattern, there is an earliest such
candidate and a leftmost greedy match in it, and `extractTUID` returns the
leftmost greedy match of the earliest such candidate with its leading character
corrected ('4' to 'A'; '8', '5', '6' to 'B'; 'A' and 'B' unchanged) and its
digits unchanged; in particular a text that is '4' followed by `d` digits,
`17 ≤ d ≤ 30`, yields 'A' followed by those digits, and led by '8' it yields 'B'
followed by them. -/
theorem extractTUID_returns_corrected_first_match :
    (∀ text : List Char,
      (∃ l ∈ splitLines (cleanText text), IsCandidate l ∧ ContainsPattern l) →
      ∃ before line after pre c ds post,
        splitLines (cleanText text) = before ++ line :: after ∧
        (∀ l ∈ before, ¬ (IsCandidate l ∧ ContainsPattern l)) ∧
        IsCandidate line ∧ LeftmostGreedyMatch line pre c ds post ∧
        extractTUID text = some (correctedLead c :: ds)) ∧
    (∀ (text : List Char) (before : List (List Char)) (line : List Char)
        (after : List (List Char)) (pre : List Char) (c : Char) (ds post : List Char),
      splitLines (cleanText text) = before ++ line :: after →
      (∀ l ∈ before, ¬ (IsCandidate l ∧ ContainsPattern l)) →
      IsCandidate line → LeftmostGreedyMatch line pre c ds post →
      extractTUID text = some (correctedLead c :: ds)) ∧
    correctedLead '4' = 'A' ∧ correctedLead '8' = 'B' ∧ correctedLead '5' = 'B' ∧
    correctedLead '6' = 'B' ∧ correctedLead 'A' = 'A' ∧ correctedLead 'B' = 'B' ∧
    (∀ ds : List Char, (∀ d ∈ ds, isDigit d = true) → 17 ≤ ds.length → ds.length ≤ 30 →
      extractTUID ('4' :: ds) = some ('A' :: ds) ∧
      extractTUID ('8' :: ds) = some ('B' :: ds)) := by
  refine ⟨extractTUID_some_of_candidate, extractTUID_first_match, by decide, by decide,
    by decide, by decide, by decide, by decide, ?_⟩
  intro ds hd h17 h30
  exact ⟨extractTUID_single_line '4' ds (by decide) (by decide) (by decide) hd h17 h30,
    extractTUID_single_line '8' ds (by decide) (by decide) (by decide) hd h17 h30⟩

/-- C9 at the texts of the specification: a leading '4' and a leading '8'
followed by 18 digits. -/
theorem extractTUID_returns_corrected_first_match_witness :
    extractTUID ('4' :: "123456789012345678".toList) =
      some ('A' :: "123456789012345678".toList) ∧
    extractTUID ('8' :: "987654321098765432".toList) =
      some ('B' :: "987654321098765432".toList) :=
  ⟨(extractTUID_returns_corrected_first_match.2.2.2.2.2.2.2.2 "123456789012345678".toList
      (by decide) (by decide) (by decide)).1,
    (extractTUID_returns_corrected_first_match.2.2.2.2.2.2.2.2 "987654321098765432".toList
      (by decide) (by decide) (by decide)).2⟩

theorem splitLines_parts (t : List Char) :
    ∀ h ls, splitLines t = h :: ls → h <+: t ∧ ∀ l ∈ ls, l <:+: t := by
  induction t with
  | nil =>
    intro h ls e
    simp only [splitLines, List.cons.injEq] at e
    obtain ⟨rfl, rfl⟩ := e
    exact ⟨List.prefix_refl _, by simp⟩
  | cons c cs ih =>
    intro h ls e
    by_cases hc : c = '\n'
    · simp only [splitLines, hc, if_true, List.cons.injEq] at e
      obtain ⟨rfl, rfl⟩ := e
      refine ⟨List.nil_prefix, ?_⟩
      intro l hl
      cases hs : splitLines cs with
      | nil => rw [hs] at hl; simp at hl
      | cons h' ls' =>
        obtain ⟨h1, h2⟩ := ih h' ls' hs
        rw [hs] at hl
        rcases List.mem_cons.mp hl with rfl | hl
        · exact (List.infix_cons h1.isInfix)
        · exact (List.infix_cons (h2 l hl))
    · simp only [splitLines, hc, if_false] at e
      cases hs : splitLines cs with
      | nil =>
        simp only [hs, List.cons.injEq] at e
        obtain ⟨rfl, rfl⟩ := e
        exact ⟨by simp [List.prefix_cons_inj], by simp⟩
      | cons h' ls' =>
        simp only [hs, List.cons.injEq] at e
        obtain ⟨rfl, rfl⟩ := e
        obtain ⟨h1, h2⟩ := ih h' ls' hs
        exact ⟨(List.prefix_cons_inj c).mpr h1, fun l hl => List.infix_cons (h2 l hl)⟩

theorem mem_splitLines_sub (t l : List Char) (h : l ∈ splitLines t) : l <:+: t := by
  cases hs : splitLines t with
  | nil => rw [hs] at h; simp at h
  | cons h' ls' =>
    obtain ⟨h1, h2⟩ := splitLines_parts t h' ls' hs
    rw [hs] at h
    rcases List.mem_cons.mp h with rfl | h
    · exact h1.isInfix
    · exact h2 l h

theorem extractTUID_eq_none_iff (text : List Char) :
    extractTUID text = none ↔
      ¬ ∃ l ∈ splitLines (cleanText text), IsCandidate l ∧ ContainsPattern l := by
  unfold extractTUID
  by_cases ht : text = []
  · subst ht
    simp [cleanText, splitLines, IsCandidate]
  · simp only [ht, if_false, firstMatch_none_iff, mem_candidates, matchTUID_none_iff]
    constructor
    · rintro h ⟨l, hl, hc, hp⟩
      exact h l ⟨hl, hc⟩ hp
    · intro h l hl hp
      exact h ⟨l, hl.1, hl.2, hp⟩

/-- C10: `extractTUID` returns `none` exactly when no line of the text, after
every character other than letters, digits and newlines is removed, both has a
length within [18, 31] and contains a character of {A, B, 4, 5, 6, 8} followed
by at least 15 digits; in particular it returns `none` when no stretch of 18 to
31 characters of the cleaned text contains the pattern, and for the empty
text. -/
theorem extractTUID_none_iff_no_candidate :
    (∀ text : List Char, extractTUID text = none ↔
      ¬ ∃ l ∈ splitLines (cleanText text), IsCandidate l ∧ ContainsPattern l) ∧
    (∀ text : List Char,
      (∀ s, s <:+: cleanText text → IsCandidate s → ¬ ContainsPattern s) →
      extractTUID text = none) ∧
    extractTUID [] = none := by
  refine ⟨extractTUID_eq_none_iff, ?_, rfl⟩
  intro text h
  rw [extractTUID_eq_none_iff]
  rintro ⟨l, hl, hc, hp⟩
  exact h l (mem_splitLines_sub _ l hl) hc hp

/-- C10 at a concrete text: a stretch of 16 characters holds no candidate. -/
theorem extractTUID_none_iff_no_candidate_witness :
    extractTUID "A123456789012345".toList = none :=
  extractTUID_none_iff_no_candidate.2.1 "A123456789012345".toList
    (fun s hs hc => by
      have h1 := hs.length_le
      have h2 : (cleanText "A123456789012345".toList).length = 16 := by decide
      have h3 := hc.1
      omega)

/-! ## The form of the extracted identifier -/

theorem firstMatch_some (cs : List (List Char)) (t : List Char) (h : firstMatch cs = some t) :
    ∃ l ∈ cs, ∃ m, matchTUID l = some m ∧ t = correctLead m := by
  induction cs with
  | nil => simp [firstMatch] at h
  | cons c rest ih =>
    simp only [firstMatch] at h
    cases hm : matchTUID c with
    | some m =>
      simp only [hm, Option.some.injEq] at h
      exact ⟨c, List.mem_cons_self _ _, m, hm, h.symm⟩
    | none =>
      simp only [hm] at h
      obtain ⟨l, hl, m, h1, h2⟩ := ih h
      exact ⟨l, List.mem_cons_of_mem _ hl, m, h1, h2⟩

theorem extractTUID_some_form (text t : List Char) (h : extractTUID text = some t) :
    ∃ line pre c ds post, line ∈ splitLines (cleanText text) ∧ IsCandidate line ∧
      LeftmostGreedyMatch line pre c ds post ∧ t = correctedLead c :: ds := by
  unfold extractTUID at h
  by_cases ht : text = []
  · simp [ht] at h
  · simp only [ht, if_false] at h
    obtain ⟨l, hl, m, hm, hform⟩ := firstMatch_some _ t h
    obtain ⟨hmem, hcand⟩ := (mem_candidates _ l).mp hl
    obtain ⟨pre, c, ds, post, hmc, hmatch⟩ := matchTUID_some_decomp l m hm
    exact ⟨l, pre, c, ds, post, hmem, hcand, hmatch, by rw [hform, hmc, correctLead_cons]⟩

theorem correctedLead_of_isLead (c : Char) (h : isLead c = true) :
    correctedLead c = 'A' ∨ correctedLead c = 'B' := by
  simp only [isLead, Bool.or_eq_true, beq_iff_eq] at h
  rcases h with ((((h | h) | h) | h) | h) | h <;> subst h <;> decide

/-- C11 (amended): every identifier returned by `extractTUID` is a string of 16
to 31 characters, one leading character and 15 to 30 digits, cut from a line
of 18 to 31 characters. -/
theorem extractTUID_length (text t : List Char) (h : extractTUID text = some t) :
    16 ≤ t.length ∧ t.length ≤ 31 ∧
    ∃ line ∈ splitLines (cleanText text),
      18 ≤ line.length ∧ line.length ≤ 31 ∧ t.length ≤ line.length := by
  obtain ⟨line, pre, c, ds, post, hmem, hcand, hmatch, hform⟩ := extractTUID_some_form text t h
  obtain ⟨hsplit, _, _, h15, h30, _, _⟩ := hmatch
  have hlen : t.length = ds.length + 1 := by rw [hform]; simp
  have hline : line.length = pre.length + (ds.length + 1) + post.length := by
    rw [hsplit]; simp; omega
  refine ⟨by omega, by omega, line, hmem, hcand.1, hcand.2, by omega⟩

/-- C11 (amended) at a concrete text: a line of 19 characters gives an
identifier of 19 characters. -/
theorem extractTUID_length_witness :
    16 ≤ "B987654321098765432".toList.length ∧ "B987654321098765432".toList.length ≤ 31 ∧
    ∃ line ∈ splitLines (cleanText "8987654321098765432".toList),
      18 ≤ line.length ∧ line.length ≤ 31 ∧ "B987654321098765432".toList.length ≤ line.length :=
  extractTUID_length "8987654321098765432".toList "B987654321098765432".toList (by decide)

/-- C11 as stated fails: from a line of 18 characters, a leading 'A', 15 digits
and two letters, `extractTUID` returns an identifier of 16 characters. -/
theorem extractTUID_returns_sixteen_characters :
    extractTUID "A123456789012345xy".toList = some "A123456789012345".toList ∧
    "A123456789012345".toList.length = 16 := by
  decide

/-- C12: every identifier returned by `extractTUID` is in canonical form: its
first character is 'A' or 'B' and the remaining characters are decimal digits,
between 15 and 30 of them. -/
theorem extractTUID_canonical (text t : List Char) (h : extractTUID text = some t) :
    ∃ c ds, t = c :: ds ∧ (c = 'A' ∨ c = 'B') ∧ (∀ d ∈ ds, isDigit d = true) ∧
      15 ≤ ds.length ∧ ds.length ≤ 30 := by
  obtain ⟨line, pre, c, ds, post, _, _, hmatch, hform⟩ := extractTUID_some_form text t h
  obtain ⟨_, hl, hd, h15, h30, _, _⟩ := hmatch
  exact ⟨correctedLead c, ds, hform, correctedLead_of_isLead c hl, hd, h15, h30⟩

/-- C12 at a concrete text: a leading '6' is returned as 'B'. -/
theorem extractTUID_canonical_witness :
    ∃ c ds, "B12345678901234567".toList = c :: ds ∧ (c = 'A' ∨ c = 'B') ∧
      (∀ d ∈ ds, isDigit d = true) ∧ 15 ≤ ds.length ∧ ds.length ≤ 30 :=
  extractTUID_canonical "x\n612345678901234567\n".toList "B12345678901234567".toList (by decide)

/-! ## The `/ocr` pipeline: escalation to the cloud engine -/

theorem count_cloud_events (events : List CloudEvent) :
    (events.map OcrEvent.cloud).count .cloudOCR = 0 := by
  induction events with
  | nil => rfl
  | cons e rest ih => simp [List.count_cons, ih]

theorem cloudOCR_not_mem_cloud_events (events : List CloudEvent) :
    OcrEvent.cloudOCR ∉ events.map OcrEvent.cloud := by
  simp

theorem ocrHandler_cloud_step (sid : String) (env : OcrEnv) (imagePath : String)
    (storage : Storage) (text t : List Char) (cr : CountResult) (hpath : imagePath ≠ "")
    (hlocal : (extractTextFromImageFast env.localEngine imagePath storage).1 = .ok text)
    (hcand : extractTUID text = some t) (hfail : env.compareTUID 0 t = false)
    (hcount : env.countOCR = some cr) (hok : cr.ok = true) (hdef : cr.count ≠ .undefined)
    (hgate : cr.count.gt env.maxCount = false) :
    cloudCalls (ocrHandler (some sid) env imagePath storage).2.1 = 1 := by
  have hcheck : ¬ (cr.ok = false ∨ cr.count = .undefined) := by
    rintro (h | h)
    · rw [hok] at h; exact absurd h (by decide)
    · exact hdef h
  simp only [ocrHandler, hpath, if_false, hlocal, hcand, hfail, hcount, hcheck, hgate,
    Bool.false_eq_true, cloudCalls]
  cases hres : (detectTextWithGoogleVision env.cloud
      ((extractTextFromImageFast env.localEngine imagePath storage).2 (.image imagePath))).1 with
  | error reason =>
    simp [List.count_cons, count_cloud_events]
  | ok payload =>
    by_cases hv : env.compareTUID 1 payload = true
    · simp [hv, List.count_cons, count_cloud_events]
    · simp [hv, List.count_cons, count_cloud_events]

/-- C13, the code on every input of the claim: when the local engine succeeds,
a candidate is extracted, its verification fails and the usage count is below
the ceiling, the handler of `verify.js` does not invoke the cloud engine and
answers with the failure of its `catch`, because the argument `SID` of line
283 is bound to nothing; bound to any value, the same request invokes the
cloud engine exactly once. -/
theorem cloud_engine_not_reached (env : OcrEnv) (imagePath : String) (storage : Storage)
    (text t : List Char) (c : Int) (hpath : imagePath ≠ "")
    (hlocal : (extractTextFromImageFast env.localEngine imagePath storage).1 = .ok text)
    (hcand : extractTUID text = some t) (hfail : env.compareTUID 0 t = false)
    (hcount : env.countOCR = some { ok := true, count := .num c }) (hbelow : c < env.maxCount) :
    cloudCalls (postOcr env imagePath storage).2.1 = 0 ∧
    (postOcr env imagePath storage).1 = .failure .generic ∧
    ∀ sid, cloudCalls (ocrHandler (some sid) env imagePath storage).2.1 = 1 := by
  have hgate : (CountValue.num c).gt env.maxCount = false := by
    simp only [CountValue.gt, decide_eq_false_iff_not]
    omega
  refine ⟨?_, ?_, fun sid => ocrHandler_cloud_step sid env imagePath storage text t _ hpath
    hlocal hcand hfail hcount rfl (by simp) hgate⟩
  · simp [postOcr, ocrHandler, hpath, hlocal, hcand, hfail, hcount, hgate, cloudCalls]
  · simp [postOcr, ocrHandler, hpath, hlocal, hcand, hfail, hcount, hgate]

/-- C13 at a concrete request: a usage count of 5 against a ceiling of 1000. -/
theorem cloud_engine_not_reached_witness :
    cloudCalls (postOcr (exampleEnv (some { ok := true, count := .num 5 }))
      "uploads/receipt_1002.png" exampleStorage).2.1 = 0 ∧
    (postOcr (exampleEnv (some { ok := true, count := .num 5 }))
      "uploads/receipt_1002.png" exampleStorage).1 = .failure .generic ∧
    ∀ sid, cloudCalls (ocrHandler (some sid) (exampleEnv (some { ok := true, count := .num 5 }))
      "uploads/receipt_1002.png" exampleStorage).2.1 = 1 :=
  cloud_engine_not_reached (exampleEnv (some { ok := true, count := .num 5 }))
    "uploads/receipt_1002.png" exampleStorage "4123456789012345678".toList
    "A123456789012345678".toList 5 (by decide) (by decide) (by decide) (by decide) rfl
    (by decide)

/-- C14 (amended): whenever the quota check of a request reports a usage count
above the ceiling `OCR.maxCount`, the request fails with the quota-exceeded
reason and the cloud engine is not called, whatever `SID` is bound to. -/
theorem quota_exceeded_above_ceiling (scopeSID : Option String) (env : OcrEnv)
    (imagePath : String) (storage : Storage) (text t : List Char) (c : Int)
    (hpath : imagePath ≠ "")
    (hlocal : (extractTextFromImageFast env.localEngine imagePath storage).1 = .ok text)
    (hcand : extractTUID text = some t) (hfail : env.compareTUID 0 t = false)
    (hcount : env.countOCR = some { ok := true, count := .num c }) (habove : c > env.maxCount) :
    (ocrHandler scopeSID env imagePath storage).1 = .failure .quotaExceeded ∧
    cloudCalls (ocrHandler scopeSID env imagePath storage).2.1 = 0 := by
  have hgate : (CountValue.num c).gt env.maxCount = true := by
    simp only [CountValue.gt, decide_eq_true_eq]
    omega
  constructor
  · simp [ocrHandler, hpath, hlocal, hcand, hfail, hcount, hgate]
  · simp [ocrHandler, hpath, hlocal, hcand, hfail, hcount, hgate, cloudCalls]

/-- C14 (amended) at a concrete request: a usage count of 1001 against a
ceiling of 1000. -/
theorem quota_exceeded_above_ceiling_witness :
    (ocrHandler none (exampleEnv (some { ok := true, count := .num 1001 }))
      "uploads/receipt_1002.png" exampleStorage).1 = .failure .quotaExceeded ∧
    cloudCalls (ocrHandler none (exampleEnv (some { ok := true, count := .num 1001 }))
      "uploads/receipt_1002.png" exampleStorage).2.1 = 0 :=
  quota_exceeded_above_ceiling none (exampleEnv (some { ok := true, count := .num 1001 }))
    "uploads/receipt_1002.png" exampleStorage "4123456789012345678".toList
    "A123456789012345678".toList 1001 (by decide) (by decide) (by decide) (by decide) rfl
    (by decide)

/-- C14 as stated fails: with a usage count equal to the ceiling (1000 against
1000) the request passes the quota test of line 269; it does not fail with the
quota-exceeded reason, and with `SID` bound the cloud engine is called. -/
theorem quota_gate_open_at_ceiling :
    (postOcr (exampleEnv (some { ok := true, count := .num 1000 }))
      "uploads/receipt_1002.png" exampleStorage).1 = .failure .generic ∧
    (postOcr (exampleEnv (some { ok := true, count := .num 1000 }))
      "uploads/receipt_1002.png" exampleStorage).1 ≠ .failure .quotaExceeded ∧
    cloudCalls (ocrHandler (some "sid-1") (exampleEnv (some { ok := true, count := .num 1000 }))
      "uploads/receipt_1002.png" exampleStorage).2.1 = 1 := by
  decide

/-- C15: in a request to `/ocr`, whatever `SID` is bound to, the quota check
and the cloud engine (its invocation and the calls it makes) occur only when
the local engine succeeded, an identifier was extracted from its text and the
verification of that identifier failed; when the local engine fails, or no
identifier is extracted, or the identifier is verified, the request makes no
quota check and no cloud call. -/
theorem cloud_only_after_failed_verification (scopeSID : Option String) (env : OcrEnv)
    (imagePath : String) (storage : Storage) :
    ((.quotaCheck ∈ (ocrHandler scopeSID env imagePath storage).2.1 ∨
        .cloudOCR ∈ (ocrHandler scopeSID env imagePath storage).2.1 ∨
        ∃ e, .cloud e ∈ (ocrHandler scopeSID env imagePath storage).2.1) →
      ∃ text t, (extractTextFromImageFast env.localEngine imagePath storage).1 = .ok text ∧
        extractTUID text = some t ∧ env.compareTUID 0 t = false) ∧
    (((∃ e, (extractTextFromImageFast env.localEngine imagePath storage).1 = .error e) ∨
        ∃ text, (extractTextFromImageFast env.localEngine imagePath storage).1 = .ok text ∧
          (extractTUID text = none ∨
            ∃ t, extractTUID text = some t ∧ env.compareTUID 0 t = true)) →
      .quotaCheck ∉ (ocrHandler scopeSID env imagePath storage).2.1 ∧
      .cloudOCR ∉ (ocrHandler scopeSID env imagePath storage).2.1 ∧
      ∀ e, .cloud e ∉ (ocrHandler scopeSID env imagePath storage).2.1) := by
  by_cases hp : imagePath = ""
  · have hev : (ocrHandler scopeSID env imagePath storage).2.1 = [] := by
      simp [ocrHandler, hp]
    rw [hev]
    simp
  · cases hl : (extractTextFromImageFast env.localEngine imagePath storage).1 with
    | error e =>
      have hev : (ocrHandler scopeSID env imagePath storage).2.1 = [.localOCR] := by
        simp [ocrHandler, hp, hl]
      rw [hev]
      simp
    | ok text =>
      cases hc : extractTUID text with
      | none =>
        have hev : (ocrHandler scopeSID env imagePath storage).2.1 = [.localOCR] := by
          simp [ocrHandler, hp, hl, hc]
        rw [hev]
        simp
      | some t =>
        by_cases hv : env.compareTUID 0 t = true
        · have hev : (ocrHandler scopeSID env imagePath storage).2.1 =
              [.localOCR, .compareTUID t] := by
            simp [ocrHandler, hp, hl, hc, hv]
          rw [hev]
          simp
        · have hv' : env.compareTUID 0 t = false := by simpa using hv
          refine ⟨fun _ => ⟨text, t, rfl, hc, hv'⟩, ?_⟩
          rintro (⟨e, he⟩ | ⟨text', he, hcase⟩)
          · exact absurd he (by simp)
          · simp only [Except.ok.injEq] at he
            subst he
            rcases hcase with hnone | ⟨t', ht', hver⟩
            · rw [hc] at hnone; exact absurd hnone (by simp)
            · rw [hc] at ht'
              simp only [Option.some.injEq] at ht'
              subst ht'
              exact absurd hver hv

/-- C15 at concrete requests: one whose identifier is verified by the first
check makes no quota check and no cloud call. -/
theorem cloud_only_after_failed_verification_witness :
    .quotaCheck ∉ (ocrHandler (some "sid-1")
        { exampleEnv (some { ok := true, count := .num 5 }) with compareTUID := fun _ _ => true }
        "uploads/receipt_1002.png" exampleStorage).2.1 ∧
    .cloudOCR ∉ (ocrHandler (some "sid-1")
        { exampleEnv (some { ok := true, count := .num 5 }) with compareTUID := fun _ _ => true }
        "uploads/receipt_1002.png" exampleStorage).2.1 ∧
    ∀ e, .cloud e ∉ (ocrHandler (some "sid-1")
        { exampleEnv (some { ok := true, count := .num 5 }) with compareTUID := fun _ _ => true }
        "uploads/receipt_1002.png" exampleStorage).2.1 :=
  (cloud_only_after_failed_verification (some "sid-1")
    { exampleEnv (some { ok := true, count := .num 5 }) with compareTUID := fun _ _ => true }
    "uploads/receipt_1002.png" exampleStorage).2
    (Or.inr ⟨"4123456789012345678".toList, by decide,
      Or.inr ⟨"A123456789012345678".toList, by decide, rfl⟩⟩)

/-! ## The `/ocr` pipeline: failure of the quota check -/

/-- C16 (amended): when the quota check of a request returns a result that is
not ok or has no count, the request fails with the quota-check-failure reason
and the cloud engine is not called; when `count_OCR_api` throws, as it does
when its collaborator is unavailable, the request fails with the failure of
the handler's `catch` and the cloud engine is not called. -/
theorem quota_check_failure (scopeSID : Option String) (env : OcrEnv) (imagePath : String)
    (storage : Storage) (text t : List Char) (hpath : imagePath ≠ "")
    (hlocal : (extractTextFromImageFast env.localEngine imagePath storage).1 = .ok text)
    (hcand : extractTUID text = some t) (hfail : env.compareTUID 0 t = false) :
    (∀ cr, env.countOCR = some cr → cr.ok = false ∨ cr.count = .undefined →
      (ocrHandler scopeSID env imagePath storage).1 = .failure .quotaCheckFailed ∧
      cloudCalls (ocrHandler scopeSID env imagePath storage).2.1 = 0) ∧
    (env.countOCR = none →
      (ocrHandler scopeSID env imagePath storage).1 = .failure .generic ∧
      cloudCalls (ocrHandler scopeSID env imagePath storage).2.1 = 0) ∧
    count_OCR_api .unavailable = none ∧
    count_OCR_api .invalid = some { ok := false, count := .null } := by
  refine ⟨?_, ?_, rfl, rfl⟩
  · intro cr hcount hbad
    constructor
    · simp [ocrHandler, hpath, hlocal, hcand, hfail, hcount, hbad]
    · simp [ocrHandler, hpath, hlocal, hcand, hfail, hcount, hbad, cloudCalls]
  · intro hcount
    constructor
    · simp [ocrHandler, hpath, hlocal, hcand, hfail, hcount]
    · simp [ocrHandler, hpath, hlocal, hcand, hfail, hcount, cloudCalls]

/-- C16 (amended) at a concrete request: the count query is answered with a
validity other than 'true'. -/
theorem quota_check_failure_witness :
    (ocrHandler none (exampleEnv (count_OCR_api .invalid)) "uploads/receipt_1002.png"
      exampleStorage).1 = .failure .quotaCheckFailed ∧
    cloudCalls (ocrHandler none (exampleEnv (count_OCR_api .invalid))
      "uploads/receipt_1002.png" exampleStorage).2.1 = 0 :=
  (quota_check_failure none (exampleEnv (count_OCR_api .invalid)) "uploads/receipt_1002.png"
    exampleStorage "4123456789012345678".toList "A123456789012345678".toList (by decide)
    (by decide) (by decide) (by decide)).1 { ok := false, count := .null } rfl (Or.inl rfl)

/-- C16 as stated fails: when the collaborator of the quota check is
unavailable, `count_OCR_api` throws and the request fails with the failure of
the handler's `catch`, not with the quota-check-failure reason. -/
theorem quota_check_unavailable_is_generic :
    count_OCR_api .unavailable = none ∧
    (postOcr (exampleEnv (count_OCR_api .unavailable)) "uploads/receipt_1002.png"
      exampleStorage).1 = .failure .generic ∧
    (postOcr (exampleEnv (count_OCR_api .unavailable)) "uploads/receipt_1002.png"
      exampleStorage).1 ≠ .failure .quotaCheckFailed := by
  decide

/-! ## The `/ocr` pipeline: cleanup -/

/-- C17, the code at the failing input: when `count_OCR_api` throws, the
request ends in the handler's `catch`, which does not call `cleanupFile`: the
reassembled image is still on storage (its preprocessing derivative is gone).
The same happens, with the handler as `verify.js` has it, to a request that
passes the quota test, while a request that fails the quota test has its
image removed. -/
theorem artifact_left_after_thrown_error :
    (postOcr (exampleEnv (count_OCR_api .unavailable)) "uploads/receipt_1002.png"
      exampleStorage).1 = .failure .generic ∧
    (postOcr (exampleEnv (count_OCR_api .unavailable)) "uploads/receipt_1002.png"
      exampleStorage).2.2 (.image "uploads/receipt_1002.png") = true ∧
    (postOcr (exampleEnv (count_OCR_api .unavailable)) "uploads/receipt_1002.png"
      exampleStorage).2.2 (.fast (.image "uploads/receipt_1002.png")) = false ∧
    (postOcr (exampleEnv (some { ok := true, count := .num 5 })) "uploads/receipt_1002.png"
      exampleStorage).2.2 (.image "uploads/receipt_1002.png") = true ∧
    (postOcr (exampleEnv (some { ok := true, count := .num 1001 })) "uploads/receipt_1002.png"
      exampleStorage).2.2 (.image "uploads/receipt_1002.png") = false := by
  decide

/-! ## Orientation correction and preprocessing -/

/-- A failure inside orientation detection or inside preprocessing does not
make `extractTextFromImageFast` return failure: `simpleRotationCheck` yields
false when reading the metadata throws, and when the analysis of the text
direction yields false for an image whose metadata flag no rotation;
`fastPreprocess` returns the path it was given when a step fails; and in a run
where reading the metadata throws, or where no rotation is detected and
preprocessing fails, the result is that of the recognition, which in the
second case runs on the image itself and leaves the storage as it was. -/
theorem orientation_and_preprocessing_degrade (env : LocalEnv) (imagePath : String)
    (storage : Storage) :
    (∀ textOrientation, simpleRotationCheck none textOrientation = false) ∧
    (∀ m : Metadata, (m.orientation = none ∨ m.orientation = some 0 ∨ m.orientation = some 1) →
      simpleRotationCheck (some m) false = false) ∧
    (∀ inputPath files, fastPreprocess false inputPath files = (inputPath, files)) ∧
    (env.metadata = none →
      (extractTextFromImageFast env imagePath storage).1 =
        match env.recognize (fastPreprocess env.preprocess (.image imagePath) storage).1 with
        | some text => .ok text
        | none => .error .thrown) ∧
    (simpleRotationCheck env.metadata env.textOrientation = false → env.preprocess = false →
      extractTextFromImageFast env imagePath storage =
        match env.recognize (.image imagePath) with
        | some text => (.ok text, storage)
        | none => (.error .thrown, storage)) := by
  refine ⟨fun _ => rfl, ?_, fun _ _ => rfl, ?_, ?_⟩
  · intro m hm
    have hflag : ¬ (m.orientation ≠ none ∧ m.orientation ≠ some 0 ∧ m.orientation ≠ some 1) := by
      rintro ⟨h1, h2, h3⟩
      rcases hm with h | h | h
      · exact h1 h
      · exact h2 h
      · exact h3 h
    simp only [simpleRotationCheck, hflag, if_false]
    cases m.width <;> cases m.height <;> simp
  · intro hmeta
    simp only [extractTextFromImageFast, hmeta, simpleRotationCheck, Bool.false_eq_true,
      if_false, recognizeStage, Option.getD_none]
    cases env.recognize (fastPreprocess env.preprocess (.image imagePath) storage).1 <;> rfl
  · intro hrot hpre
    simp only [extractTextFromImageFast, hrot, Bool.false_eq_true, if_false, recognizeStage,
      Option.getD_none, hpre, fastPreprocess, removeDerivatives, ne_eq, not_true_eq_false,
      false_and]

/-- A concrete run in which reading the metadata throws and preprocessing
fails: the text recognized on the image itself is returned. -/
theorem orientation_and_preprocessing_degrade_witness :
    extractTextFromImageFast
        { (exampleEnv none).localEngine with metadata := none, preprocess := false }
        "uploads/receipt_1002.png" exampleStorage =
      match ({ (exampleEnv none).localEngine with
          metadata := none, preprocess := false } : LocalEnv).recognize
          (.image "uploads/receipt_1002.png") with
      | some text => (.ok text, exampleStorage)
      | none => (.error .thrown, exampleStorage) :=
  (orientation_and_preprocessing_degrade
    { (exampleEnv none).localEngine with metadata := none, preprocess := false }
    "uploads/receipt_1002.png" exampleStorage).2.2.2.2 rfl rfl

/-- C18, the code at the failing inputs: whenever `simpleRotationCheck` detects
a rotation and the rotation step fails, `extractTextFromImageFast` returns the
failure of lines 106-111 and leaves the storage as it was: neither
preprocessing nor recognition runs, whatever the recognizer would read on the
image. -/
theorem failed_rotation_fails_recognition (env : LocalEnv) (imagePath : String)
    (storage : Storage) (hrot : simpleRotationCheck env.metadata env.textOrientation = true)
    (hfail : env.autoRotate = false) :
    extractTextFromImageFast env imagePath storage = (.error .stillRotated, storage) := by
  simp [extractTextFromImageFast, hrot, hfail, autoRotateImage]

/-- C18 at a concrete run: the metadata flag a rotation (orientation 6), the
rotation step fails, and the recognizer would read the image. -/
theorem failed_rotation_fails_recognition_witness :
    extractTextFromImageFast
        { (exampleEnv none).localEngine with
          metadata := some { orientation := some 6, width := some 1000, height := some 2000 }
          autoRotate := false }
        "uploads/receipt_1002.png" exampleStorage = (.error .stillRotated, exampleStorage) :=
  failed_rotation_fails_recognition
    { (exampleEnv none).localEngine with
      metadata := some { orientation := some 6, width := some 1000, height := some 2000 }
      autoRotate := false }
    "uploads/receipt_1002.png" exampleStorage (by decide) rfl

/-! ## The usage log of the cloud engine -/

/-- C19, the code at the failing inputs: when the provider call throws, when
it returns no text, and when its text holds no identifier,
`detectTextWithGoogleVision` returns before line 113 and writes no usage-log
record although the provider was called; the record is written only when an
identifier is matched, and a failed write then fails the step. -/
theorem provider_calls_without_usage_log :
    (detectTextWithGoogleVision { keyFileExists := true, vision := .error, logSave := some true }
      true).2 = [.provider] ∧
    (detectTextWithGoogleVision { keyFileExists := true, vision := .noText, logSave := some true }
      true).2 = [.provider] ∧
    (detectTextWithGoogleVision
      { keyFileExists := true, vision := .text "no identifier".toList, logSave := some true }
      true).2 = [.provider] ∧
    (detectTextWithGoogleVision
      { keyFileExists := true, vision := .text "A12345678901234567890123456789".toList,
        logSave := some true }
      true) = (.ok "A12345678901234567890123456789".toList,
        [.provider, .usageLog "A12345678901234567890123456789".toList]) ∧
    (detectTextWithGoogleVision
      { keyFileExists := true, vision := .text "A12345678901234567890123456789".toList,
        logSave := some false }
      true).1 = .error .logFailed := by
  decide

/-! ## The shared recognizer -/

theorem workerStep_phase_other (i j : Nat) (s : WorkerState) (h : j ≠ i) :
    (workerStep i s).phase j = s.phase j := by
  simp [workerStep, h]

theorem workerStep_view (i : Nat) (s : WorkerState) :
    ((workerStep i s).phase i, (workerStep i s).globalWorker, (workerStep i s).created) =
      requestStep (s.phase i) s.globalWorker s.created := by
  simp [workerStep]

theorem workerRun_append (a b : List Nat) :
    ∀ s, workerRun (a ++ b) s = workerRun b (workerRun a s) := by
  induction a with
  | nil => intro s; rfl
  | cons i rest ih => intro s; simp [workerRun, ih]

theorem mem_workerTrace_append (a b : List Nat) :
    ∀ s s', s' ∈ workerTrace (a ++ b) s ↔
      s' ∈ workerTrace a s ∨ s' ∈ workerTrace b (workerRun a s) := by
  induction a with
  | nil =>
    intro s s'
    simp only [List.nil_append, workerTrace, workerRun, List.mem_singleton]
    constructor
    · intro h; exact Or.inr h
    · rintro (h | h)
      · rw [h]
        cases b <;> simp [workerTrace]
      · exact h
  | cons i rest ih =>
    intro s s'
    show s' ∈ s :: workerTrace (rest ++ b) (workerStep i s) ↔
      s' ∈ s :: workerTrace rest (workerStep i s) ∨
        s' ∈ workerTrace b (workerRun rest (workerStep i s))
    simp only [List.mem_cons, ih, or_assoc]

theorem workerTrace_block (k : Nat) :
    ∀ (m : Nat) (s s' : WorkerState), s' ∈ workerTrace (List.replicate m k) s →
      ∃ m', m' ≤ m ∧
        (s'.phase k, s'.globalWorker, s'.created) =
          iterStep m' (s.phase k, s.globalWorker, s.created) ∧
        ∀ j, j ≠ k → s'.phase j = s.phase j := by
  intro m
  induction m with
  | zero =>
    intro s s' h
    simp only [List.replicate_zero, workerTrace, List.mem_singleton] at h
    subst h
    exact ⟨0, Nat.le_refl 0, rfl, fun _ _ => rfl⟩
  | succ m ih =>
    intro s s' h
    simp only [List.replicate_succ, workerTrace, List.mem_cons] at h
    rcases h with h | h
    · subst h
      exact ⟨0, Nat.zero_le _, rfl, fun _ _ => rfl⟩
    · obtain ⟨m', hm', hview, hother⟩ := ih (workerStep k s) s' h
      refine ⟨m' + 1, by omega, ?_, ?_⟩
      · rw [hview, workerStep_view]
        rfl
      · intro j hj
        rw [hother j hj, workerStep_phase_other k j s hj]

theorem workerRun_block (k : Nat) :
    ∀ (m : Nat) (s : WorkerState),
      ((workerRun (List.replicate m k) s).phase k,
          (workerRun (List.replicate m k) s).globalWorker,
          (workerRun (List.replicate m k) s).created) =
        iterStep m (s.phase k, s.globalWorker, s.created) ∧
      ∀ j, j ≠ k → (workerRun (List.replicate m k) s).phase j = s.phase j := by
  intro m
  induction m with
  | zero => intro s; exact ⟨rfl, fun _ _ => rfl⟩
  | succ m ih =>
    intro s
    obtain ⟨hview, hother⟩ := ih (workerStep k s)
    simp only [List.replicate_succ, workerRun]
    refine ⟨?_, ?_⟩
    · rw [hview, workerStep_view]
      rfl
    · intro j hj
      rw [hother j hj, workerStep_phase_other k j s hj]

theorem iterStep_first (m : Nat) (hm : m ≤ 5) :
    (iterStep m (.before, none, 0)).2.2 ≤ 1 ∧ (iterStep m (.before, some 0, 1)).2.2 ≤ 1 ∧
    iterStep 5 (.before, none, 0) = (.finished, some 0, 1) ∧
    iterStep 5 (.before, some 0, 1) = (.finished, some 0, 1) := by
  interval_cases m <;> decide

theorem served_block (k : Nat) (s : WorkerState) (h : ServedUpTo k s) :
    (∀ s' ∈ workerTrace (List.replicate 5 k) s, ¬ Overlapping s' ∧ s'.created ≤ 1) ∧
    ServedUpTo (k + 1) (workerRun (List.replicate 5 k) s) := by
  obtain ⟨hdone, hnot, hworker⟩ := h
  have hk : s.phase k = .before := hnot k (Nat.le_refl k)
  constructor
  · intro s' hs'
    obtain ⟨m', hm', hview, hother⟩ := workerTrace_block k 5 s s' hs'
    have hidle : ∀ j, j ≠ k → ∀ w, s'.phase j ≠ .recognizing w := by
      intro j hj w hw
      rw [hother j hj] at hw
      rcases Nat.lt_or_ge j k with hlt | hge
      · rw [hdone j hlt] at hw; exact absurd hw (by simp)
      · rw [hnot j hge] at hw; exact absurd hw (by simp)
    constructor
    · rintro ⟨i, j, hij, ⟨wi, hi⟩, ⟨wj, hj⟩⟩
      by_cases hik : i = k
      · have hjk : j ≠ k := fun e => hij (hik.trans e.symm)
        exact hidle j hjk wj hj
      · exact hidle i hik wi hi
    · have hc : s'.created = (iterStep m' (s.phase k, s.globalWorker, s.created)).2.2 := by
        rw [← hview]
      rw [hc, hk]
      rcases hworker with ⟨_, hg, hcr⟩ | ⟨_, hg, hcr⟩
      · rw [hg, hcr]; exact (iterStep_first m' hm').1
      · rw [hg, hcr]; exact (iterStep_first m' hm').2.1
  · obtain ⟨hview, hother⟩ := workerRun_block k 5 s
    rw [hk] at hview
    have hfin : iterStep 5 (.before, s.globalWorker, s.created) = (.finished, some 0, 1) := by
      rcases hworker with ⟨_, hg, hcr⟩ | ⟨_, hg, hcr⟩
      · rw [hg, hcr]; exact (iterStep_first 5 (Nat.le_refl 5)).2.2.1
      · rw [hg, hcr]; exact (iterStep_first 5 (Nat.le_refl 5)).2.2.2
    rw [hfin] at hview
    simp only [Prod.mk.injEq] at hview
    refine ⟨?_, ?_, Or.inr ⟨Nat.succ_pos k, hview.2.1, hview.2.2⟩⟩
    · intro j hj
      by_cases hjk : j = k
      · rw [hjk]; exact hview.1
      · rw [hother j hjk]; exact hdone j (by omega)
    · intro j hj
      rw [hother j (by omega)]
      exact hnot j (by omega)

theorem served_one_by_one :
    ∀ (n k : Nat) (s : WorkerState), ServedUpTo k s →
      (∀ s' ∈ workerTrace (oneByOne k n) s, ¬ Overlapping s' ∧ s'.created ≤ 1) ∧
      ServedUpTo (k + n) (workerRun (oneByOne k n) s) := by
  intro n
  induction n with
  | zero =>
    intro k s h
    refine ⟨?_, h⟩
    intro s' hs'
    simp only [oneByOne, workerTrace, List.mem_singleton] at hs'
    subst hs'
    obtain ⟨hdone, hnot, hworker⟩ := h
    constructor
    · rintro ⟨i, j, _, ⟨wi, hi⟩, _⟩
      rcases Nat.lt_or_ge i k with hlt | hge
      · rw [hdone i hlt] at hi; exact absurd hi (by simp)
      · rw [hnot i hge] at hi; exact absurd hi (by simp)
    · rcases hworker with ⟨_, _, hcr⟩ | ⟨_, _, hcr⟩ <;> omega
  | succ n ih =>
    intro k s h
    obtain ⟨hblock, hnext⟩ := served_block k s h
    obtain ⟨hrest, hend⟩ := ih (k + 1) _ hnext
    constructor
    · intro s' hs'
      simp only [oneByOne] at hs'
      rcases (mem_workerTrace_append _ _ s s').mp hs' with h1 | h1
      · exact hblock s' h1
      · exact hrest s' h1
    · simp only [oneByOne, workerRun_append]
      have : k + (n + 1) = k + 1 + n := by omega
      rw [this]
      exact hend

/-- C20 (amended): when the requests are served one at a time, each taking
its steps through `getOCRWorker` and `worker.recognize` before the next one
starts, no two calls of `worker.recognize` are in flight together in any state
of the run, `createWorker` is called at most once, and every request
finishes. -/
theorem one_at_a_time_is_serialized (n : Nat) :
    (∀ s ∈ workerTrace (oneByOne 0 n) WorkerState.init, ¬ Overlapping s ∧ s.created ≤ 1) ∧
    ∀ i, i < n → (workerRun (oneByOne 0 n) WorkerState.init).phase i = .finished := by
  have hinit : ServedUpTo 0 WorkerState.init :=
    ⟨fun j hj => absurd hj (Nat.not_lt_zero j), fun _ _ => rfl, Or.inl ⟨rfl, rfl, rfl⟩⟩
  obtain ⟨h1, h2⟩ := served_one_by_one n 0 WorkerState.init hinit
  refine ⟨h1, fun i hi => h2.1 i (by omega)⟩

/-- C20 as stated fails: no queue orders the requests.  When request 1 reaches
line 128 while the call of request 0 is in flight, both calls of
`worker.recognize` are in flight on the same instance; and when request 1
enters `getOCRWorker` before the `createWorker` of request 0 has settled,
`createWorker` is called twice. -/
theorem concurrent_requests_overlap :
    (workerRun [0, 0, 0, 0, 1, 1] WorkerState.init).phase 0 = .recognizing 0 ∧
    (workerRun [0, 0, 0, 0, 1, 1] WorkerState.init).phase 1 = .recognizing 0 ∧
    Overlapping (workerRun [0, 0, 0, 0, 1, 1] WorkerState.init) ∧
    (workerRun [0, 0, 0, 0, 1, 1] WorkerState.init).created = 1 ∧
    (workerRun [0, 1] WorkerState.init).created = 2 :=
  ⟨by decide, by decide, ⟨0, 1, by decide, ⟨0, by decide⟩, ⟨0, by decide⟩⟩, by decide,
    by decide⟩

/-! ## The rotation rule -/

theorem ratio_above_iff (w ht : Nat) (hpos : 0 < ht) :
    (w : ℚ) / (ht : ℚ) > 1.5 ↔ 3 * ht < 2 * w := by
  have hq : (0 : ℚ) < (ht : ℚ) := by exact_mod_cast hpos
  rw [gt_iff_lt, lt_div_iff₀ hq]
  constructor
  · intro h
    have h2 : (3 : ℚ) * (ht : ℚ) < 2 * (w : ℚ) := by norm_num at h; linarith
    exact_mod_cast h2
  · intro h
    have h2 : (3 : ℚ) * (ht : ℚ) < 2 * (w : ℚ) := by exact_mod_cast h
    norm_num
    linarith

theorem ratio_below_iff (w ht : Nat) (hpos : 0 < ht) :
    (w : ℚ) / (ht : ℚ) < 0.7 ↔ 10 * w < 7 * ht := by
  have hq : (0 : ℚ) < (ht : ℚ) := by exact_mod_cast hpos
  rw [div_lt_iff₀ hq]
  constructor
  · intro h
    have h2 : (10 : ℚ) * (w : ℚ) < 7 * (ht : ℚ) := by norm_num at h; linarith
    exact_mod_cast h2
  · intro h
    have h2 : (10 : ℚ) * (w : ℚ) < 7 * (ht : ℚ) := by exact_mod_cast h
    norm_num
    linarith

/-- C21: as a function of the orientation metadata (which, when present, is a
tag other than 0), the width, the height, the horizontal sharpness `h` and the
vertical sharpness `v`, `simpleRotationCheck` returns the value of the rule of
the specification: true if the orientation is present and not 1; otherwise
false if the width or the height is missing; otherwise false if width/height
is above 1.5 or below 0.7; otherwise true exactly when `v > 1.2 * h`, the
product and the comparison being those of the engine on doubles, whatever they
are. -/
theorem simpleRotationCheck_rule (D : Doubles) (orientation width height : Option Nat)
    (h v : D.Number) (htag : orientation ≠ some 0) :
    simpleRotationCheck (some { orientation := orientation, width := width, height := height })
        (checkTextOrientation D (some (h, v))) =
      rotationRule D orientation width height h v := by
  unfold simpleRotationCheck rotationRule
  dsimp only
  by_cases ho : orientation ≠ none ∧ orientation ≠ some 1
  · have ho' : orientation ≠ none ∧ orientation ≠ some 0 ∧ orientation ≠ some 1 :=
      ⟨ho.1, htag, ho.2⟩
    rw [if_pos ho', if_pos ho]
  · have ho' : ¬ (orientation ≠ none ∧ orientation ≠ some 0 ∧ orientation ≠ some 1) :=
      fun hh => ho ⟨hh.1, hh.2.2⟩
    rw [if_neg ho', if_neg ho]
    cases width with
    | none => rfl
    | some w =>
      cases height with
      | none => rfl
      | some ht =>
        simp only
        by_cases hz : w = 0 ∨ ht = 0
        · rw [if_pos hz]
          have hlow : (w : ℚ) / (ht : ℚ) < 0.7 := by
            rcases hz with rfl | rfl <;> norm_num
          rw [if_pos (Or.inr hlow)]
        · rw [if_neg hz]
          have hpos : 0 < ht := by omega
          simp only [ratio_above_iff w ht hpos, ratio_below_iff w ht hpos]
          by_cases h1 : 3 * ht < 2 * w
          · simp [h1]
          · by_cases h2 : 10 * w < 7 * ht
            · simp [h1, h2]
            · rw [if_neg h1, if_neg h2, if_neg (by tauto)]
              rfl

/-- C21 at a concrete image: no orientation tag, 1000 by 1200 pixels, and two
analyses of the direction that both give 0. -/
theorem simpleRotationCheck_rule_witness :
    simpleRotationCheck (some { orientation := none, width := some 1000, height := some 1200 })
        (checkTextOrientation zeroOnly (some ((), ()))) =
      rotationRule zeroOnly none (some 1000) (some 1200) () () :=
  simpleRotationCheck_rule zeroOnly none (some 1000) (some 1200) () () (by decide)

/-! ## The period of the usage count -/

/-- C22, the code at the failing input: for a current date in December
(`getMonth() = 11`) of any year, `getDate` returns as `nextMonth` the first
day of a month 13 of the same year, which is no calendar date, and not
January 1 of the next year; in December 2025 it returns `2025-12-01` and
`2025-13-01`, while in November 2025 both bounds are dates. -/
theorem getDate_in_december :
    (∀ year, (getDate year 11).2 = toString year ++ "-13-01") ∧
    getDate 2025 11 = ("2025-12-01", "2025-13-01") ∧
    (getDate 2025 11).2 ≠ "2026-01-01" ∧
    getDate 2025 10 = ("2025-11-01", "2025-12-01") := by
  refine ⟨?_, by decide, by decide, by decide⟩
  intro year
  have h13 : padStart2 (11 + 2) = "13" := by decide
  simp only [getDate, h13, String.append_assoc]
  rfl

/-! ## The identifier of the cloud engine -/

theorem visionMatchHere_some (s m : List Char) (h : visionMatchHere s = some m) :
    ∃ c ds post, s = c :: ds ++ post ∧ m = c :: ds ∧ ds.length = 29 ∧
      (isLetter c = true ∨ isDigit c = true) ∧ ∀ d ∈ ds, isDigit d = true := by
  cases s with
  | nil => simp [visionMatchHere] at h
  | cons c rest =>
    simp only [visionMatchHere] at h
    split at h
    · rename_i hcond
      simp only [Bool.and_eq_true, decide_eq_true_eq, List.all_eq_true] at hcond
      simp only [Option.some.injEq] at h
      exact ⟨c, rest.take 29, rest.drop 29, by simp, h.symm, hcond.1.2, Or.inl hcond.1.1,
        hcond.2⟩
    · split at h
      · rename_i hcond
        simp only [List.take_succ_cons, List.length_cons, Bool.and_eq_true, decide_eq_true_eq,
          List.all_cons, List.all_eq_true] at hcond
        simp only [List.take_succ_cons, Option.some.injEq] at h
        exact ⟨c, rest.take 29, rest.drop 29, by simp, h.symm, by omega, Or.inr hcond.2.1,
          hcond.2.2⟩
      · simp at h

theorem visionMatch_some (s m : List Char) (h : visionMatch s = some m) :
    ∃ pre c ds post, s = pre ++ c :: ds ++ post ∧ m = c :: ds ∧ ds.length = 29 ∧
      (isLetter c = true ∨ isDigit c = true) ∧ (∀ d ∈ ds, isDigit d = true) ∧
      ∀ k, k < pre.length → visionMatchHere (s.drop k) = none := by
  induction s with
  | nil => simp [visionMatch] at h
  | cons a rest ih =>
    simp only [visionMatch] at h
    cases hm : visionMatchHere (a :: rest) with
    | some m1 =>
      simp only [hm, Option.some.injEq] at h
      subst h
      obtain ⟨c, ds, post, hs, hmc, hlen, hc, hd⟩ := visionMatchHere_some _ _ hm
      exact ⟨[], c, ds, post, by simpa using hs, hmc, hlen, hc, hd, by simp⟩
    | none =>
      simp only [hm] at h
      obtain ⟨pre, c, ds, post, hs, hmc, hlen, hc, hd, hfirst⟩ := ih h
      refine ⟨a :: pre, c, ds, post, by simp [hs], hmc, hlen, hc, hd, ?_⟩
      intro k hk
      cases k with
      | zero => simpa using hm
      | succ j =>
        simp only [List.drop_succ_cons]
        exact hfirst j (by simpa using hk)

theorem visionMatch_whole (c : Char) (ds : List Char)
    (hc : c = 'A' ∨ c = 'B' ∨ c = '4' ∨ c = '8') (hd : ∀ d ∈ ds, isDigit d = true)
    (hlen : ds.length = 29) : visionMatch (c :: ds) = some (c :: ds) := by
  have htake : ds.take 29 = ds := List.take_of_length_le (by omega)
  have hall : ds.all isDigit = true := by simpa [List.all_eq_true] using hd
  have hhere : visionMatchHere (c :: ds) = some (c :: ds) := by
    rcases hc with rfl | rfl | rfl | rfl
    · simp [visionMatchHere, htake, hlen, hall, isLetter]
    · simp [visionMatchHere, htake, hlen, hall, isLetter]
    · have h1 : isLetter '4' = false := by decide
      have h2 : isDigit '4' = true := by decide
      simp [visionMatchHere, htake, hlen, hall, h1, h2]
    · have h1 : isLetter '8' = false := by decide
      have h2 : isDigit '8' = true := by decide
      simp [visionMatchHere, htake, hlen, hall, h1, h2]
  simp only [visionMatch, hhere]

theorem detect_ok_form (env : CloudEnv) (imageExists : Bool) (payload : List Char)
    (h : (detectTextWithGoogleVision env imageExists).1 = .ok payload) :
    ∃ fullText m, env.vision = .text fullText ∧ visionMatch fullText = some m ∧
      payload = visionCorrect m := by
  unfold detectTextWithGoogleVision at h
  cases hi : imageExists with
  | false => simp [hi] at h
  | true =>
    cases hk : env.keyFileExists with
    | false => simp [hi, hk] at h
    | true =>
      cases hv : env.vision with
      | error => simp [hi, hk, hv] at h
      | noText => simp [hi, hk, hv] at h
      | text fullText =>
        cases hm : visionMatch fullText with
        | none => simp [hi, hk, hv, hm] at h
        | some m =>
          cases hs : env.logSave with
          | none => simp [hi, hk, hv, hm, hs] at h
          | some b =>
            cases b with
            | false => simp [hi, hk, hv, hm, hs] at h
            | true =>
              simp only [hi, hk, hv, hm, hs, Bool.not_true, Bool.false_eq_true, if_false,
                Except.ok.injEq] at h
              exact ⟨fullText, m, rfl, hm, h.symm⟩

/-- C23 (amended): the identifier in the success payload of
`detectTextWithGoogleVision` is the first stretch of the recognized text made
of a letter and 29 digits, or of 30 digits, with its leading character
corrected by character value: a leading '4' becomes 'A', a leading '8' becomes
'B', a leading letter stays.  When the recognized text is one of 'A', 'B', '4'
and '8' followed by 29 digits, the payload equals what `extractTUID` returns
for that text. -/
theorem cloud_identifier (env : CloudEnv) (imageExists : Bool) (payload : List Char)
    (h : (detectTextWithGoogleVision env imageExists).1 = .ok payload) :
    (∃ fullText pre c ds post, env.vision = .text fullText ∧
      fullText = pre ++ c :: ds ++ post ∧ ds.length = 29 ∧
      (isLetter c = true ∨ isDigit c = true) ∧ (∀ d ∈ ds, isDigit d = true) ∧
      (∀ k, k < pre.length → visionMatchHere (fullText.drop k) = none) ∧
      (c = '4' → payload = 'A' :: ds) ∧ (c = '8' → payload = 'B' :: ds) ∧
      (isLetter c = true → payload = c :: ds)) ∧
    (∀ c ds, (c = 'A' ∨ c = 'B' ∨ c = '4' ∨ c = '8') → (∀ d ∈ ds, isDigit d = true) →
      ds.length = 29 → env.vision = .text (c :: ds) → extractTUID (c :: ds) = some payload) := by
  obtain ⟨fullText, m, hv, hm, hpay⟩ := detect_ok_form env imageExists payload h
  constructor
  · obtain ⟨pre, c, ds, post, hs, hmc, hlen, hc, hd, hfirst⟩ := visionMatch_some fullText m hm
    refine ⟨fullText, pre, c, ds, post, hv, hs, hlen, hc, hd, hfirst, ?_, ?_, ?_⟩
    · intro e
      rw [hpay, hmc, e]
      rfl
    · intro e
      rw [hpay, hmc, e]
      rfl
    · intro hletter
      have h4 : c ≠ '4' := by
        intro e
        rw [e] at hletter
        exact absurd hletter (by decide)
      have h8 : c ≠ '8' := by
        intro e
        rw [e] at hletter
        exact absurd hletter (by decide)
      rw [hpay, hmc]
      simp [visionCorrect, h4, h8]
  · intro c ds hc hd hlen hv'
    rw [hv] at hv'
    simp only [VisionReply.text.injEq] at hv'
    subst hv'
    rw [visionMatch_whole c ds hc hd hlen] at hm
    simp only [Option.some.injEq] at hm
    have hl : isLead c = true := by rcases hc with rfl | rfl | rfl | rfl <;> decide
    have hk : keptChar c = true := by rcases hc with rfl | rfl | rfl | rfl <;> decide
    have hn : c ≠ '\n' := by rcases hc with rfl | rfl | rfl | rfl <;> decide
    rw [extractTUID_single_line c ds hl hk hn hd (by omega) (by omega), hpay, ← hm]
    rcases hc with rfl | rfl | rfl | rfl <;> rfl

/-- C23 (amended) at a concrete text: a '4' followed by 29 digits is returned
with a leading 'A', as `extractTUID` returns it. -/
theorem cloud_identifier_witness :
    extractTUID "412345678901234567890123456789".toList =
      some "A12345678901234567890123456789".toList :=
  (cloud_identifier
    { keyFileExists := true, vision := .text "412345678901234567890123456789".toList,
      logSave := some true }
    true "A12345678901234567890123456789".toList (by decide)).2 '4'
    "12345678901234567890123456789".toList (Or.inr (Or.inr (Or.inl rfl))) (by decide) (by decide)
    rfl

/-- C23 as stated fails: for a recognized text of 30 digits with a leading '5'
the cloud path returns the 30 digits as they are, while `extractTUID` returns
them with a leading 'B'; and for a recognized text of 'A' and 18 digits the
cloud path finds no identifier, while `extractTUID` returns the text. -/
theorem cloud_payload_differs_from_extractTUID :
    (detectTextWithGoogleVision
      { keyFileExists := true, vision := .text "512345678901234567890123456789".toList,
        logSave := some true } true).1 = .ok "512345678901234567890123456789".toList ∧
    extractTUID "512345678901234567890123456789".toList =
      some "B12345678901234567890123456789".toList ∧
    (detectTextWithGoogleVision
      { keyFileExists := true, vision := .text "A123456789012345678".toList,
        logSave := some true } true).1 = .error .noMatch ∧
    extractTUID "A123456789012345678".toList = some "A123456789012345678".toList := by
  decide

/-! ## The `/ocr` pipeline: success only for verified identifiers -/

/-- C25: a request to `/ocr` that answers success with the identifier `t` has
called `compareTUID` on exactly `t` as its last call, and that call returned
ok: either it is the first verification, made on the identifier extracted from
the local text, or it is the second one, made on the payload of the cloud
engine after the first verification failed. -/
theorem success_only_for_verified (scopeSID : Option String) (env : OcrEnv)
    (imagePath : String) (storage : Storage) (t : List Char)
    (h : (ocrHandler scopeSID env imagePath storage).1 = .success t) :
    (ocrHandler scopeSID env imagePath storage).2.1.getLast? = some (.compareTUID t) ∧
    (((ocrHandler scopeSID env imagePath storage).2.1 = [.localOCR, .compareTUID t] ∧
        (∃ text, (extractTextFromImageFast env.localEngine imagePath storage).1 = .ok text ∧
          extractTUID text = some t) ∧
        env.compareTUID 0 t = true) ∨
      (∃ (t0 : List Char) (calls : List CloudEvent),
          (ocrHandler scopeSID env imagePath storage).2.1 =
          [.localOCR, .compareTUID t0, .quotaCheck, .cloudOCR] ++ calls.map OcrEvent.cloud ++
            [.compareTUID t] ∧
        env.compareTUID 0 t0 = false ∧
        (detectTextWithGoogleVision env.cloud
          ((extractTextFromImageFast env.localEngine imagePath storage).2 (.image imagePath))).1 =
            .ok t ∧
        env.compareTUID 1 t = true)) := by
  by_cases hp : imagePath = ""
  · simp [ocrHandler, hp] at h
  · cases hl : (extractTextFromImageFast env.localEngine imagePath storage).1 with
    | error e => simp [ocrHandler, hp, hl] at h
    | ok text =>
      cases hc : extractTUID text with
      | none => simp [ocrHandler, hp, hl, hc] at h
      | some t0 =>
        by_cases hv : env.compareTUID 0 t0 = true
        · have ht : t0 = t := by simpa [ocrHandler, hp, hl, hc, hv] using h
          subst ht
          have hev : (ocrHandler scopeSID env imagePath storage).2.1 =
              [.localOCR, .compareTUID t0] := by
            simp [ocrHandler, hp, hl, hc, hv]
          rw [hev]
          exact ⟨rfl, Or.inl ⟨rfl, ⟨text, rfl, hc⟩, hv⟩⟩
        · have hv' : env.compareTUID 0 t0 = false := by simpa using hv
          cases hq : env.countOCR with
          | none => simp [ocrHandler, hp, hl, hc, hv', hq] at h
          | some cr =>
            by_cases hbad : cr.ok = false ∨ cr.count = .undefined
            · simp [ocrHandler, hp, hl, hc, hv', hq, hbad] at h
            · by_cases hgt : cr.count.gt env.maxCount = true
              · simp [ocrHandler, hp, hl, hc, hv', hq, hbad, hgt] at h
              · cases scopeSID with
                | none => simp [ocrHandler, hp, hl, hc, hv', hq, hbad, hgt] at h
                | some sid =>
                  cases hg : (detectTextWithGoogleVision env.cloud
                      ((extractTextFromImageFast env.localEngine imagePath storage).2
                        (.image imagePath))).1 with
                  | error reason =>
                    simp [ocrHandler, hp, hl, hc, hv', hq, hbad, hgt, hg] at h
                  | ok payload =>
                    by_cases h2 : env.compareTUID 1 payload = true
                    · have ht : payload = t := by
                        simpa [ocrHandler, hp, hl, hc, hv', hq, hbad, hgt, hg, h2] using h
                      subst ht
                      have hev : (ocrHandler (some sid) env imagePath storage).2.1 =
                          [.localOCR, .compareTUID t0, .quotaCheck, .cloudOCR] ++
                            (detectTextWithGoogleVision env.cloud
                              ((extractTextFromImageFast env.localEngine imagePath storage).2
                                (.image imagePath))).2.map OcrEvent.cloud ++
                            [.compareTUID payload] := by
                        simp [ocrHandler, hp, hl, hc, hv', hq, hbad, hgt, hg, h2]
                      rw [hev]
                      exact ⟨by rw [List.getLast?_append]; rfl, Or.inr ⟨t0, _, rfl, hv', rfl, h2⟩⟩
                    · simp [ocrHandler, hp, hl, hc, hv', hq, hbad, hgt, hg, h2] at h

/-- C25 at concrete requests: the identifier of the local text is verified by
the first call. -/
theorem success_only_for_verified_witness :
    (ocrHandler none
        { exampleEnv (some { ok := true, count := .num 5 }) with compareTUID := fun _ _ => true }
        "uploads/receipt_1002.png" exampleStorage).2.1.getLast? =
      some (.compareTUID "A123456789012345678".toList) :=
  (success_only_for_verified none
    { exampleEnv (some { ok := true, count := .num 5 }) with compareTUID := fun _ _ => true }
    "uploads/receipt_1002.png" exampleStorage "A123456789012345678".toList (by decide)).1

/-! ## Extraction over an extracted identifier -/

theorem canonical_single_line (c : Char) (ds : List Char) (hc : c = 'A' ∨ c = 'B')
    (hd : ∀ d ∈ ds, isDigit d = true) :
    splitLines (cleanText (c :: ds)) = [c :: ds] := by
  have hk : keptChar c = true := by rcases hc with rfl | rfl <;> decide
  have hn : c ≠ '\n' := by rcases hc with rfl | rfl <;> decide
  have hclean : cleanText (c :: ds) = c :: ds := by
    unfold cleanText
    rw [List.filter_eq_self]
    intro a ha
    rcases List.mem_cons.mp ha with rfl | ha
    · exact hk
    · exact isDigit_kept a (hd a ha)
  rw [hclean]
  apply splitLines_single
  intro a ha
  rcases List.mem_cons.mp ha with rfl | ha
  · exact hn
  · exact isDigit_ne_newline a (hd a ha)

/-- C26: for every text on which `extractTUID` returns an identifier `t`: when
`t` has 18 characters or more, `extractTUID` on `t` returns `t`; when `t` has
16 or 17 characters, `extractTUID` on `t` returns `none`, since `t` is too
short to be a candidate line; and `t` has no other length. -/
theorem extractTUID_on_result (text t : List Char) (h : extractTUID text = some t) :
    (18 ≤ t.length → extractTUID t = some t) ∧
    (t.length = 16 ∨ t.length = 17 → extractTUID t = none) ∧
    (18 ≤ t.length ∨ t.length = 16 ∨ t.length = 17) := by
  obtain ⟨line, pre, c, ds, post, _, _, hmatch, hform⟩ := extractTUID_some_form text t h
  obtain ⟨_, hl, hd, h15, h30, _, _⟩ := hmatch
  have hAB := correctedLead_of_isLead c hl
  have hlen : t.length = ds.length + 1 := by rw [hform]; simp
  refine ⟨?_, ?_, by omega⟩
  · intro h18
    have hlead : isLead (correctedLead c) = true := by rcases hAB with e | e <;> rw [e] <;> decide
    have hkept : keptChar (correctedLead c) = true := by
      rcases hAB with e | e <;> rw [e] <;> decide
    have hnl : correctedLead c ≠ '\n' := by rcases hAB with e | e <;> rw [e] <;> decide
    have hsame : correctedLead (correctedLead c) = correctedLead c := by
      rcases hAB with e | e <;> rw [e] <;> decide
    have := extractTUID_single_line (correctedLead c) ds hlead hkept hnl hd (by omega) h30
    rw [hform, this, hsame]
  · intro hshort
    rw [extractTUID_eq_none_iff]
    rintro ⟨l, hmem, hcand, _⟩
    rw [hform, canonical_single_line (correctedLead c) ds hAB hd] at hmem
    simp only [List.mem_singleton] at hmem
    have h18 := hcand.1
    rw [hmem] at h18
    simp only [List.length_cons] at h18
    omega

/-- C26 at concrete texts: an identifier of 19 characters is returned again,
and one of 16 characters is not. -/
theorem extractTUID_on_result_witness :
    (18 ≤ "B987654321098765432".toList.length →
      extractTUID "B987654321098765432".toList = some "B987654321098765432".toList) ∧
    ("A123456789012345".toList.length = 16 ∨ "A123456789012345".toList.length = 17 →
      extractTUID "A123456789012345".toList = none) :=
  ⟨(extractTUID_on_result "8987654321098765432".toList "B987654321098765432".toList
      (by decide)).1,
    (extractTUID_on_result "A123456789012345xy".toList "A123456789012345".toList
      (by decide)).2.1⟩

/-! ## The invariant of the sessions -/

theorem sessionInvariant_put (m : UploadTracker) (fs fs' : FileSystem) (sid : String)
    (t : Tracker) (h : SessionInvariant { uploadTracker := m, fs := fs }) (ht : SessionOk t) :
    SessionInvariant { uploadTracker := m.put sid t, fs := fs' } := by
  intro s u hu
  simp only [tracker_get_put] at hu
  by_cases hs : s = sid
  · simp only [hs, if_true, Option.some.injEq] at hu
    rw [← hu]; exact ht
  · simp only [hs, if_false] at hu
    exact h s u hu

theorem sessionInvariant_delete (m : UploadTracker) (fs fs' : FileSystem) (sid : String)
    (h : SessionInvariant { uploadTracker := m, fs := fs }) :
    SessionInvariant { uploadTracker := m.delete sid, fs := fs' } := by
  intro s u hu
  simp only [tracker_get_delete] at hu
  by_cases hs : s = sid
  · simp [hs] at hu
  · simp only [hs, if_false] at hu
    exact h s u hu

theorem newSession_ok (SID : String) (N now : Int) (hN : 0 < N) :
    SessionOk (newSession SID N now) := by
  refine ⟨?_, newSession_counts SID N now, ?_⟩
  · simp only [newSession, List.length_replicate]
    exact Int.toNat_of_nonneg (le_of_lt hN)
  · simpa [newSession] using hN

theorem openSession_invariant (SID : String) (N now : Int) (st : MergeState) (hN : 0 < N)
    (h : SessionInvariant st) :
    SessionInvariant (openSession SID N now st).2 ∧ SessionOk (openSession SID N now st).1 ∧
      (openSession SID N now st).1.total = N := by
  unfold openSession
  cases hget : st.uploadTracker.get SID with
  | none =>
    exact ⟨sessionInvariant_put _ st.fs _ _ _ h (newSession_ok SID N now hN),
      newSession_ok SID N now hN, rfl⟩
  | some old =>
    by_cases hne : old.total = N
    · simp only [hne, ne_eq, not_true_eq_false, if_false]
      exact ⟨h, h SID old hget, trivial⟩
    · simp only [hne, ne_eq, not_false_eq_true, if_true]
      exact ⟨sessionInvariant_put _ st.fs _ _ _ h (newSession_ok SID N now hN),
        newSession_ok SID N now hN, rfl⟩

theorem storeAndMerge_invariant (FILENAME SID : String) (data : Bytes) (i : Nat) (now : Int)
    (t : Tracker) (st : MergeState) (h : SessionInvariant st) (ht : SessionOk t)
    (hi : (i : Int) < t.total)
    (hok : StorageSucceeds (storeAndMerge FILENAME SID data i now t st).1) :
    SessionInvariant (storeAndMerge FILENAME SID data i now t st).2 := by
  unfold storeAndMerge storeChunk at hok ⊢
  obtain ⟨hlen, hcount, hbelow⟩ := ht
  cases hs : slot t.chunks i with
  | some q => exact h
  | none =>
    cases hw : st.fs.writeFile ⟨t.tempDir, i⟩ data with
    | none => exact fun s u hu => h s u hu
    | some fs2 =>
      simp only [hs, hw] at hok ⊢
      have hil : i < t.chunks.length := by omega
      have hset : setSlot t.chunks i ⟨t.tempDir, i⟩ = t.chunks.set i (some ⟨t.tempDir, i⟩) := by
        simp [setSlot, hil]
      unfold mergeChunks at hok ⊢
      by_cases hfull : ((t.received + 1 : Nat) : Int) = t.total
      · simp only [hfull, if_true] at hok ⊢
        cases hr : readChunks fs2 (setSlot t.chunks i ⟨t.tempDir, i⟩)
            (List.range t.total.toNat) with
        | error e =>
          simp only [hr] at hok
          obtain ⟨j, _, he⟩ := readChunks_error _ _ _ e hr
          exact absurd (by rw [he]) (hok.2 j)
        | ok buffers =>
          simp only
          intro s u hu
          simp only [tracker_get_delete, tracker_get_put] at hu
          by_cases hsid : s = SID
          · simp [hsid] at hu
          · simp only [hsid, if_false] at hu
            exact h s u hu
      · simp only [hfull, if_false]
        apply sessionInvariant_put _ st.fs _ _ _ h
        refine ⟨?_, ?_, ?_⟩
        · simp only [hset, List.length_set]
          exact hlen
        · simp [countFilled_setSlot _ _ _ hs, hcount]
        · simp only
          push_cast at hfull ⊢
          omega

theorem imageMerge_invariant (FILENAME SID : String) (chunkData : Option Bytes)
    (chunkIndex totalChunks : Int) (now : Int) (st : MergeState) (h : SessionInvariant st)
    (hidx : chunkIndex < totalChunks)
    (hok : StorageSucceeds (imageMerge FILENAME SID chunkData chunkIndex totalChunks now st).1) :
    SessionInvariant (imageMerge FILENAME SID chunkData chunkIndex totalChunks now st).2 := by
  unfold imageMerge at hok ⊢
  cases chunkData with
  | none => exact h
  | some data =>
    by_cases hv : FILENAME = "" ∨ SID = "" ∨ chunkIndex < 0 ∨ totalChunks ≤ 0
    · simp only [hv, if_true]; exact h
    · simp only [hv, if_false] at hok ⊢
      have hpos : 0 ≤ chunkIndex ∧ 0 < totalChunks := by
        constructor
        · by_contra hc; exact hv (Or.inr (Or.inr (Or.inl (by omega))))
        · by_contra hc; exact hv (Or.inr (Or.inr (Or.inr (by omega))))
      obtain ⟨h1, h2, h3⟩ := openSession_invariant SID totalChunks now st hpos.2 h
      apply storeAndMerge_invariant _ _ _ _ _ _ _ h1 h2 _ hok
      rw [h3, Int.toNat_of_nonneg hpos.1]
      exact hidx

theorem foldl_reapEntry_invariant (maxAge now : Int) (entries : List (String × Tracker)) :
    ∀ st, SessionInvariant st → SessionInvariant (entries.foldl (reapEntry maxAge now) st) := by
  induction entries with
  | nil => intro st h; exact h
  | cons e rest ih =>
    intro st h
    apply ih
    unfold reapEntry
    split
    · exact sessionInvariant_delete _ st.fs _ _ h
    · exact h

/-- C24: in every state reached from the empty session map by calls of
`imageMerge` whose chunk index is below the declared total and whose storage
operations succeed (and by runs of `cleanupOldUploads`), every session of the
map has a slot array whose length is the session's total, a `received` equal
to the number of filled slots, and a `received` strictly below the total. -/
theorem session_invariant_in_range (st : MergeState) (h : InRange st) :
    ∀ sid t, st.uploadTracker.get sid = some t →
      (t.chunks.length : Int) = t.total ∧ t.received = countFilled t.chunks ∧
        (t.received : Int) < t.total := by
  have hinv : SessionInvariant st := by
    induction h with
    | init fs => intro s u hu; simp [UploadTracker.get] at hu
    | call FILENAME SID chunkData chunkIndex totalChunks now st _ hidx hok ih =>
      exact imageMerge_invariant _ _ _ _ _ _ _ ih hidx hok
    | reap maxAge now st _ ih =>
      exact foldl_reapEntry_invariant maxAge now _ st ih
  exact hinv

/-- C24 at a concrete state: the session of a two-chunk upload after its first
chunk. -/
theorem session_invariant_in_range_witness :
    (([some ⟨"sid-1", 0⟩, none] : List (Option ChunkPath)).length : Int) = 2 ∧
      1 = countFilled [some ⟨"sid-1", 0⟩, none] ∧ ((1 : Nat) : Int) < 2 :=
  session_invariant_in_range
    (imageMerge "receipt.png" "sid-1" (some [10, 20]) 0 2 1001 MergeState.init).2
    (InRange.call "receipt.png" "sid-1" (some [10, 20]) 0 2 1001 MergeState.init
      (InRange.init FileSystem.empty) (by decide)
      ⟨by decide, fun i hres => by
        have h1 : (imageMerge "receipt.png" "sid-1" (some [10, 20]) 0 2 1001
            MergeState.init).1 = .ok none := by decide
        rw [h1] at hres
        cases hres⟩)
    "sid-1"
    { chunks := [some ⟨"sid-1", 0⟩, none], received := 1, total := 2, tempDir := "sid-1",
      startTime := 1001 }
    (by decide)

/-! ## The client splitter -/

theorem splitLoop_done (file : Bytes) (start : Nat) (h : file.length ≤ start) :
    splitLoop file start = [] := by
  rw [splitLoop, if_neg (by omega)]

theorem splitLoop_step (file : Bytes) (start : Nat) (hlt : start < file.length) :
    splitLoop file start =
      (file.drop start).take CHUNK_SIZE ::
        splitLoop file (min (start + CHUNK_SIZE) file.length) := by
  rw [splitLoop, if_pos hlt]
  congr 1
  by_cases hmore : start + CHUNK_SIZE ≤ file.length
  · have : min (start + CHUNK_SIZE) file.length - start = CHUNK_SIZE := by omega
    rw [this]
  · rw [List.take_of_length_le (by simp only [List.length_drop]; omega),
      List.take_of_length_le (by simp only [List.length_drop]; omega)]

theorem splitLoop_spec (file : Bytes) :
    ∀ n start, file.length - start = n →
      splitLoop file start =
          (List.range ((file.length - start + CHUNK_SIZE - 1) / CHUNK_SIZE)).map
            (fun k => (file.drop (start + k * CHUNK_SIZE)).take CHUNK_SIZE) ∧
      (splitLoop file start).flatten = file.drop start ∧
      ∀ c ∈ splitLoop file start, 0 < c.length ∧ c.length ≤ CHUNK_SIZE := by
  have hs : 0 < CHUNK_SIZE := by decide
  intro n
  induction n using Nat.strong_induction_on with
  | _ n ih =>
    intro start hn
    by_cases hlt : start < file.length
    · rw [splitLoop_step file start hlt]
      have hfirst : 0 < ((file.drop start).take CHUNK_SIZE).length ∧
          ((file.drop start).take CHUNK_SIZE).length ≤ CHUNK_SIZE := by
        simp only [List.length_take, List.length_drop]
        omega
      by_cases hmore : start + CHUNK_SIZE < file.length
      · have hnext : min (start + CHUNK_SIZE) file.length = start + CHUNK_SIZE := by omega
        rw [hnext]
        obtain ⟨h1, h2, h3⟩ := ih (file.length - (start + CHUNK_SIZE)) (by omega) (start + CHUNK_SIZE) rfl
        refine ⟨?_, ?_, ?_⟩
        · have hcount : (file.length - start + CHUNK_SIZE - 1) / CHUNK_SIZE =
              (file.length - (start + CHUNK_SIZE) + CHUNK_SIZE - 1) / CHUNK_SIZE + 1 := by
            have : file.length - start + CHUNK_SIZE - 1 =
                (file.length - (start + CHUNK_SIZE) + CHUNK_SIZE - 1) + CHUNK_SIZE := by omega
            rw [this, Nat.add_div_right _ hs]
          rw [hcount, List.range_succ_eq_map, List.map_cons, List.map_map, h1]
          simp only [Nat.zero_mul, Nat.add_zero]
          congr 1
          apply List.map_congr_left
          intro k _
          simp only [Function.comp]
          have : start + CHUNK_SIZE + k * CHUNK_SIZE = start + (k + 1) * CHUNK_SIZE := by ring
          rw [this]
        · rw [List.flatten_cons, h2]
          have : List.drop (start + CHUNK_SIZE) file = List.drop CHUNK_SIZE (List.drop start file) := by
            rw [List.drop_drop]
          rw [this]
          exact List.take_append_drop _ _
        · intro c hc
          rcases List.mem_cons.mp hc with rfl | hc
          · exact hfirst
          · exact h3 c hc
      · have hnext : min (start + CHUNK_SIZE) file.length = file.length := by omega
        rw [hnext, splitLoop_done file file.length (le_refl _)]
        refine ⟨?_, ?_, ?_⟩
        · have hcount : (file.length - start + CHUNK_SIZE - 1) / CHUNK_SIZE = 1 := by
            have : file.length - start + CHUNK_SIZE - 1 = (file.length - start - 1) + CHUNK_SIZE := by omega
            rw [this, Nat.add_div_right _ hs, Nat.div_eq_of_lt (by omega)]
          rw [hcount]
          show _ = [List.take CHUNK_SIZE (List.drop (start + 0 * CHUNK_SIZE) file)]
          rw [Nat.zero_mul, Nat.add_zero]
        · rw [List.flatten_cons, List.flatten_nil, List.append_nil]
          exact List.take_of_length_le (by simp only [List.length_drop]; omega)
        · intro c hc
          simp only [List.mem_singleton] at hc
          rw [hc]
          exact hfirst
    · rw [splitLoop_done file start (by omega)]
      refine ⟨?_, ?_, ?_⟩
      · have hcount : (file.length - start + CHUNK_SIZE - 1) / CHUNK_SIZE = 0 :=
          Nat.div_eq_of_lt (by omega)
        rw [hcount]
        rfl
      · rw [List.drop_of_length_le (by omega)]
        rfl
      · intro c hc
        simp at hc

theorem splitFileIntoChunks_short (file : Bytes) (h0 : file ≠ [])
    (h : file.length ≤ CHUNK_SIZE) : splitFileIntoChunks file = [file] := by
  have hpos : 0 < file.length := List.length_pos.mpr h0
  unfold splitFileIntoChunks
  rw [splitLoop_step file 0 hpos]
  have hnext : min (0 + CHUNK_SIZE) file.length = file.length := by omega
  rw [hnext, splitLoop_done file file.length (le_refl _), List.drop_zero,
    List.take_of_length_le h]

/-- C27: `splitFileIntoChunks` is defined for every file (its loop ends), and
for a file of `S` bytes it returns the ceiling of `S / 2097152` chunks, each
non-empty and of at most 2097152 bytes; chunk `k` is the stretch of the file
from byte `2097152 * k` on, so the chunks are consecutive and do not overlap,
and their concatenation in order is the file.  An empty file gives no chunk;
for a non-empty file, uploading the chunks in any order of arrival, each with
its index and the number of chunks as total, makes `imageMerge` write an
artifact whose bytes are the file. -/
theorem splitFileIntoChunks_partitions (file : Bytes) :
    CHUNK_SIZE = 2097152 ∧
    (splitFileIntoChunks file).length = (file.length + CHUNK_SIZE - 1) / CHUNK_SIZE ∧
    (∀ c ∈ splitFileIntoChunks file, 0 < c.length ∧ c.length ≤ CHUNK_SIZE) ∧
    (∀ k, k < (splitFileIntoChunks file).length →
      (splitFileIntoChunks file)[k]? = some ((file.drop (k * CHUNK_SIZE)).take CHUNK_SIZE)) ∧
    (splitFileIntoChunks file).flatten = file ∧
    (file = [] → splitFileIntoChunks file = []) ∧
    (file ≠ [] → ∀ (FILENAME SID : String) (calls : List Call) (st : MergeState),
      FILENAME ≠ "" → SID ≠ "" →
      (calls.map Call.idx).Perm (List.range (splitFileIntoChunks file).length) →
      (∀ c ∈ calls, c.data = (splitFileIntoChunks file).getD c.idx []) →
      st.uploadTracker.get SID = none →
      ∃ p, (uploadRun FILENAME SID (splitFileIntoChunks file).length calls st).1 =
          List.replicate ((splitFileIntoChunks file).length - 1) (.ok none) ++ [.ok (some p)] ∧
        (uploadRun FILENAME SID (splitFileIntoChunks file).length calls st).2.fs.uploads p =
          some file) := by
  have hs : 0 < CHUNK_SIZE := by decide
  obtain ⟨h1, h2, h3⟩ := splitLoop_spec file file.length 0 rfl
  have hflat : (splitFileIntoChunks file).flatten = file := by
    unfold splitFileIntoChunks
    rw [h2, List.drop_zero]
  have hlen : (splitFileIntoChunks file).length = (file.length + CHUNK_SIZE - 1) / CHUNK_SIZE := by
    unfold splitFileIntoChunks
    rw [h1, List.length_map, List.length_range, Nat.sub_zero]
  refine ⟨by decide, hlen, h3, ?_, hflat, ?_, ?_⟩
  · intro k hk
    rw [hlen] at hk
    unfold splitFileIntoChunks
    rw [h1, List.getElem?_map, List.getElem?_range (by simpa using hk), Option.map_some',
      Nat.zero_add]
  · intro he
    unfold splitFileIntoChunks
    rw [he]
    exact splitLoop_done [] 0 (le_refl _)
  · intro hne FILENAME SID calls st hF hS hperm hdata hfresh
    have hN : 0 < (splitFileIntoChunks file).length := by
      rcases Nat.eq_zero_or_pos (splitFileIntoChunks file).length with h0 | h0
      · rw [List.length_eq_zero.mp h0] at hflat
        exact absurd hflat.symm hne
      · exact h0
    have := upload_in_any_order FILENAME SID hF hS (splitFileIntoChunks file).length hN
      (splitFileIntoChunks file) rfl calls hperm hdata st (Or.inl hfresh)
    rw [hflat] at this
    exact this

/-- C27 at a concrete file of three bytes: one chunk, and its upload gives the
file back. -/
theorem splitFileIntoChunks_partitions_witness :
    ∃ p, (uploadRun "receipt.png" "sid-1" (splitFileIntoChunks [10, 20, 30]).length
          [⟨0, [10, 20, 30], 1001⟩] MergeState.init).1 =
        List.replicate ((splitFileIntoChunks [10, 20, 30]).length - 1) (.ok none) ++
          [.ok (some p)] ∧
      (uploadRun "receipt.png" "sid-1" (splitFileIntoChunks [10, 20, 30]).length
          [⟨0, [10, 20, 30], 1001⟩] MergeState.init).2.fs.uploads p = some [10, 20, 30] :=
  (splitFileIntoChunks_partitions [10, 20, 30]).2.2.2.2.2.2 (by decide) "receipt.png" "sid-1"
    [⟨0, [10, 20, 30], 1001⟩] MergeState.init (by decide) (by decide)
    (by rw [splitFileIntoChunks_short [10, 20, 30] (by decide) (by decide)]; decide)
    (by rw [splitFileIntoChunks_short [10, 20, 30] (by decide) (by decide)]; decide)
    rfl

end OCRProject
